import Mathlib

/-!
# jaeger-postgresql: the trace codec of `internal/store/mapping.go`

A shallow embedding of the codec functions of package `store` and of the Go
library calls they make, followed by the properties proved about them.

Conventions of the embedding

* A Go call ends in one of three ways, kept apart by `Outcome`: it returns a
  value, it returns an `error` value, or it panics.
* The contents of a `[]byte` are a list of bytes; where a function slices its
  argument, the argument is a `ByteSlice`, which also carries the spare capacity, since
  a slice expression is bounded by the capacity and not by the length.
* `uint64` and `int64` are `Nat` and `Int`; range assumptions are explicit.
* A Go `string` is a sequence of Unicode characters (valid UTF-8 text).
-/

namespace Store

/-! ## Part 1: definitions -/

/-- How a Go call ends: with a value, with a returned `error`, or with a panic. -/
inductive Outcome (α : Type) where
  | ok (v : α)
  | error (msg : String)
  | panic (msg : String)
  deriving DecidableEq, Repr

namespace Outcome

/-- Sequencing of Go statements: the first failure ends the call. -/
def bind {α β : Type} (x : Outcome α) (f : α → Outcome β) : Outcome β :=
  match x with
  | ok v => f v
  | error m => error m
  | panic m => panic m

instance : Monad Outcome where
  pure := Outcome.ok
  bind := Outcome.bind

/-- The call returned normally, with a value. -/
def isOk {α : Type} : Outcome α → Bool
  | ok _ => true
  | _ => false

/-- The call handed an `error` value back to its caller. -/
def isError {α : Type} : Outcome α → Bool
  | error _ => true
  | _ => false

/-- The call aborted with a run-time panic. -/
def isPanic {α : Type} : Outcome α → Bool
  | panic _ => true
  | _ => false

end Outcome

/-- One octet. -/
abbrev Byte := Fin 256

/-- The conversion `byte(v)`: the low eight bits of `v`. -/
def byte (v : Nat) : Byte := ⟨v % 256, Nat.mod_lt v (by decide)⟩

/-- A Go `[]byte` as a function receives it: its elements, and the bytes of its backing
array behind them, which a slice expression can reach. The capacity is the length of
both together. -/
structure ByteSlice where
  elems : List Byte
  spare : List Byte
  deriving DecidableEq, Repr

/-- The capacity `cap(raw)`. -/
def ByteSlice.cap (raw : ByteSlice) : Nat := raw.elems.length + raw.spare.length

/-- The elements of the slice expression `raw[lo:hi]`. Go bounds a slice expression on a
slice by the capacity, not by the length: it panics unless `lo ≤ hi ≤ cap(raw)`, and up
to the capacity it reads the backing array behind the elements. -/
def sliceOf (raw : ByteSlice) (lo hi : Nat) : Outcome (List Byte) :=
  if lo ≤ hi ∧ hi ≤ raw.cap then .ok (((raw.elems ++ raw.spare).take hi).drop lo)
  else .panic "slice bounds out of range"

/-! ### `encoding/binary`, little endian -/

/-- The call `binary.LittleEndian.Uint64(b)`: reads `b[0..7]`, least significant byte first;
panics on a slice shorter than eight bytes and ignores anything after them. -/
def LittleEndian.Uint64 : List Byte → Outcome Nat
  | b0 :: b1 :: b2 :: b3 :: b4 :: b5 :: b6 :: b7 :: _ =>
    .ok (b0.val + b1.val * 2 ^ 8 + b2.val * 2 ^ 16 + b3.val * 2 ^ 24
      + b4.val * 2 ^ 32 + b5.val * 2 ^ 40 + b6.val * 2 ^ 48 + b7.val * 2 ^ 56)
  | _ => .panic "index out of range [7]"

/-- The call `binary.LittleEndian.AppendUint64(b, v)`: appends the eight bytes of `v`,
least significant first. -/
def LittleEndian.AppendUint64 (b : List Byte) (v : Nat) : List Byte :=
  b ++ [byte v, byte (v >>> 8), byte (v >>> 16), byte (v >>> 24),
        byte (v >>> 32), byte (v >>> 40), byte (v >>> 48), byte (v >>> 56)]

/-! ### Identifiers (`model.TraceID`, `model.SpanID`) -/

/-- The type `model.TraceID`: two `uint64` halves. -/
structure TraceID where
  High : Nat
  Low : Nat
  deriving DecidableEq, Repr

/-- The call `model.NewTraceID(high, low)`. -/
def NewTraceID (high low : Nat) : TraceID := { High := high, Low := low }

/-- The type `model.SpanID` is a `uint64`. -/
abbrev SpanID := Nat

/-- The call `model.NewSpanID(v)`. -/
def NewSpanID (v : Nat) : SpanID := v

/-- The function `DecodeTraceID` of mapping.go. The local named `low` is read from `raw[0:8]`,
the one named `high` from `raw[8:16]`, and they are passed to `NewTraceID` in
that order, so the first eight bytes end up in `High`. -/
def DecodeTraceID (raw : ByteSlice) : Outcome TraceID := do
  let low ← (← sliceOf raw 0 8) |> LittleEndian.Uint64
  let high ← (← sliceOf raw 8 16) |> LittleEndian.Uint64
  return NewTraceID low high

/-- The function `EncodeTraceID` of mapping.go. -/
def EncodeTraceID (traceID : TraceID) : List Byte :=
  let raw := []
  let raw := LittleEndian.AppendUint64 raw traceID.High
  let raw := LittleEndian.AppendUint64 raw traceID.Low
  raw

/-- The function `EncodeSpanID` of mapping.go. -/
def EncodeSpanID (spanID : SpanID) : List Byte :=
  LittleEndian.AppendUint64 [] spanID

/-- The function `DecodeSpanID` of mapping.go. `Uint64` indexes its argument, which is
bounded by the length, so the spare capacity plays no part. -/
def DecodeSpanID (raw : ByteSlice) : Outcome SpanID := do
  let v ← LittleEndian.Uint64 raw.elems
  return NewSpanID v

/-- Decimal digit characters. -/
def isDigit (c : Char) : Bool := 48 ≤ c.toNat && c.toNat ≤ 57

/-! ### `strconv` -/

/-- The function `strconv.FormatBool`. -/
def FormatBool (b : Bool) : String := if b then "true" else "false"

/-- The function `strconv.ParseBool`: the twelve accepted spellings, anything else is an
error. -/
def ParseBool (s : String) : Option Bool :=
  if s = "1" ∨ s = "t" ∨ s = "T" ∨ s = "TRUE" ∨ s = "true" ∨ s = "True" then some true
  else if s = "0" ∨ s = "f" ∨ s = "F" ∨ s = "FALSE" ∨ s = "false" ∨ s = "False" then some false
  else none

/-- The decimal digit character of `d` (for `d < 10`). -/
def digitChar (d : Nat) : Char := Char.ofNat (48 + d)

/-- The value of a decimal digit character. -/
def digitVal (c : Char) : Option Nat :=
  if 48 ≤ c.toNat ∧ c.toNat ≤ 57 then some (c.toNat - 48) else none

/-- Decimal digits of `n`, most significant first, in front of `acc`; `fuel` bounds
the number of digits. -/
def natDigits : Nat → Nat → List Char → List Char
  | 0, _, acc => acc
  | fuel + 1, n, acc =>
    if n < 10 then digitChar n :: acc
    else natDigits fuel (n / 10) (digitChar (n % 10) :: acc)

/-- Base-10 text of a natural number. -/
def formatNat (n : Nat) : List Char := natDigits (n + 1) n []

/-- The call `strconv.FormatInt(i, 10)`. -/
def FormatInt (i : Int) : String :=
  match i with
  | Int.ofNat n => String.mk (formatNat n)
  | Int.negSucc n => String.mk ('-' :: formatNat (n + 1))

/-- Value of a run of decimal digits read left to right from `acc`; `none` on a
character that is not a digit. -/
def parseDigits : List Char → Nat → Option Nat
  | [], acc => some acc
  | c :: cs, acc =>
    match digitVal c with
    | some d => parseDigits cs (acc * 10 + d)
    | none => none

/-- The call `strconv.ParseUint(s, 10, 64)` without its range check. -/
def parseNat (cs : List Char) : Option Nat :=
  match cs with
  | [] => none
  | _ => parseDigits cs 0

/-- An optional sign, then decimal digits only: whether the sign is a minus, and the
magnitude. -/
def parseSigned : List Char → Option (Bool × Nat)
  | [] => none
  | c :: cs =>
    match parseNat (if c = '+' ∨ c = '-' then cs else c :: cs) with
    | none => none
    | some un => some (decide (c = '-'), un)

/-- The call `strconv.ParseInt(s, 10, 64)`: an optional sign, then decimal digits only;
`none` for a syntax error or a value outside the int64 range. -/
def ParseInt (s : String) : Option Int :=
  match parseSigned s.data with
  | none => none
  | some (neg, un) =>
    if neg then (if un ≤ 2 ^ 63 then some (-(un : Int)) else none)
    else (if un < 2 ^ 63 then some (un : Int) else none)


/-! ### `encoding/base64` -/

/-- The character of the standard alphabet at index `n` (for `n < 64`). -/
def b64Char (n : Nat) : Char :=
  if n < 26 then Char.ofNat (65 + n)
  else if n < 52 then Char.ofNat (97 + (n - 26))
  else if n < 62 then Char.ofNat (48 + (n - 52))
  else if n = 62 then '+' else '/'

/-- The index of a character in the standard alphabet, if it is in it. -/
def b64Val (c : Char) : Option Nat :=
  if 65 ≤ c.toNat ∧ c.toNat ≤ 90 then some (c.toNat - 65)
  else if 97 ≤ c.toNat ∧ c.toNat ≤ 122 then some (c.toNat - 97 + 26)
  else if 48 ≤ c.toNat ∧ c.toNat ≤ 57 then some (c.toNat - 48 + 52)
  else if c = '+' then some 62
  else if c = '/' then some 63
  else none

/-- The function `EncodeToString` of `base64.StdEncoding` (`pad = true`, padded with `=`)
and of `base64.RawStdEncoding` (`pad = false`). -/
def b64Encode (pad : Bool) : List Byte → List Char
  | a :: b :: c :: rest =>
    b64Char (a.val / 4) :: b64Char (a.val % 4 * 16 + b.val / 16)
      :: b64Char (b.val % 16 * 4 + c.val / 64) :: b64Char (c.val % 64) :: b64Encode pad rest
  | [a, b] =>
    b64Char (a.val / 4) :: b64Char (a.val % 4 * 16 + b.val / 16) :: b64Char (b.val % 16 * 4)
      :: (if pad then ['='] else [])
  | [a] =>
    b64Char (a.val / 4) :: b64Char (a.val % 4 * 16) :: (if pad then ['=', '='] else [])
  | [] => []

/-- Line breaks, which the decoder skips wherever they stand. -/
def skipNewlines : List Char → List Char
  | c :: cs => if c = '\n' ∨ c = '\r' then skipNewlines cs else c :: cs
  | [] => []

/-- The function `Decode` of the two encodings, non-strict as both are: `q` holds the
sextets read so far of the current group of four. Line breaks are skipped; any other
character outside the alphabet is an error, except the padding that closes a padded
text; a padded text must end on a full group, an unpadded one may not end one sextet
into a group. `none` stands for `CorruptInputError`. -/
def b64Decode (pad : Bool) : List Nat → List Char → Option (List Byte)
  | q, [] =>
    match q with
    | [] => some []
    | [a, b] => if pad then none else some [byte (a * 4 + b / 16)]
    | [a, b, c] =>
      if pad then none else some [byte (a * 4 + b / 16), byte (b * 16 + c / 4)]
    | _ => none
  | q, ch :: cs =>
    match b64Val ch with
    | some v =>
      match q with
      | [a, b, c] =>
        (b64Decode pad [] cs).map fun out =>
          byte (a * 4 + b / 16) :: byte (b * 16 + c / 4) :: byte (c * 64 + v) :: out
      | _ => b64Decode pad (q ++ [v]) cs
    | none =>
      if ch = '\n' ∨ ch = '\r' then b64Decode pad q cs
      else if ch = '=' ∧ pad = true then
        match q with
        | [a, b] =>
          match skipNewlines cs with
          | p :: rest =>
            if p = '=' ∧ skipNewlines rest = [] then some [byte (a * 4 + b / 16)] else none
          | [] => none
        | [a, b, c] =>
          if skipNewlines cs = [] then some [byte (a * 4 + b / 16), byte (b * 16 + c / 4)]
          else none
        | _ => none
      else none

/-- The function `base64.StdEncoding.EncodeToString`. -/
def StdEncoding.EncodeToString (src : List Byte) : String := String.mk (b64Encode true src)

/-- The method `DecodedLen` of `base64.StdEncoding`: the size of the buffer that
`DecodeString` allocates for a text of `n` bytes. -/
def StdEncoding.DecodedLen (n : Nat) : Nat := n / 4 * 3

/-- The function `base64.StdEncoding.DecodeString`: it decodes into a zeroed buffer of
`DecodedLen(len(s))` bytes and returns the decoded part of it, so what is left of the
buffer is the spare capacity of the result. -/
def StdEncoding.DecodeString (s : String) : Option ByteSlice :=
  (b64Decode true [] s.data).map fun decoded =>
    { elems := decoded,
      spare := List.replicate (StdEncoding.DecodedLen s.utf8ByteSize - decoded.length) 0 }

/-- The function `base64.RawStdEncoding.EncodeToString`. -/
def RawStdEncoding.EncodeToString (src : List Byte) : String := String.mk (b64Encode false src)

/-- The elements of the slice that `base64.RawStdEncoding.DecodeString` returns. -/
def RawStdEncoding.DecodeString (s : String) : Option (List Byte) := b64Decode false [] s.data


/-! ### `encoding/json` -/

/-- A JSON text as a tree. A number keeps its literal; an object keeps its members in
the order of the text. -/
inductive JSON where
  | null
  | bool (b : Bool)
  | num (lit : String)
  | str (s : String)
  | arr (elems : List JSON)
  | obj (members : List (String × JSON))

/-- Lower-case hexadecimal digit of `n` (for `n < 16`). -/
def hexDigit (n : Nat) : Char := if n < 10 then Char.ofNat (48 + n) else Char.ofNat (87 + n)

/-- How `json.Marshal` writes one character of a string: the quote and the backslash
behind a backslash, the five short escapes, the other control characters and the
HTML-sensitive `<`, `>`, `&` as `\u00XX`, the two line separators
U+2028 and U+2029 as `\u2028` and `\u2029`, everything else as itself. -/
def escapeChar (c : Char) : List Char :=
  if c = '"' then ['\\', '"']
  else if c = '\\' then ['\\', '\\']
  else if c = '\x08' then ['\\', 'b']
  else if c = '\x0c' then ['\\', 'f']
  else if c = '\n' then ['\\', 'n']
  else if c = '\r' then ['\\', 'r']
  else if c = '\t' then ['\\', 't']
  else if c.toNat < 32 ∨ c = '<' ∨ c = '>' ∨ c = '&' then
    ['\\', 'u', '0', '0', hexDigit (c.toNat / 16), hexDigit (c.toNat % 16)]
  else if c = Char.ofNat 8232 then ['\\', 'u', '2', '0', '2', '8']
  else if c = Char.ofNat 8233 then ['\\', 'u', '2', '0', '2', '9']
  else [c]

/-- The body of a JSON string literal for `s`, without the enclosing quotes. -/
def escapeString : List Char → List Char
  | [] => []
  | c :: cs => escapeChar c ++ escapeString cs

/-- The text of a JSON literal name: `true`, `false`. -/
def boolText (b : Bool) : List Char :=
  if b then 't' :: 'r' :: 'u' :: ['e'] else 'f' :: 'a' :: 'l' :: 's' :: ['e']

mutual
/-- The compact text `json.Marshal` writes for a tree. -/
def render : JSON → List Char
  | .str s => '"' :: (escapeString s.data ++ ['"'])
  | .num lit => lit.data
  | .bool b => boolText b
  | .null => 'n' :: 'u' :: 'l' :: ['l']
  | .arr elems => '[' :: (renderElems elems ++ [']'])
  | .obj members => '\x7b' :: (renderMembers members ++ ['\x7d'])
/-- The elements of an array, separated by commas. -/
def renderElems : List JSON → List Char
  | [] => []
  | j :: js => render j ++ renderMoreElems js
/-- Each further element behind its comma. -/
def renderMoreElems : List JSON → List Char
  | [] => []
  | j :: js => ',' :: (render j ++ renderMoreElems js)
/-- The members of an object, separated by commas. -/
def renderMembers : List (String × JSON) → List Char
  | [] => []
  | (k, v) :: ms =>
    '"' :: (escapeString k.data ++ '"' :: ':' :: (render v ++ renderMoreMembers ms))
/-- Each further member behind its comma. -/
def renderMoreMembers : List (String × JSON) → List Char
  | [] => []
  | (k, v) :: ms =>
    ',' :: '"' :: (escapeString k.data ++ '"' :: ':' :: (render v ++ renderMoreMembers ms))
end

/-- White space between JSON tokens. -/
def isWs (c : Char) : Bool := c = ' ' || c = '\t' || c = '\r' || c = '\n'

/-- Drops leading white space. -/
def skipWs (text : List Char) : List Char :=
  match text with
  | [] => []
  | c :: rest => if isWs c = true then skipWs rest else text

/-- Value of a hexadecimal digit of either case. -/
def hexVal (c : Char) : Option Nat :=
  if 48 ≤ c.toNat ∧ c.toNat ≤ 57 then some (c.toNat - 48)
  else if 97 ≤ c.toNat ∧ c.toNat ≤ 102 then some (c.toNat - 87)
  else if 65 ≤ c.toNat ∧ c.toNat ≤ 70 then some (c.toNat - 55)
  else none

/-- Value of four hexadecimal digits. -/
def hex4 (a b c d : Char) : Option Nat :=
  match hexVal a, hexVal b, hexVal c, hexVal d with
  | some x, some y, some z, some w => some (x * 4096 + y * 256 + z * 16 + w)
  | _, _, _, _ => none

/-- The character a one-letter escape stands for. -/
def unescape (e : Char) : Option Char :=
  if e = '"' then some '"'
  else if e = '\\' then some '\\'
  else if e = '/' then some '/'
  else if e = 'b' then some '\x08'
  else if e = 'f' then some '\x0c'
  else if e = 'n' then some '\n'
  else if e = 'r' then some '\r'
  else if e = 't' then some '\t'
  else none

/-- The low half of a surrogate pair, if the text starts with one written `\uXXXX`. -/
def lowSurrogate : List Char → Option Nat
  | '\\' :: 'u' :: a :: b :: c :: d :: _ =>
    match hex4 a b c d with
    | some v => if 56320 ≤ v ∧ v < 57344 then some v else none
    | none => none
  | _ => none

/-- Reads a string literal from behind its opening quote up to and including the
closing quote: the characters it denotes and the text left over. A raw control
character or a malformed escape is a syntax error. `\uXXXX` escapes of a surrogate
pair are joined; a surrogate without its partner becomes U+FFFD. `skip` counts the
characters of an escape already accounted for, which are passed over. -/
def parseString : Nat → List Char → Option (List Char × List Char)
  | _, [] => none
  | skip + 1, _ :: cs => parseString skip cs
  | 0, c :: cs =>
    if c = '"' then some ([], cs)
    else if c = '\\' then
      match cs with
      | [] => none
      | e :: cs1 =>
        if e = 'u' then
          match cs1 with
          | h1 :: h2 :: h3 :: h4 :: cs2 =>
            match hex4 h1 h2 h3 h4 with
            | none => none
            | some u =>
              if 55296 ≤ u ∧ u < 56320 then
                match lowSurrogate cs2 with
                | some v =>
                  (parseString 11 cs).map fun (s, r) =>
                    (Char.ofNat (65536 + (u - 55296) * 1024 + (v - 56320)) :: s, r)
                | none => (parseString 5 cs).map fun (s, r) => (Char.ofNat 65533 :: s, r)
              else if 56320 ≤ u ∧ u < 57344 then
                (parseString 5 cs).map fun (s, r) => (Char.ofNat 65533 :: s, r)
              else (parseString 5 cs).map fun (s, r) => (Char.ofNat u :: s, r)
          | _ => none
        else
          match unescape e with
          | some ch => (parseString 1 cs).map fun (s, r) => (ch :: s, r)
          | none => none
    else if c.toNat < 32 then none
    else (parseString 0 cs).map fun (s, r) => (c :: s, r)

/-- The longest run of digits at the head of a text, and what follows it. -/
def takeDigits : List Char → List Char × List Char
  | [] => ([], [])
  | c :: cs => if isDigit c then ((takeDigits cs).1.cons c, (takeDigits cs).2) else ([], c :: cs)

/-- The integer part of a number: `0`, or a digit run that does not start with `0`. -/
def scanInt : List Char → Option (List Char × List Char)
  | [] => none
  | c :: r =>
    if c = '0' then some ([c], r)
    else if isDigit c then some (c :: (takeDigits r).1, (takeDigits r).2)
    else none

/-- The optional fraction of a number: a point and at least one digit. -/
def scanFrac : List Char → Option (List Char × List Char)
  | [] => some ([], [])
  | c :: r =>
    if c = '.' then
      if (takeDigits r).1 = [] then none else some (c :: (takeDigits r).1, (takeDigits r).2)
    else some ([], c :: r)

/-- The optional exponent of a number: `e` or `E`, an optional sign, at least one digit. -/
def scanExp : List Char → Option (List Char × List Char)
  | [] => some ([], [])
  | e :: r =>
    if e = 'e' ∨ e = 'E' then
      match r with
      | [] => none
      | s :: r1 =>
        if s = '+' ∨ s = '-' then
          if (takeDigits r1).1 = [] then none
          else some (e :: s :: (takeDigits r1).1, (takeDigits r1).2)
        else
          if (takeDigits r).1 = [] then none
          else some (e :: (takeDigits r).1, (takeDigits r).2)
    else some ([], e :: r)

/-- The number without its sign. -/
def scanUnsigned (cs : List Char) : Option (List Char × List Char) :=
  match scanInt cs with
  | none => none
  | some (ip, r1) =>
    match scanFrac r1 with
    | none => none
    | some (fp, r2) =>
      match scanExp r2 with
      | none => none
      | some (ep, r3) => some (ip ++ fp ++ ep, r3)

/-- Reads a number literal of the JSON grammar from the head of a text: an optional
minus, the integer part, an optional fraction, an optional exponent. Returns the
literal and the text left over. -/
def scanNumber : List Char → Option (List Char × List Char)
  | [] => none
  | c :: r =>
    if c = '-' then (scanUnsigned r).map fun p => (c :: p.1, p.2)
    else scanUnsigned (c :: r)

/-- The literal is, as a whole, one number of the JSON grammar. -/
def isNumberLit (lit : String) : Bool :=
  match scanNumber lit.data with
  | some (l, []) => l = lit.data
  | _ => false

mutual
/-- Reads one JSON value from the head of a text; `fuel` bounds the recursion. -/
def parseValue : Nat → List Char → Option (JSON × List Char)
  | 0, _ => none
  | fuel + 1, cs =>
    match skipWs cs with
    | [] => none
    | c :: rest =>
      if c = '"' then (parseString 0 rest).map fun (s, r) => (JSON.str (String.mk s), r)
      else if c = '[' then
        match skipWs rest with
        | [] => none
        | d :: rest1 =>
          if d = ']' then some (JSON.arr [], rest1)
          else (parseElems fuel (d :: rest1)).map fun (es, r) => (JSON.arr es, r)
      else if c = '\x7b' then
        match skipWs rest with
        | [] => none
        | d :: rest1 =>
          if d = '\x7d' then some (JSON.obj [], rest1)
          else (parseMembers fuel (d :: rest1)).map fun (ms, r) => (JSON.obj ms, r)
      else if c = 'n' then
        match rest with
        | 'u' :: 'l' :: 'l' :: r => some (JSON.null, r)
        | _ => none
      else if c = 't' then
        match rest with
        | 'r' :: 'u' :: 'e' :: r => some (JSON.bool true, r)
        | _ => none
      else if c = 'f' then
        match rest with
        | 'a' :: 'l' :: 's' :: 'e' :: r => some (JSON.bool false, r)
        | _ => none
      else if c = '-' ∨ isDigit c then
        (scanNumber (c :: rest)).map fun (lit, r) => (JSON.num (String.mk lit), r)
      else none
/-- Reads the elements of a non-empty array up to and including the closing bracket. -/
def parseElems : Nat → List Char → Option (List JSON × List Char)
  | 0, _ => none
  | fuel + 1, cs =>
    match parseValue fuel cs with
    | none => none
    | some (v, r) =>
      match skipWs r with
      | [] => none
      | c :: r1 =>
        if c = ',' then (parseElems fuel r1).map fun (vs, r2) => (v :: vs, r2)
        else if c = ']' then some ([v], r1)
        else none
/-- Reads the members of a non-empty object up to and including the closing brace. -/
def parseMembers : Nat → List Char → Option (List (String × JSON) × List Char)
  | 0, _ => none
  | fuel + 1, cs =>
    match skipWs cs with
    | [] => none
    | q :: r =>
      if q = '"' then
        match parseString 0 r with
        | none => none
        | some (k, r1) =>
          match skipWs r1 with
          | [] => none
          | col :: r2 =>
            if col = ':' then
              match parseValue fuel r2 with
              | none => none
              | some (v, r3) =>
                match skipWs r3 with
                | [] => none
                | c :: r4 =>
                  if c = ',' then
                    (parseMembers fuel r4).map fun (ms, r5) => ((String.mk k, v) :: ms, r5)
                  else if c = '\x7d' then some ([(String.mk k, v)], r4)
                  else none
            else none
      else none
end

/-- The syntax check and tree of a whole JSON text: one value, white space around it
allowed, nothing else behind it. `none` is a syntax error. The fuel is enough for any
text; the limit of 10000 nesting levels that `encoding/json` imposes is not modelled. -/
def parseJSON (input : String) : Option JSON :=
  match parseValue (2 * input.length + 2) input.data with
  | some (j, rest) => if skipWs rest = [] then some j else none
  | none => none

/-- The text `json.Marshal` writes for a tree. -/
def renderJSON (j : JSON) : String := String.mk (render j)


mutual
/-- Every number in the tree is a literal of the JSON grammar. -/
def JSON.numbersOk : JSON → Bool
  | .num lit => isNumberLit lit
  | .arr elems => numbersOkElems elems
  | .obj members => numbersOkMembers members
  | _ => true
/-- Every number in the elements is a literal of the JSON grammar. -/
def numbersOkElems : List JSON → Bool
  | [] => true
  | j :: js => j.numbersOk && numbersOkElems js
/-- Every number in the members is a literal of the JSON grammar. -/
def numbersOkMembers : List (String × JSON) → Bool
  | [] => true
  | (_, v) :: ms => v.numbersOk && numbersOkMembers ms
end

/-- A text that cannot continue a number literal. -/
def numberEnd : List Char → Bool
  | [] => true
  | c :: _ => !isDigit c && c != '.' && c != 'e' && c != 'E'

/-- Reading back a rendered value with `fuel` steps. -/
def ValueRT (fuel : Nat) : Prop :=
  ∀ j rest, j.numbersOk = true → numberEnd rest = true → 2 * (render j).length ≤ fuel →
    parseValue fuel (render j ++ rest) = some (j, rest)

/-- Reading back the rendered elements of a non-empty array with `fuel` steps. -/
def ElemsRT (fuel : Nat) : Prop :=
  ∀ j js rest, numbersOkElems (j :: js) = true →
    2 * (renderElems (j :: js)).length + 1 ≤ fuel →
    parseElems fuel (renderElems (j :: js) ++ ']' :: rest) = some (j :: js, rest)

/-- Reading back the rendered members of a non-empty object with `fuel` steps. -/
def MembersRT (fuel : Nat) : Prop :=
  ∀ m ms rest, numbersOkMembers (m :: ms) = true →
    2 * (renderMembers (m :: ms)).length + 1 ≤ fuel →
    parseMembers fuel (renderMembers (m :: ms) ++ '\x7d' :: rest) = some (m :: ms, rest)

/-! ### `float64`, `time.Time` and the library routines taken as given -/

/-- A `float64` value: a finite number other than negative zero, given as the fraction
`num / den` in lowest terms; negative zero; an infinity; NaN. Which fractions are
representable plays no part here. -/
inductive Float64 where
  | finite (num : Int) (den : Nat)
  | negZero
  | inf (neg : Bool)
  | nan
  deriving DecidableEq, Repr

/-- The conversion `int(f)`: truncation toward zero. Outside the int64 range, and for
NaN, Go leaves the result to the implementation; this is the amd64 result. -/
def Float64.toInt : Float64 → Int
  | .finite num den =>
    if -2 ^ 63 ≤ Int.tdiv num den ∧ Int.tdiv num den < 2 ^ 63 then Int.tdiv num den
    else -2 ^ 63
  | .negZero => 0
  | _ => -2 ^ 63

/-- The conversion `int32(f)`, with the amd64 result outside the int32 range. -/
def Float64.toInt32 : Float64 → Int
  | .finite num den =>
    if -2 ^ 31 ≤ Int.tdiv num den ∧ Int.tdiv num den < 2 ^ 31 then Int.tdiv num den
    else -2 ^ 31
  | .negZero => 0
  | _ => -2 ^ 31

/-- The conversion of an `int` to `int32`: the low 32 bits, signed. -/
def int32OfInt (n : Int) : Int := (n + 2 ^ 31) % 2 ^ 32 - 2 ^ 31

/-- A `time.Time`: an instant, in nanoseconds since the Unix epoch, and the offset of
its location east of UTC in seconds. -/
structure Time where
  unixNano : Int
  zoneOffset : Int
  deriving DecidableEq, Repr

/-- Library routines the codec calls whose text formats are not reproduced here; they
are parameters of the embedding. -/
structure GoLib where
  /-- The call `strconv.FormatFloat(f, 'f', -1, 64)`. -/
  formatFloat : Float64 → String
  /-- The call `strconv.ParseFloat(s, 64)` on texts other than short decimal integers. -/
  parseFloat : String → Option Float64
  /-- The number `encoding/json` writes for a finite `float64`. -/
  jsonFloat : Float64 → String
  /-- The text in the JSON string that `pgtype.Timestamp.MarshalJSON` writes for a valid,
  finite timestamp. -/
  timestampText : Time → String
  /-- The call `time.Parse(time.RFC3339Nano, s)`. -/
  parseTime : String → Option Time

/-- The call `strconv.ParseFloat(s, 64)`. A decimal integer of magnitude at most `2 ^ 53`,
with or without sign, is read exactly; every other text is left to the library. -/
def ParseFloat (L : GoLib) (s : String) : Option Float64 :=
  match parseSigned s.data with
  | some (neg, un) =>
    if un = 0 ∧ neg = true then some .negZero
    else if un ≤ 2 ^ 53 then some (.finite (if neg then -(un : Int) else (un : Int)) 1)
    else L.parseFloat s
  | none => L.parseFloat s

/-! ### Decoding JSON into `any` -/

/-- What `json.Unmarshal` stores in an `any`: `nil`, `bool`, `float64`, `string`,
`[]any` or `map[string]any`. A map keeps the members in the order of the text. -/
inductive Any where
  | nil
  | bool (b : Bool)
  | float64 (f : Float64)
  | string (s : String)
  | slice (elems : List Any)
  | map (entries : List (String × Any))

mutual
/-- The `any` for a JSON tree; `none` when a number does not fit a `float64`. -/
def decodeAny (L : GoLib) : JSON → Option Any
  | .null => some .nil
  | .bool b => some (.bool b)
  | .num lit => (ParseFloat L lit).map Any.float64
  | .str s => some (.string s)
  | .arr elems => (decodeAnyList L elems).map Any.slice
  | .obj members => (decodeAnyMembers L members).map Any.map
/-- The `[]any` for the elements of an array. -/
def decodeAnyList (L : GoLib) : List JSON → Option (List Any)
  | [] => some []
  | j :: js =>
    match decodeAny L j, decodeAnyList L js with
    | some a, some rest => some (a :: rest)
    | _, _ => none
/-- The entries for the members of an object. -/
def decodeAnyMembers (L : GoLib) : List (String × JSON) → Option (List (String × Any))
  | [] => some []
  | (k, v) :: ms =>
    match decodeAny L v, decodeAnyMembers L ms with
    | some a, some rest => some ((k, a) :: rest)
    | _, _ => none
end

/-- The map index expression `m[key]` with its comma-ok flag as `Option`: of members
with the same name the last one in the text is the one stored. -/
def mapIndex (key : String) : List (String × Any) → Option Any
  | [] => none
  | (k, v) :: rest =>
    match mapIndex key rest with
    | some w => some w
    | none => if k = key then some v else none

/-- The call `json.Unmarshal(input, &slice)` for `slice` of type `[]any`: a syntax
error, a top-level value that is neither array nor `null`, or a number out of range is
an error (`none`); `null` sets the slice to nil, the empty list here. -/
def unmarshalSlice (L : GoLib) (input : String) : Option (List Any) :=
  match parseJSON input with
  | some .null => some []
  | some (.arr elems) => decodeAnyList L elems
  | _ => none

/-- One element of a `[][]any`: an array, or `null` for the nil slice. -/
def decodeInner (L : GoLib) : JSON → Option (List Any)
  | .null => some []
  | .arr elems => decodeAnyList L elems
  | _ => none

/-- The `[][]any` for the elements of the outer array. -/
def decodeOuter (L : GoLib) : List JSON → Option (List (List Any))
  | [] => some []
  | j :: js =>
    match decodeInner L j, decodeOuter L js with
    | some a, some rest => some (a :: rest)
    | _, _ => none

/-- The call `json.Unmarshal(input, &slice)` for `slice` of type `[][]any`, with the
same errors; an element must be an array or `null`. -/
def unmarshalSliceOfSlices (L : GoLib) (input : String) : Option (List (List Any)) :=
  match parseJSON input with
  | some .null => some []
  | some (.arr elems) => decodeOuter L elems
  | _ => none

/-! ### Encoding Go values as JSON -/

/-- The values the codec hands to `json.Marshal` inside an `any`. -/
inductive GoValue where
  | nil
  | bool (b : Bool)
  | int32 (n : Int)
  | float64 (f : Float64)
  | string (s : String)
  | timestamp (t : Time)
  | slice (elems : List GoValue)

mutual
/-- The tree `json.Marshal` writes for a value; `none` is its `UnsupportedValueError`
for a NaN or an infinity. -/
def encodeValue (L : GoLib) : GoValue → Option JSON
  | .nil => some .null
  | .bool b => some (.bool b)
  | .int32 n => some (.num (FormatInt n))
  | .float64 (.finite num den) => some (.num (L.jsonFloat (.finite num den)))
  | .float64 .negZero => some (.num (L.jsonFloat .negZero))
  | .float64 _ => none
  | .string s => some (.str s)
  | .timestamp t => some (.str (L.timestampText t))
  | .slice elems => (encodeValues L elems).map JSON.arr
/-- The trees for the elements of a slice. -/
def encodeValues (L : GoLib) : List GoValue → Option (List JSON)
  | [] => some []
  | v :: vs =>
    match encodeValue L v, encodeValues L vs with
    | some j, some js => some (j :: js)
    | _, _ => none
end

/-- The call `json.Marshal(v)` as text. -/
def jsonMarshal (L : GoLib) (v : GoValue) : Option String :=
  (encodeValue L v).map renderJSON


/-! ### The domain model (`github.com/jaegertracing/jaeger/model`) -/

/-- The constant `model.ValueType_STRING`, also named `model.StringType`. -/
def ValueType_STRING : Int := 0

/-- The constant `model.ValueType_BOOL`, also named `model.BoolType`. -/
def ValueType_BOOL : Int := 1

/-- The constant `model.ValueType_INT64`, also named `model.Int64Type`. -/
def ValueType_INT64 : Int := 2

/-- The constant `model.ValueType_FLOAT64`, also named `model.Float64Type`. -/
def ValueType_FLOAT64 : Int := 3

/-- The constant `model.ValueType_BINARY`, also named `model.BinaryType`. -/
def ValueType_BINARY : Int := 4

/-- The type `model.KeyValue`: a key, the type discriminant (an `int32`) and one field per type. -/
structure KeyValue where
  Key : String
  VType : Int
  VStr : String
  VBool : Bool
  VInt64 : Int
  VFloat64 : Float64
  VBinary : List Byte
  deriving DecidableEq, Repr

/-- The `model.KeyValue{Key: key, VType: vType}` literal: every value field zero. -/
def KeyValue.new (key : String) (vType : Int) : KeyValue :=
  { Key := key, VType := vType, VStr := "", VBool := false, VInt64 := 0,
    VFloat64 := .finite 0 1, VBinary := [] }

/-- The type `model.SpanRef`; `RefType` is an `int32`. -/
structure SpanRef where
  TraceID : TraceID
  SpanID : SpanID
  RefType : Int
  deriving DecidableEq, Repr

/-- The type `model.Log`. -/
structure Log where
  Timestamp : Time
  Fields : List KeyValue
  deriving DecidableEq, Repr

/-! ### Type assertions and index expressions on `any` -/

/-- The type assertion `v.(string)`. -/
def Any.assertString : Any → Outcome String
  | .string s => .ok s
  | _ => .panic "interface conversion: interface is not string"

/-- The type assertion `v.(float64)`. -/
def Any.assertFloat64 : Any → Outcome Float64
  | .float64 f => .ok f
  | _ => .panic "interface conversion: interface is not float64"

/-- The type assertion `v.(bool)`. -/
def Any.assertBool : Any → Outcome Bool
  | .bool b => .ok b
  | _ => .panic "interface conversion: interface is not bool"

/-- The type assertion `v.([]any)`. -/
def Any.assertSlice : Any → Outcome (List Any)
  | .slice elems => .ok elems
  | _ => .panic "interface conversion: interface is not []interface"

/-- The index expression `s[i]` on a `[]any`. -/
def indexAny (s : List Any) (i : Nat) : Outcome Any :=
  match s.get? i with
  | some v => .ok v
  | none => .panic "index out of range"

/-! ### The tag codec of mapping.go -/

/-- The type `sql.TagContent` of query.sql.go. -/
structure TagContent where
  Key : String
  Value : String
  deriving DecidableEq, Repr

/-- The type `databaseTag` of mapping.go: `sql.TagContent` embedded, and the field `Type`. -/
structure databaseTag where
  TagContent : TagContent
  Type_ : Int
  deriving DecidableEq, Repr

/-- The object `json.Marshal` writes for a `databaseTag`: the promoted fields `Key` and
`Value` of the embedded struct, then `Type` as a number. -/
def databaseTag.toJSON (tag : databaseTag) : JSON :=
  .obj [("Key", .str tag.TagContent.Key), ("Value", .str tag.TagContent.Value),
    ("Type", .num (FormatInt tag.Type_))]

/-- The call `json.Marshal(tags)` for a non-nil `[]databaseTag`; it has no failing case. -/
def marshalTags (tags : List databaseTag) : Option String :=
  some (renderJSON (.arr (tags.map databaseTag.toJSON)))

/-- The body of the loop of `EncodeTags`: the `databaseTag` for one `KeyValue`. -/
def encodeTag (L : GoLib) (kv : KeyValue) : databaseTag :=
  { TagContent :=
      { Key := kv.Key,
        Value :=
          if kv.VType = ValueType_STRING then kv.VStr
          else if kv.VType = ValueType_BOOL then FormatBool kv.VBool
          else if kv.VType = ValueType_INT64 then FormatInt kv.VInt64
          else if kv.VType = ValueType_FLOAT64 then L.formatFloat kv.VFloat64
          else if kv.VType = ValueType_BINARY then RawStdEncoding.EncodeToString kv.VBinary
          else "" },
    Type_ := kv.VType }

/-- The function `EncodeTags` of mapping.go. -/
def EncodeTags (L : GoLib) (input : List KeyValue) : Outcome String :=
  let tags := input.map (encodeTag L)
  match marshalTags tags with
  | none => .error "failed to encode to json"
  | some bytes => .ok bytes

/-- The value put in the tuple by `encodeTagsToSlice`; `nil` for an unknown type. -/
def encodeTagValue (kv : KeyValue) : GoValue :=
  if kv.VType = ValueType_STRING then .string kv.VStr
  else if kv.VType = ValueType_BOOL then .bool kv.VBool
  else if kv.VType = ValueType_INT64 then .string (FormatInt kv.VInt64)
  else if kv.VType = ValueType_FLOAT64 then .float64 kv.VFloat64
  else if kv.VType = ValueType_BINARY then .string (RawStdEncoding.EncodeToString kv.VBinary)
  else .nil

/-- The function `encodeTagsToSlice` of mapping.go: one `[key, type, value]` tuple per tag. -/
def encodeTagsToSlice (input : List KeyValue) : List GoValue :=
  input.map fun kv => .slice [.string kv.Key, .int32 kv.VType, encodeTagValue kv]

/-- The body of the loop of `decodeTagsFromSlice`. -/
def decodeTagFromSlice (subslice : Any) : Outcome KeyValue := do
  let cast ← subslice.assertSlice
  let key ← (← indexAny cast 0).assertString
  let vType := int32OfInt (← (← indexAny cast 1).assertFloat64).toInt
  let value ← indexAny cast 2
  let kv := KeyValue.new key vType
  if vType = ValueType_STRING then
    let s ← value.assertString
    return { kv with VStr := s }
  else if vType = ValueType_BOOL then
    let b ← value.assertBool
    return { kv with VBool := b }
  else if vType = ValueType_INT64 then
    match ParseInt (← value.assertString) with
    | none => .error "failed to parse int"
    | some parsed => return { kv with VInt64 := parsed }
  else if vType = ValueType_FLOAT64 then
    let f ← value.assertFloat64
    return { kv with VFloat64 := f }
  else if vType = ValueType_BINARY then
    match RawStdEncoding.DecodeString (← value.assertString) with
    | none => .error "failed to parse"
    | some bytes => return { kv with VBinary := bytes }
  else return kv

/-- The function `decodeTagsFromSlice` of mapping.go. The result is the empty list, not `nil`,
when there is no tag; as lists the two are the same. -/
def decodeTagsFromSlice : List Any → Outcome (List KeyValue)
  | [] => .ok []
  | subslice :: rest => do
    let kv ← decodeTagFromSlice subslice
    let tags ← decodeTagsFromSlice rest
    return kv :: tags

/-- The function `variableIsMap` of mapping.go. -/
def variableIsMap : Any → Bool
  | .map _ => true
  | _ => false

/-- The body of the loop of `decodeTagsFromStruct`. -/
def decodeTagFromStruct (L : GoLib) (tag : Any) : Outcome KeyValue :=
  if !variableIsMap tag then .error "tag is not a map"
  else
    match tag with
    | .map cast =>
      match mapIndex "Key" cast, mapIndex "Value" cast, mapIndex "Type" cast with
      | some preCastKey, some preCastValue, some preCastValueType => do
        let key ← preCastKey.assertString
        let value ← preCastValue.assertString
        let valueType := int32OfInt (← preCastValueType.assertFloat64).toInt
        let kv := KeyValue.new key valueType
        if valueType = ValueType_STRING then
          return { kv with VStr := value }
        else if valueType = ValueType_BOOL then
          match ParseBool value with
          | none => .error "failed to parse boolean"
          | some parsed => return { kv with VBool := parsed }
        else if valueType = ValueType_INT64 then
          match ParseInt value with
          | none => .error "failed to parse int"
          | some parsed => return { kv with VInt64 := parsed }
        else if valueType = ValueType_FLOAT64 then
          match ParseFloat L value with
          | none => .error "failed to parse float"
          | some parsed => return { kv with VFloat64 := parsed }
        else if valueType = ValueType_BINARY then
          match RawStdEncoding.DecodeString value with
          | none => .error "failed to parse"
          | some bytes => return { kv with VBinary := bytes }
        else return kv
      | _, _, _ => .error "tag has missing keys"
    | _ => .error "tag is not a map"

/-- The function `decodeTagsFromStruct` of mapping.go. -/
def decodeTagsFromStruct (L : GoLib) : List Any → Outcome (List KeyValue)
  | [] => .ok []
  | tag :: rest => do
    let kv ← decodeTagFromStruct L tag
    let tags ← decodeTagsFromStruct L rest
    return kv :: tags

/-- The function `DecodeTags` of mapping.go. -/
def DecodeTags (L : GoLib) (input : String) : Outcome (List KeyValue) :=
  match unmarshalSlice L input with
  | none => .error "failed to decode tag json"
  | some slice => decodeTagsFromStruct L slice

/-! ### The log codec of mapping.go -/

/-- The function `EncodeLogs` of mapping.go; the error is the one `json.Marshal` returns. -/
def EncodeLogs (L : GoLib) (logs : List Log) : Outcome String :=
  let slice := logs.map fun log =>
    GoValue.slice [.timestamp log.Timestamp, .slice (encodeTagsToSlice log.Fields)]
  match jsonMarshal L (.slice slice) with
  | none => .error "json: unsupported value"
  | some bytes => .ok bytes

/-- The body of the loop of `DecodeLogs`. -/
def decodeLog (L : GoLib) (subslice : List Any) : Outcome Log := do
  let cast ← (← indexAny subslice 1).assertSlice
  let fields ← decodeTagsFromSlice cast
  match L.parseTime (← (← indexAny subslice 0).assertString) with
  | none => .error "parsing time"
  | some t => return { Timestamp := t, Fields := fields }

/-- The loop of `DecodeLogs`. -/
def decodeLogs (L : GoLib) : List (List Any) → Outcome (List Log)
  | [] => .ok []
  | subslice :: rest => do
    let log ← decodeLog L subslice
    let logs ← decodeLogs L rest
    return log :: logs

/-- The function `DecodeLogs` of mapping.go. -/
def DecodeLogs (L : GoLib) (raw : String) : Outcome (List Log) :=
  match unmarshalSliceOfSlices L raw with
  | none => .error "failed to decode logs json"
  | some slice => decodeLogs L slice

/-! ### The span reference codec of mapping.go -/

/-- The function `EncodeSpanRefs` of mapping.go. -/
def EncodeSpanRefs (L : GoLib) (spanrefs : List SpanRef) : Outcome String :=
  if spanrefs.length = 0 then .ok "[]"
  else
    let slice := spanrefs.map fun spanref =>
      GoValue.slice [.string (StdEncoding.EncodeToString (EncodeTraceID spanref.TraceID)),
        .string (StdEncoding.EncodeToString (EncodeSpanID spanref.SpanID)),
        .int32 spanref.RefType]
    match jsonMarshal L (.slice slice) with
    | none => .error "json: unsupported value"
    | some bytes => .ok bytes

/-- The body of the loop of `DecodeSpanRefs`. -/
def decodeSpanRef (subslice : List Any) : Outcome SpanRef := do
  match StdEncoding.DecodeString (← (← indexAny subslice 0).assertString) with
  | none => .error "illegal base64 data"
  | some traceID =>
    match StdEncoding.DecodeString (← (← indexAny subslice 1).assertString) with
    | none => .error "illegal base64 data"
    | some spanID =>
      let t ← DecodeTraceID traceID
      let s ← DecodeSpanID spanID
      let refType := (← (← indexAny subslice 2).assertFloat64).toInt32
      return { TraceID := t, SpanID := s, RefType := refType }

/-- The loop of `DecodeSpanRefs`. -/
def decodeSpanRefs : List (List Any) → Outcome (List SpanRef)
  | [] => .ok []
  | subslice :: rest => do
    let ref ← decodeSpanRef subslice
    let refs ← decodeSpanRefs rest
    return ref :: refs

/-- The function `DecodeSpanRefs` of mapping.go. -/
def DecodeSpanRefs (L : GoLib) (data : String) : Outcome (List SpanRef) :=
  match unmarshalSliceOfSlices L data with
  | none => .error "json: cannot decode"
  | some slice => decodeSpanRefs slice


/-! ### Well-formed domain values, as the specification words them -/

/-- A well-formed tag: the type is one of the five, only the value field selected by
the type is populated (the others hold their zero value), and an `int64` value is in
the `int64` range. -/
def KeyValue.WellFormed (kv : KeyValue) : Prop :=
  (kv.VType = ValueType_STRING ∧ kv.VBool = false ∧ kv.VInt64 = 0 ∧
    kv.VFloat64 = .finite 0 1 ∧ kv.VBinary = []) ∨
  (kv.VType = ValueType_BOOL ∧ kv.VStr = "" ∧ kv.VInt64 = 0 ∧
    kv.VFloat64 = .finite 0 1 ∧ kv.VBinary = []) ∨
  (kv.VType = ValueType_INT64 ∧ kv.VStr = "" ∧ kv.VBool = false ∧
    kv.VFloat64 = .finite 0 1 ∧ kv.VBinary = [] ∧ -2 ^ 63 ≤ kv.VInt64 ∧ kv.VInt64 < 2 ^ 63) ∨
  (kv.VType = ValueType_FLOAT64 ∧ kv.VStr = "" ∧ kv.VBool = false ∧ kv.VInt64 = 0 ∧
    kv.VBinary = []) ∨
  (kv.VType = ValueType_BINARY ∧ kv.VStr = "" ∧ kv.VBool = false ∧ kv.VInt64 = 0 ∧
    kv.VFloat64 = .finite 0 1)

instance (kv : KeyValue) : Decidable kv.WellFormed := by
  unfold KeyValue.WellFormed
  infer_instance

/-- The `strconv` round trip of a float tag's value: `ParseFloat` reads back what
`FormatFloat(v, 'f', -1, 64)` wrote. -/
def FloatTextRoundTrips (L : GoLib) (kv : KeyValue) : Prop :=
  kv.VType = ValueType_FLOAT64 → ParseFloat L (L.formatFloat kv.VFloat64) = some kv.VFloat64

instance (L : GoLib) (kv : KeyValue) : Decidable (FloatTextRoundTrips L kv) := by
  unfold FloatTextRoundTrips
  infer_instance

/-- What `json.Unmarshal` makes of the object written for a tag. -/
def tagAny (L : GoLib) (kv : KeyValue) : Any :=
  .map [("Key", .string kv.Key), ("Value", .string (encodeTag L kv).TagContent.Value),
    ("Type", .float64 (.finite kv.VType 1))]


/-- A span reference whose fields fit their Go types: 64-bit identifiers and an `int32`
reference type. -/
def SpanRef.WellTyped (r : SpanRef) : Prop :=
  r.TraceID.High < 2 ^ 64 ∧ r.TraceID.Low < 2 ^ 64 ∧ r.SpanID < 2 ^ 64 ∧
    -2 ^ 31 ≤ r.RefType ∧ r.RefType < 2 ^ 31

instance (r : SpanRef) : Decidable r.WellTyped := by
  unfold SpanRef.WellTyped
  infer_instance

/-- The tuple `EncodeSpanRefs` hands to `json.Marshal` for one reference. -/
def refValue (r : SpanRef) : GoValue :=
  .slice [.string (StdEncoding.EncodeToString (EncodeTraceID r.TraceID)),
    .string (StdEncoding.EncodeToString (EncodeSpanID r.SpanID)), .int32 r.RefType]

/-- The JSON array written for one reference. -/
def refJSON (r : SpanRef) : JSON :=
  .arr [.str (StdEncoding.EncodeToString (EncodeTraceID r.TraceID)),
    .str (StdEncoding.EncodeToString (EncodeSpanID r.SpanID)), .num (FormatInt r.RefType)]

/-- What `json.Unmarshal` makes of the array written for one reference. -/
def refAny (r : SpanRef) : List Any :=
  [.string (StdEncoding.EncodeToString (EncodeTraceID r.TraceID)),
    .string (StdEncoding.EncodeToString (EncodeSpanID r.SpanID)),
    .float64 (.finite r.RefType 1)]


/-- Neither NaN nor an infinity. -/
def Float64.isFinite : Float64 → Bool
  | .finite _ _ => true
  | .negZero => true
  | _ => false

/-- The JSON round trip of a float field's value: it is finite, `encoding/json` writes
a JSON number for it, and that number is read back as the same value. -/
def FloatJSONRoundTrips (L : GoLib) (kv : KeyValue) : Prop :=
  kv.VType = ValueType_FLOAT64 →
    kv.VFloat64.isFinite = true ∧ isNumberLit (L.jsonFloat kv.VFloat64) = true ∧
      ParseFloat L (L.jsonFloat kv.VFloat64) = some kv.VFloat64

instance (L : GoLib) (kv : KeyValue) : Decidable (FloatJSONRoundTrips L kv) := by
  unfold FloatJSONRoundTrips
  infer_instance

/-- The text round trip of a timestamp: `time.Parse` reads what
`pgtype.Timestamp.MarshalJSON` wrote, and gets the same instant. -/
def TimeTextRoundTrips (L : GoLib) (t : Time) : Prop :=
  match L.parseTime (L.timestampText t) with
  | some t' => t'.unixNano = t.unixNano
  | none => False

instance (L : GoLib) (t : Time) : Decidable (TimeTextRoundTrips L t) := by
  unfold TimeTextRoundTrips
  split <;> infer_instance

/-- The JSON value written for the value of a tag in the tuple shape. -/
def valueJSON (L : GoLib) (kv : KeyValue) : JSON :=
  if kv.VType = ValueType_STRING then .str kv.VStr
  else if kv.VType = ValueType_BOOL then .bool kv.VBool
  else if kv.VType = ValueType_INT64 then .str (FormatInt kv.VInt64)
  else if kv.VType = ValueType_FLOAT64 then .num (L.jsonFloat kv.VFloat64)
  else if kv.VType = ValueType_BINARY then .str (RawStdEncoding.EncodeToString kv.VBinary)
  else .null

/-- What `json.Unmarshal` makes of the value of a tag in the tuple shape. -/
def valueAny (kv : KeyValue) : Any :=
  if kv.VType = ValueType_STRING then .string kv.VStr
  else if kv.VType = ValueType_BOOL then .bool kv.VBool
  else if kv.VType = ValueType_INT64 then .string (FormatInt kv.VInt64)
  else if kv.VType = ValueType_FLOAT64 then .float64 kv.VFloat64
  else if kv.VType = ValueType_BINARY then .string (RawStdEncoding.EncodeToString kv.VBinary)
  else .nil

/-- The JSON tuple written for a tag. -/
def fieldJSON (L : GoLib) (kv : KeyValue) : JSON :=
  .arr [.str kv.Key, .num (FormatInt kv.VType), valueJSON L kv]

/-- What `json.Unmarshal` makes of the tuple written for a tag. -/
def fieldAny (kv : KeyValue) : Any :=
  .slice [.string kv.Key, .float64 (.finite kv.VType 1), valueAny kv]

/-- The JSON pair written for a log entry. -/
def logJSON (L : GoLib) (log : Log) : JSON :=
  .arr [.str (L.timestampText log.Timestamp), .arr (log.Fields.map (fieldJSON L))]

/-- What `json.Unmarshal` makes of the pair written for a log entry. -/
def logAny (L : GoLib) (log : Log) : List Any :=
  [.string (L.timestampText log.Timestamp), .slice (log.Fields.map fieldAny)]

/-- A log entry whose fields the codec can carry: well-formed tags whose float values
are finite and survive the JSON round trip. Nothing is asked of the timestamp. -/
def Log.FieldsEncodable (L : GoLib) (log : Log) : Prop :=
  ∀ kv ∈ log.Fields, kv.WellFormed ∧ FloatJSONRoundTrips L kv

instance (L : GoLib) (log : Log) : Decidable (log.FieldsEncodable L) := by
  unfold Log.FieldsEncodable
  infer_instance

/-- What is read back from the entries `EncodeLogs` wrote, entry by entry: the fields of
the original, and the timestamp that `time.Parse` reads from the text written for the
original one; the error of `time.Parse` at the first text it refuses. -/
def readBack (L : GoLib) : List Log → Outcome (List Log)
  | [] => .ok []
  | log :: rest =>
    match L.parseTime (L.timestampText log.Timestamp) with
    | none => .error "parsing time"
    | some t => do
      let logs ← readBack L rest
      return { Timestamp := t, Fields := log.Fields } :: logs

/-- The decoded entry has the instant and the fields of the original. -/
def Log.sameAs (a b : Log) : Prop :=
  b.Timestamp.unixNano = a.Timestamp.unixNano ∧ b.Fields = a.Fields


/-! ### A reference library

A concrete `GoLib`, used where a statement is evaluated on a concrete input. It is
exact, without binary rounding: a finite float is written as the decimal expansion of
its value and read back from one, which is what `strconv` does for the values whose
shortest decimal is their exact value (`1.5`, `0.25`, integers below `2 ^ 53`); a time
is written and read in the layout `time.RFC3339Nano`. -/

/-- The least `k` from `k₀` on, within `fuel` tries, with `den` dividing `10 ^ k`. -/
def decimalPlaces (den : Nat) : Nat → Nat → Option Nat
  | 0, _ => none
  | fuel + 1, k => if 10 ^ k % den = 0 then some k else decimalPlaces den fuel (k + 1)

/-- Digits padded with zeros on the left up to `width`. -/
def padLeft (width : Nat) (ds : List Char) : List Char :=
  List.replicate (width - ds.length) '0' ++ ds

/-- The decimal expansion of a rational with a terminating one: sign, integer part and,
unless empty, a point and the fraction without trailing zeros. -/
def formatDecimal (num : Int) (den : Nat) : String :=
  match decimalPlaces den 400 0 with
  | none => ""
  | some k =>
    let scaled := num.natAbs * 10 ^ k / den
    String.mk ((if num < 0 then ['-'] else []) ++ formatNat (scaled / 10 ^ k) ++
      (if k = 0 then [] else '.' :: padLeft k (formatNat (scaled % 10 ^ k))))

/-- The float texts of the reference library: `NaN`, `+Inf`, `-Inf`, `-0`, and the
decimal expansion of a finite value. -/
def refFormatFloat : Float64 → String
  | .nan => "NaN"
  | .inf false => "+Inf"
  | .inf true => "-Inf"
  | .negZero => "-0"
  | .finite num den => formatDecimal num den

/-- Reads `digits.digits` as a fraction in lowest terms: numerator and denominator. -/
def parseFraction (cs : List Char) : Option (Nat × Nat) :=
  match parseNat (cs.takeWhile fun c => c != '.'),
    (cs.dropWhile fun c => c != '.') with
  | some ip, '.' :: fs =>
    match parseNat fs with
    | some fp =>
      let n := ip * 10 ^ fs.length + fp
      let g := Nat.gcd n (10 ^ fs.length)
      some (n / g, 10 ^ fs.length / g)
    | none => none
  | _, _ => none

/-- Reads the texts `refFormatFloat` writes that are not plain integers. -/
def refParseFloat (s : String) : Option Float64 :=
  if s = "NaN" then some .nan
  else if s = "+Inf" ∨ s = "Inf" then some (.inf false)
  else if s = "-Inf" then some (.inf true)
  else
    match s.data with
    | '-' :: cs => (parseFraction cs).map fun p => .finite (-(p.1 : Int)) p.2
    | '+' :: cs => (parseFraction cs).map fun p => .finite (p.1 : Int) p.2
    | cs => (parseFraction cs).map fun p => .finite (p.1 : Int) p.2

/-- Year, month and day of the day `z` days after 1970-01-01 (proleptic Gregorian). -/
def civilFromDays (z : Int) : Int × Nat × Nat :=
  let era := (z + 719468) / 146097
  let doe := ((z + 719468) - era * 146097).toNat
  let yoe := (doe - doe / 1460 + doe / 36524 - doe / 146096) / 365
  let doy := doe - (365 * yoe + yoe / 4 - yoe / 100)
  let mp := (5 * doy + 2) / 153
  let m := if mp < 10 then mp + 3 else mp - 9
  (if m ≤ 2 then (yoe : Int) + era * 400 + 1 else (yoe : Int) + era * 400, m,
    doy - (153 * mp + 2) / 5 + 1)

/-- The number of days from 1970-01-01 to the given civil date. -/
def daysFromCivil (year : Int) (m d : Nat) : Int :=
  let y := if m ≤ 2 then year - 1 else year
  let era := y / 400
  let yoe := (y - era * 400).toNat
  let doy := (153 * (if m > 2 then m - 3 else m + 9) + 2) / 5 + d - 1
  era * 146097 + ((yoe * 365 + yoe / 4 - yoe / 100 + doy : Nat) : Int) - 719468

/-- The digits of a nanosecond count as a fraction of a second: nine digits with the
trailing zeros removed, behind a point; nothing for zero. -/
def formatNanos (ns : Nat) : List Char :=
  if ns = 0 then []
  else '.' :: ((padLeft 9 (formatNat ns)).reverse.dropWhile fun c => c = '0').reverse

/-- The letter `Z` for UTC, otherwise sign, hours and minutes of the offset. -/
def formatZone (offset : Int) : List Char :=
  if offset = 0 then ['Z']
  else (if offset < 0 then '-' else '+') :: (padLeft 2 (formatNat (offset.natAbs / 3600)) ++
    ':' :: padLeft 2 (formatNat (offset.natAbs / 60 % 60)))

/-- The call `t.Format(time.RFC3339Nano)` for years 0 to 9999. -/
def refFormatTime (t : Time) : String :=
  let loc := t.unixNano + t.zoneOffset * 1000000000
  let secs := loc / 1000000000
  let sod := (secs % 86400).toNat
  let date := civilFromDays (secs / 86400)
  String.mk (padLeft 4 (formatNat date.1.toNat) ++ '-' :: padLeft 2 (formatNat date.2.1) ++
    '-' :: padLeft 2 (formatNat date.2.2) ++ 'T' :: padLeft 2 (formatNat (sod / 3600)) ++
    ':' :: padLeft 2 (formatNat (sod / 60 % 60)) ++ ':' :: padLeft 2 (formatNat (sod % 60)) ++
    formatNanos (loc % 1000000000).toNat ++ formatZone t.zoneOffset)

/-- Reads the zone of a time text: `Z`, or sign, two digits, a colon, two digits. -/
def parseZone : List Char → Option Int
  | ['Z'] => some 0
  | [sg, h1, h2, ':', m1, m2] =>
    match parseNat [h1, h2], parseNat [m1, m2] with
    | some h, some m =>
      if (sg = '+' ∨ sg = '-') ∧ h < 24 ∧ m < 60 then
        some ((if sg = '-' then -1 else 1) * ((h : Int) * 3600 + (m : Int) * 60))
      else none
    | _, _ => none
  | _ => none

/-- Reads an optional fraction of a second and the zone behind it. -/
def parseNanosZone (cs : List Char) : Option (Nat × Int) :=
  match cs with
  | '.' :: rest =>
    let ds := rest.takeWhile isDigit
    match parseNat ds, parseZone (rest.dropWhile isDigit) with
    | some n, some z => if ds.length ≤ 9 then some (n * 10 ^ (9 - ds.length), z) else none
    | _, _ => none
  | _ => (parseZone cs).map fun z => (0, z)

/-- The call `time.Parse(time.RFC3339Nano, s)` on the texts `refFormatTime` writes; the date and
the time of day must be in range. -/
def refParseTime (s : String) : Option Time :=
  match s.data with
  | y1 :: y2 :: y3 :: y4 :: '-' :: o1 :: o2 :: '-' :: d1 :: d2 :: 'T' :: h1 :: h2 :: ':' ::
      m1 :: m2 :: ':' :: s1 :: s2 :: rest =>
    match parseNat [y1, y2, y3, y4], parseNat [o1, o2], parseNat [d1, d2], parseNat [h1, h2],
      parseNat [m1, m2], parseNat [s1, s2], parseNanosZone rest with
    | some y, some mo, some d, some h, some mi, some sec, some (ns, z) =>
      if 1 ≤ mo ∧ mo ≤ 12 ∧ 1 ≤ d ∧ civilFromDays (daysFromCivil y mo d) = ((y : Int), mo, d) ∧
          h < 24 ∧ mi < 60 ∧ sec < 60 then
        some (Time.mk (((daysFromCivil y mo d * 86400 + (h : Int) * 3600 + (mi : Int) * 60 +
          (sec : Int)) - z) * 1000000000 + (ns : Int)) z)
      else none
    | _, _, _, _, _, _, _ => none
  | _ => none

/-- The reference library. -/
def refLib : GoLib :=
  { formatFloat := refFormatFloat
    parseFloat := refParseFloat
    jsonFloat := refFormatFloat
    timestampText := refFormatTime
    parseTime := refParseTime }


/-- The discriminant and the populated field agree: a value field other than the one
selected by the type holds its zero value. -/
def KeyValue.FieldsAgree (kv : KeyValue) : Prop :=
  (kv.VType = ValueType_STRING ∨ kv.VStr = "") ∧
  (kv.VType = ValueType_BOOL ∨ kv.VBool = false) ∧
  (kv.VType = ValueType_INT64 ∨ kv.VInt64 = 0) ∧
  (kv.VType = ValueType_FLOAT64 ∨ kv.VFloat64 = .finite 0 1) ∧
  (kv.VType = ValueType_BINARY ∨ kv.VBinary = [])

instance (kv : KeyValue) : Decidable kv.FieldsAgree := by
  unfold KeyValue.FieldsAgree
  infer_instance

/-- The type is one of the five of the domain model. -/
def KeyValue.KnownType (kv : KeyValue) : Prop :=
  kv.VType = ValueType_STRING ∨ kv.VType = ValueType_BOOL ∨ kv.VType = ValueType_INT64 ∨
    kv.VType = ValueType_FLOAT64 ∨ kv.VType = ValueType_BINARY

instance (kv : KeyValue) : Decidable kv.KnownType := by
  unfold KeyValue.KnownType
  infer_instance

/-- No float64 field of the entry holds NaN or an infinity. -/
def Log.FiniteFloats (log : Log) : Prop :=
  ∀ kv ∈ log.Fields, kv.VType = ValueType_FLOAT64 → kv.VFloat64.isFinite = true

instance (log : Log) : Decidable log.FiniteFloats := by
  unfold Log.FiniteFloats
  infer_instance


/-! ### Span kinds (mapping.go, models.go) -/

/-- The type `trace.SpanKind` of the OpenTelemetry library: a Go `int`. -/
abbrev SpanKind := Int

/-- The constant `trace.SpanKindUnspecified`. -/
def SpanKindUnspecified : SpanKind := 0
/-- The constant `trace.SpanKindInternal`. -/
def SpanKindInternal : SpanKind := 1
/-- The constant `trace.SpanKindServer`. -/
def SpanKindServer : SpanKind := 2
/-- The constant `trace.SpanKindClient`. -/
def SpanKindClient : SpanKind := 3
/-- The constant `trace.SpanKindProducer`. -/
def SpanKindProducer : SpanKind := 4
/-- The constant `trace.SpanKindConsumer`. -/
def SpanKindConsumer : SpanKind := 5

/-- The type `Spankind` of models.go: a Go `string`. -/
abbrev Spankind := String

/-- The constant `SpankindServer` of models.go. -/
def SpankindServer : Spankind := "server"
/-- The constant `SpankindClient` of models.go. -/
def SpankindClient : Spankind := "client"
/-- The constant `SpankindUnspecified` of models.go. -/
def SpankindUnspecified : Spankind := "unspecified"
/-- The constant `SpankindProducer` of models.go. -/
def SpankindProducer : Spankind := "producer"
/-- The constant `SpankindConsumer` of models.go. -/
def SpankindConsumer : Spankind := "consumer"
/-- The constant `SpankindEphemeral` of models.go. -/
def SpankindEphemeral : Spankind := "ephemeral"
/-- The constant `SpankindInternal` of models.go. -/
def SpankindInternal : Spankind := "internal"

/-- The seven storage kinds, in the order of the `const` block of models.go. -/
def storageKinds : List Spankind :=
  [SpankindServer, SpankindClient, SpankindUnspecified, SpankindProducer, SpankindConsumer,
    SpankindEphemeral, SpankindInternal]

/-- The six domain kinds named by the `case` labels of `EncodeSpanKind`. -/
def recognisedKinds : List SpanKind :=
  [SpanKindClient, SpanKindServer, SpanKindProducer, SpanKindConsumer, SpanKindInternal,
    SpanKindUnspecified]

/-- The function `EncodeSpanKind` of mapping.go: a `switch` with six cases and a default. -/
def EncodeSpanKind (modelKind : SpanKind) : Spankind :=
  if modelKind = SpanKindClient then SpankindClient
  else if modelKind = SpanKindServer then SpankindServer
  else if modelKind = SpanKindProducer then SpankindProducer
  else if modelKind = SpanKindConsumer then SpankindConsumer
  else if modelKind = SpanKindInternal then SpankindInternal
  else if modelKind = SpanKindUnspecified then SpankindUnspecified
  else SpankindUnspecified

/-- A backward mapping, storage kind to domain kind. The sources hold no such function; it
is the mapping shown to exist in the theorem on invertibility. -/
def spanKindOfStorage (s : Spankind) : SpanKind :=
  if s = SpankindClient then SpanKindClient
  else if s = SpankindServer then SpanKindServer
  else if s = SpankindProducer then SpanKindProducer
  else if s = SpankindConsumer then SpanKindConsumer
  else if s = SpankindInternal then SpanKindInternal
  else SpanKindUnspecified


/-! ### `time.Duration` and the `pgtype` values of the query parameters -/

/-- The type `time.Duration`: a signed count of nanoseconds. -/
abbrev Duration := Int

/-- The method `Microseconds` of `time.Duration`: the integer quotient by 1000, which Go
truncates toward zero. -/
def Duration.Microseconds (d : Duration) : Int := Int.tdiv d 1000

/-- The type `pgtype.InfinityModifier` with its three named values. -/
inductive pgtype.InfinityModifier where
  | Finite
  | Infinity
  | NegativeInfinity
  deriving DecidableEq, Repr

/-- The type `pgtype.Timestamp`. -/
structure pgtype.Timestamp where
  Time : Time
  InfinityModifier : pgtype.InfinityModifier
  Valid : Bool
  deriving DecidableEq, Repr

/-- The type `pgtype.Interval`. -/
structure pgtype.Interval where
  Microseconds : Int
  Days : Int
  Months : Int
  Valid : Bool
  deriving DecidableEq, Repr

/-- The function `EncodeInterval` of mapping.go; the fields not named in the composite
literal hold their zero value. -/
def EncodeInterval (duration : Duration) : pgtype.Interval :=
  { Microseconds := Duration.Microseconds duration, Days := 0, Months := 0, Valid := true }

/-- The function `EncodeTimestamp` of mapping.go. -/
def EncodeTimestamp (t : Time) : pgtype.Timestamp :=
  { Time := t, InfinityModifier := .Finite, Valid := true }

/-! ### PostgreSQL values and the operators of the search statement -/

/-- A value of the SQL type `TIMESTAMP`: microseconds since the Unix epoch, or one of the
two infinities. -/
inductive PgTime where
  | negInfinity
  | finite (micros : Int)
  | infinity
  deriving DecidableEq, Repr

/-- The order of `TIMESTAMP` values. -/
def PgTime.le : PgTime → PgTime → Bool
  | .negInfinity, _ => true
  | .finite _, .negInfinity => false
  | .finite a, .finite b => decide (a ≤ b)
  | .finite _, .infinity => true
  | .infinity, .infinity => true
  | .infinity, _ => false

/-- A value of the SQL type `INTERVAL`. -/
structure PgInterval where
  months : Int
  days : Int
  micros : Int
  deriving DecidableEq, Repr

/-- The number PostgreSQL compares intervals by: a month counts as 30 days and a day as
24 hours. -/
def PgInterval.span (v : PgInterval) : Int :=
  v.micros + (v.days + v.months * 30) * 86400000000

/-- The values a column or a parameter of the search statement can hold. -/
inductive SqlValue where
  | null
  | bool (b : Bool)
  | text (s : String)
  | int (n : Int)
  | timestamp (t : PgTime)
  | interval (v : PgInterval)
  | jsonb (doc : JSON)

/-- A truth value of SQL: `none` is unknown. -/
abbrev K3 := Option Bool

/-- The operator `OR` on truth values. -/
def K3.or : K3 → K3 → K3
  | some true, _ => some true
  | _, some true => some true
  | some false, some false => some false
  | _, _ => none

/-- The operator `AND` on truth values. -/
def K3.and : K3 → K3 → K3
  | some false, _ => some false
  | _, some false => some false
  | some true, some true => some true
  | _, _ => none

/-- A truth value as an SQL value: unknown is `NULL`. -/
def SqlValue.ofK3 : K3 → SqlValue
  | some b => .bool b
  | none => .null

/-- An SQL value as a truth value; `none` when it is not of type boolean. -/
def SqlValue.toK3 : SqlValue → Option K3
  | .bool b => some (some b)
  | .null => some none
  | _ => none

/-- Whether the value is the boolean true: the test a `WHERE` clause applies to a row. -/
def SqlValue.isTrue : SqlValue → Bool
  | .bool b => b
  | _ => false

/-- The operator `OR`; `none` is a type error. -/
def sqlOr (a b : SqlValue) : Option SqlValue :=
  match a.toK3, b.toK3 with
  | some x, some y => some (.ofK3 (K3.or x y))
  | _, _ => none

/-- The operator `AND`; `none` is a type error. -/
def sqlAnd (a b : SqlValue) : Option SqlValue :=
  match a.toK3, b.toK3 with
  | some x, some y => some (.ofK3 (K3.and x y))
  | _, _ => none

/-- The operator `=` on the types the statement compares (text, boolean): `NULL` when an
operand is `NULL`; `none` is a type error. -/
def sqlEq : SqlValue → SqlValue → Option SqlValue
  | .text x, .text y => some (.bool (decide (x = y)))
  | .bool x, .bool y => some (.bool (decide (x = y)))
  | .null, .null => some .null
  | .null, .text _ => some .null
  | .text _, .null => some .null
  | .null, .bool _ => some .null
  | .bool _, .null => some .null
  | _, _ => none

/-- The operator `<=` on the types the statement compares (timestamp, interval). -/
def sqlLe : SqlValue → SqlValue → Option SqlValue
  | .timestamp x, .timestamp y => some (.bool (x.le y))
  | .interval x, .interval y => some (.bool (decide (x.span ≤ y.span)))
  | .null, .null => some .null
  | .null, .timestamp _ => some .null
  | .timestamp _, .null => some .null
  | .null, .interval _ => some .null
  | .interval _, .null => some .null
  | _, _ => none

/-- The operator `>=`. -/
def sqlGe (a b : SqlValue) : Option SqlValue := sqlLe b a

/-! ### Containment of `jsonb` documents -/

/-- Removes factors of ten from a coefficient, raising the exponent. -/
def stripTens : Nat → Nat → Int → Nat × Int
  | 0, m, e => (m, e)
  | fuel + 1, m, e =>
    if m ≠ 0 ∧ m % 10 = 0 then stripTens fuel (m / 10) (e + 1) else (m, e)

/-- The exponent part of a number literal: empty, or `e` or `E` and a signed integer. -/
def exponentOf : List Char → Option Int
  | [] => some 0
  | c :: r =>
    if c = 'e' ∨ c = 'E' then
      (parseSigned r).map fun p => if p.1 then -(p.2 : Int) else (p.2 : Int)
    else none

/-- The value of a JSON number literal as sign, coefficient and power of ten, with a
coefficient that is not a multiple of ten; zero has one form. Equal numbers have equal
forms, which is how `jsonb` (type `numeric`) compares them. -/
def numericOfLit (lit : String) : Option (Bool × Nat × Int) :=
  let neg := decide (lit.data.head? = some '-')
  let body := if neg then lit.data.tail else lit.data
  let ip := (takeDigits body).1
  let r1 := (takeDigits body).2
  let fp := match r1 with
    | '.' :: r => (takeDigits r).1
    | _ => []
  let r2 := match r1 with
    | '.' :: r => (takeDigits r).2
    | _ => r1
  match parseNat (ip ++ fp), exponentOf r2 with
  | some m, some e =>
    if m = 0 then some (false, 0, 0)
    else some (neg, stripTens (ip ++ fp).length m (e - fp.length))
  | _, _ => none

/-- Equality of two `jsonb` values that are not containers; a container equals nothing
here. -/
def scalarEq : JSON → JSON → Bool
  | .null, .null => true
  | .bool x, .bool y => x == y
  | .str x, .str y => x == y
  | .num x, .num y =>
    match numericOfLit x, numericOfLit y with
    | some p, some q => p == q
    | _, _ => x == y
  | _, _ => false

/-- The value `jsonb` keeps for a key: of members with the same key the last one. -/
def memberLast (key : String) : List (String × JSON) → Option JSON
  | [] => none
  | (k, v) :: rest =>
    match memberLast key rest with
    | some w => some w
    | none => if k = key then some v else none

/-- Whether a member with the key is present. -/
def hasKey (key : String) : List (String × JSON) → Bool
  | [] => false
  | (k, _) :: rest => k == key || hasKey key rest

mutual
/-- Containment below the top level: an object contains an object when each member of the
right one has a member of the same key on the left whose value contains it; an array
contains an array when each element on the right is contained in some element on the
left; other values must be equal. -/
def containsValue (a : JSON) : JSON → Bool
  | .obj ms =>
    match a with
    | .obj as => containsMembers as ms
    | _ => false
  | .arr es =>
    match a with
    | .arr as => containsElems as es
    | _ => false
  | b => scalarEq a b
/-- Each member on the right that is not overridden by a later one of the same key is
matched on the left. -/
def containsMembers (as : List (String × JSON)) : List (String × JSON) → Bool
  | [] => true
  | (k, v) :: rest =>
    (hasKey k rest ||
      match memberLast k as with
      | some a => containsValue a v
      | none => false) && containsMembers as rest
/-- Each element on the right is contained in some element on the left. -/
def containsElems (as : List JSON) : List JSON → Bool
  | [] => true
  | e :: rest => as.any (fun a => containsValue a e) && containsElems as rest
end

/-- Whether the value is not a container. -/
def JSON.isScalar : JSON → Bool
  | .arr _ => false
  | .obj _ => false
  | _ => true

/-- The operator `@>` of `jsonb`. At the top level an array also contains a value that is
not a container when one of its elements equals it. -/
def jsonbContains (a b : JSON) : Bool :=
  match a with
  | .arr as => if b.isScalar then as.any (fun x => scalarEq x b) else containsValue a b
  | _ => containsValue a b

/-- The operator `@>` on SQL values. -/
def sqlContains : SqlValue → SqlValue → Option SqlValue
  | .jsonb x, .jsonb y => some (.bool (jsonbContains x y))
  | .null, .null => some .null
  | .null, .jsonb _ => some .null
  | .jsonb _, .null => some .null
  | _, _ => none

/-- The document PostgreSQL stores for a text written to a `jsonb` column; `none` when
the text is not JSON. -/
def jsonbIn (text : String) : Option JSON := parseJSON text


/-! ### The statement `findTraceIDs` of query.sql.go -/

/-- The SQL types named in the casts of the statement. -/
inductive SqlType where
  | VARCHAR
  | BOOLEAN
  | TIMESTAMP
  | INTERVAL
  | JSONB
  deriving DecidableEq, Repr

/-- The expressions of the statement: a column, a positional parameter, a cast, the
literal `FALSE`, and the operators `=`, `>=`, `<=`, `@>`, `OR`, `AND`. -/
inductive Expr where
  | column (name : String)
  | param (n : Nat)
  | cast (e : Expr) (type : SqlType)
  | FALSE
  | eq (a b : Expr)
  | ge (a b : Expr)
  | le (a b : Expr)
  | contains (a b : Expr)
  | or (a b : Expr)
  | and (a b : Expr)
  deriving DecidableEq, Repr

/-- The placeholders of an expression, left to right. -/
def Expr.params : Expr → List Nat
  | .column _ => []
  | .param n => [n]
  | .cast e _ => e.params
  | .FALSE => []
  | .eq a b => a.params ++ b.params
  | .ge a b => a.params ++ b.params
  | .le a b => a.params ++ b.params
  | .contains a b => a.params ++ b.params
  | .or a b => a.params ++ b.params
  | .and a b => a.params ++ b.params

/-- A cast of a parameter: the value arrives in the type of the cast (or is `NULL`);
`none` when it is of another type. -/
def castValue : SqlType → SqlValue → Option SqlValue
  | _, .null => some .null
  | .VARCHAR, .text s => some (.text s)
  | .BOOLEAN, .bool b => some (.bool b)
  | .TIMESTAMP, .timestamp t => some (.timestamp t)
  | .INTERVAL, .interval v => some (.interval v)
  | .JSONB, .jsonb doc => some (.jsonb doc)
  | _, _ => none

/-- A row of `spans` joined with its operation and its service, with the columns the
statement reads; `none` is `NULL`. -/
structure SearchRow where
  trace_id : List Byte
  services_name : Option String
  operations_name : Option String
  start_time : Option PgTime
  duration : Option PgInterval
  tags : Option JSON
  process_tags : Option JSON

/-- A column value as an SQL value. -/
def columnValue {α : Type} (f : α → SqlValue) : Option α → SqlValue
  | some v => f v
  | none => .null

/-- The column of a row by the name the statement uses for it. -/
def SearchRow.column (row : SearchRow) (name : String) : Option SqlValue :=
  if name = "services.name" then some (columnValue .text row.services_name)
  else if name = "operations.name" then some (columnValue .text row.operations_name)
  else if name = "start_time" then some (columnValue .timestamp row.start_time)
  else if name = "duration" then some (columnValue .interval row.duration)
  else if name = "tags" then some (columnValue .jsonb row.tags)
  else if name = "process_tags" then some (columnValue .jsonb row.process_tags)
  else none

/-- Applies a binary operator to two evaluated operands. -/
def applyOp (op : SqlValue → SqlValue → Option SqlValue) :
    Option SqlValue → Option SqlValue → Option SqlValue
  | some x, some y => op x y
  | _, _ => none

/-- The value of an expression on a row with the positional arguments `args` (the
placeholder `$n` is the n-th of them); `none` is an error of the statement. -/
def evalExpr (row : SearchRow) (args : List SqlValue) : Expr → Option SqlValue
  | .column name => row.column name
  | .param n => if n = 0 then none else args[n - 1]?
  | .cast e type => (evalExpr row args e).bind (castValue type)
  | .FALSE => some (.bool false)
  | .eq a b => applyOp sqlEq (evalExpr row args a) (evalExpr row args b)
  | .ge a b => applyOp sqlGe (evalExpr row args a) (evalExpr row args b)
  | .le a b => applyOp sqlLe (evalExpr row args a) (evalExpr row args b)
  | .contains a b => applyOp sqlContains (evalExpr row args a) (evalExpr row args b)
  | .or a b => applyOp sqlOr (evalExpr row args a) (evalExpr row args b)
  | .and a b => applyOp sqlAnd (evalExpr row args a) (evalExpr row args b)

/-- A statement `SELECT DISTINCT column FROM (the joined rows) WHERE ... LIMIT ...`. -/
structure SelectStatement where
  result : String
  condition : Expr
  limit : Expr

/-- The placeholder `$n` cast to a type, as the statement writes it. -/
def Expr.typed (n : Nat) (type : SqlType) : Expr := .cast (.param n) type

/-- The constant `findTraceIDs` of query.sql.go: the seven parenthesised conditions of its
`WHERE` clause joined by `AND`, and its `LIMIT`. -/
def findTraceIDs : SelectStatement :=
  { result := "spans.trace_id",
    condition :=
      .and (.and (.and (.and (.and (.and
        (.or (.eq (.column "services.name") (.typed 1 .VARCHAR)) (.eq (.typed 2 .BOOLEAN) .FALSE))
        (.or (.eq (.column "operations.name") (.typed 3 .VARCHAR)) (.eq (.typed 4 .BOOLEAN) .FALSE)))
        (.or (.ge (.column "start_time") (.typed 5 .TIMESTAMP)) (.eq (.typed 6 .BOOLEAN) .FALSE)))
        (.or (.le (.column "start_time") (.typed 7 .TIMESTAMP)) (.eq (.typed 8 .BOOLEAN) .FALSE)))
        (.or (.ge (.column "duration") (.typed 9 .INTERVAL)) (.eq (.typed 10 .BOOLEAN) .FALSE)))
        (.or (.le (.column "duration") (.typed 11 .INTERVAL)) (.eq (.typed 12 .BOOLEAN) .FALSE)))
        (.or (.or (.eq (.typed 14 .BOOLEAN) .FALSE)
          (.contains (.column "tags") (.typed 13 .JSONB)))
          (.contains (.column "process_tags") (.typed 13 .JSONB))),
    limit := .param 15 }

/-- The type `FindTraceIDsParams` of query.sql.go. The map `Tags` is given by its entries,
in the order in which `range` visits them. -/
structure FindTraceIDsParams where
  ServiceName : String
  ServiceNameEnableFilter : Bool
  OperationName : String
  OperationNameEnableFilter : Bool
  StartTimeMinimum : pgtype.Timestamp
  StartTimeMinimumEnableFilter : Bool
  StartTimeMaximum : pgtype.Timestamp
  StartTimeMaximumEnableFilter : Bool
  DurationMinimum : pgtype.Interval
  DurationMinimumEnableFilter : Bool
  DurationMaximum : pgtype.Interval
  DurationMaximumEnableFilter : Bool
  Tags : List (String × String)
  TagsEnableFilter : Bool
  NumTraces : Int

/-- The function `formatTags` of query.sql.go. -/
def formatTags (tags : List (String × String)) : List TagContent :=
  tags.map fun entry => { Key := entry.1, Value := entry.2 }

/-- The object `json.Marshal` writes for a `TagContent`. -/
def TagContent.toJSON (tag : TagContent) : JSON :=
  .obj [("Key", .str tag.Key), ("Value", .str tag.Value)]

/-- A `[]TagContent` as the `jsonb` parameter the driver sends: the document of the text
that `json.Marshal` writes for the slice. -/
def tagsDocument (tags : List TagContent) : JSON := .arr (tags.map TagContent.toJSON)

/-- A `pgtype.Timestamp` as the parameter the driver sends: `NULL` when not valid, else
an infinity or the wall clock reading of the time, cut to microseconds. -/
def pgtype.Timestamp.toSql (t : pgtype.Timestamp) : SqlValue :=
  if !t.Valid then .null
  else
    match t.InfinityModifier with
    | .Finite => .timestamp (.finite ((t.Time.unixNano + t.Time.zoneOffset * 1000000000) / 1000))
    | .Infinity => .timestamp .infinity
    | .NegativeInfinity => .timestamp .negInfinity

/-- A `pgtype.Interval` as the parameter the driver sends. -/
def pgtype.Interval.toSql (v : pgtype.Interval) : SqlValue :=
  if !v.Valid then .null
  else .interval { months := v.Months, days := v.Days, micros := v.Microseconds }

/-- The arguments that `FindTraceIDs` passes to `q.db.Query` after the statement, in the
order of the call. -/
def findTraceIDsArgs (arg : FindTraceIDsParams) : List SqlValue :=
  let tags := formatTags arg.Tags
  [.text arg.ServiceName,
    .bool arg.ServiceNameEnableFilter,
    .text arg.OperationName,
    .bool arg.OperationNameEnableFilter,
    arg.StartTimeMinimum.toSql,
    .bool arg.StartTimeMinimumEnableFilter,
    arg.StartTimeMaximum.toSql,
    .bool arg.StartTimeMaximumEnableFilter,
    arg.DurationMinimum.toSql,
    .bool arg.DurationMinimumEnableFilter,
    arg.DurationMaximum.toSql,
    .bool arg.DurationMaximumEnableFilter,
    .jsonb (tagsDocument tags),
    .bool arg.TagsEnableFilter,
    .int arg.NumTraces]

/-- The value of the condition of the statement on a row, with the arguments that
`FindTraceIDs` passes. -/
def FindTraceIDs.condition (arg : FindTraceIDsParams) (row : SearchRow) : Option SqlValue :=
  evalExpr row (findTraceIDsArgs arg) findTraceIDs.condition

/-- Whether the statement of `FindTraceIDs` selects the row: its condition is true. -/
def FindTraceIDs.selects (arg : FindTraceIDsParams) (row : SearchRow) : Bool :=
  match FindTraceIDs.condition arg row with
  | some v => v.isTrue
  | none => false

/-! ### The search predicate, as the specification words it -/

/-- A comparison of a column with a parameter: unknown when either is `NULL`. -/
def compareWith {α β : Type} (op : α → β → Bool) : Option α → Option β → K3
  | some x, some y => some (op x y)
  | _, _ => none

/-- The soft-disable form `(column OP value) OR (active = false)`. -/
def softDisable (comparison : K3) (active : Bool) : K3 := K3.or comparison (some (!active))

/-- A timestamp parameter by name: `none` when not valid. -/
def pgtype.Timestamp.value (t : pgtype.Timestamp) : Option PgTime :=
  match t.toSql with
  | .timestamp v => some v
  | _ => none

/-- An interval parameter by name: `none` when not valid. -/
def pgtype.Interval.value (v : pgtype.Interval) : Option PgInterval :=
  match v.toSql with
  | .interval w => some w
  | _ => none

/-- The conjunction of a list of truth values, from the left. -/
def K3.all (conditions : List K3) : K3 := conditions.foldl K3.and (some true)

/-- The search predicate by the names of the filter fields: the conjunction of the six
soft-disabled comparisons and of the soft-disabled containment of the tag document in the
tags or in the process tags of the row. -/
def searchPredicate (arg : FindTraceIDsParams) (row : SearchRow) : K3 :=
  let doc := some (tagsDocument (formatTags arg.Tags))
  K3.all
    [softDisable (compareWith (fun c v => decide (c = v)) row.services_name
        (some arg.ServiceName)) arg.ServiceNameEnableFilter,
      softDisable (compareWith (fun c v => decide (c = v)) row.operations_name
        (some arg.OperationName)) arg.OperationNameEnableFilter,
      softDisable (compareWith (fun c v => v.le c) row.start_time arg.StartTimeMinimum.value)
        arg.StartTimeMinimumEnableFilter,
      softDisable (compareWith (fun c v => c.le v) row.start_time arg.StartTimeMaximum.value)
        arg.StartTimeMaximumEnableFilter,
      softDisable (compareWith (fun c v => decide (v.span ≤ c.span)) row.duration
        arg.DurationMinimum.value) arg.DurationMinimumEnableFilter,
      softDisable (compareWith (fun c v => decide (c.span ≤ v.span)) row.duration
        arg.DurationMaximum.value) arg.DurationMaximumEnableFilter,
      K3.or (K3.or (some (!arg.TagsEnableFilter)) (compareWith jsonbContains row.tags doc))
        (compareWith jsonbContains row.process_tags doc)]


/-! ### A filter specification and a row, for the instances below -/

/-- A filter specification with every flag off but values present in each field. -/
def allOff : FindTraceIDsParams :=
  { ServiceName := "checkout", ServiceNameEnableFilter := false,
    OperationName := "GET /cart", OperationNameEnableFilter := false,
    StartTimeMinimum := EncodeTimestamp ⟨1700000000000000000, 0⟩,
    StartTimeMinimumEnableFilter := false,
    StartTimeMaximum := EncodeTimestamp ⟨1700000600000000000, 0⟩,
    StartTimeMaximumEnableFilter := false,
    DurationMinimum := EncodeInterval 5000000, DurationMinimumEnableFilter := false,
    DurationMaximum := EncodeInterval 9000000, DurationMaximumEnableFilter := false,
    Tags := [("env", "prod")], TagsEnableFilter := false, NumTraces := 20 }

/-- A span row of another service, outside every bound of the specification above, whose
tags are the stored form of the string tag env = prod and the int64 tag retries = 3. -/
def prodRow : SearchRow :=
  { trace_id := EncodeTraceID ⟨1, 2⟩,
    services_name := some "billing", operations_name := some "charge",
    start_time := some (.finite 1600000000000000), duration := some ⟨0, 0, 12⟩,
    tags := some (.arr
      [.obj [("Key", .str "env"), ("Value", .str "prod"), ("Type", .num "0")],
        .obj [("Key", .str "retries"), ("Value", .str "3"), ("Type", .num "2")]]),
    process_tags := none }


/-- A filter specification with the tag filter alone active, asking for n = 1 and
b = true as texts. -/
def textFilter : FindTraceIDsParams :=
  { allOff with Tags := [("n", "1"), ("b", "true")], TagsEnableFilter := true }

/-- A span row whose tags are the stored form of the int64 tag n = 1 and of the bool tag
b = true. -/
def typedRow : SearchRow :=
  { prodRow with
    tags := some (.arr
      [.obj [("Key", .str "n"), ("Value", .str "1"), ("Type", .num "2")],
        .obj [("Key", .str "b"), ("Value", .str "true"), ("Type", .num "1")]]) }

/-- A span row whose process tags are the stored form of the string tags n = "1" and
b = "true", and whose own tags are `NULL`. -/
def stringRow : SearchRow :=
  { prodRow with
    tags := none,
    process_tags := some (.arr
      [.obj [("Key", .str "n"), ("Value", .str "1"), ("Type", .num "0")],
        .obj [("Key", .str "b"), ("Value", .str "true"), ("Type", .num "0")]]) }

/-! ## Part 2: lemmas and theorems -/

@[simp] theorem Outcome.ok_bind {α β : Type} (v : α) (f : α → Outcome β) :
    (Outcome.ok v >>= f) = f v := rfl

@[simp] theorem Outcome.error_bind {α β : Type} (m : String) (f : α → Outcome β) :
    ((Outcome.error m : Outcome α) >>= f) = Outcome.error m := rfl

@[simp] theorem Outcome.panic_bind {α β : Type} (m : String) (f : α → Outcome β) :
    ((Outcome.panic m : Outcome α) >>= f) = Outcome.panic m := rfl

@[simp] theorem Outcome.pure_eq {α : Type} (v : α) : (pure v : Outcome α) = Outcome.ok v := rfl

/-- Reading back the eight bytes written for a 64-bit value gives the value. -/
theorem LittleEndian.Uint64_AppendUint64 (v : Nat) (hv : v < 2 ^ 64) (rest : List Byte) :
    LittleEndian.Uint64 (LittleEndian.AppendUint64 [] v ++ rest) = .ok v := by
  simp only [LittleEndian.AppendUint64, List.nil_append, List.cons_append, LittleEndian.Uint64,
    byte, Nat.shiftRight_eq_div_pow]
  congr 1
  omega

/-! ### Identifier codec -/

theorem sliceOf_within (raw : ByteSlice) (lo hi : Nat) (h : lo ≤ hi)
    (hl : hi ≤ raw.elems.length) : sliceOf raw lo hi = .ok ((raw.elems.take hi).drop lo) := by
  have hc : hi ≤ raw.cap := by
    unfold ByteSlice.cap
    omega
  rw [sliceOf, if_pos ⟨h, hc⟩, List.take_append_of_le_length hl]

theorem DecodeTraceID_of_ge (raw : ByteSlice) (h : 16 ≤ raw.elems.length) :
    ∃ id, DecodeTraceID raw = .ok id ∧
      ∀ spare, DecodeTraceID ⟨raw.elems.take 16, spare⟩ = .ok id := by
  have hsame : ∀ spare, DecodeTraceID ⟨raw.elems.take 16, spare⟩ = DecodeTraceID raw := by
    intro spare
    have hlen : ((ByteSlice.mk (raw.elems.take 16) spare).elems).length = 16 := by
      simp only [List.length_take]
      omega
    simp only [DecodeTraceID]
    rw [sliceOf_within _ 0 8 (by omega) (by omega),
      sliceOf_within _ 8 16 (by omega) (by omega),
      sliceOf_within raw 0 8 (by omega) (by omega),
      sliceOf_within raw 8 16 (by omega) (by omega)]
    simp only [List.take_take]
    rfl
  have hok : ∃ id, DecodeTraceID raw = .ok id := by
    obtain ⟨elems, behind⟩ := raw
    match elems, h with
    | b0 :: b1 :: b2 :: b3 :: b4 :: b5 :: b6 :: b7 :: c0 :: c1 :: c2 :: c3 :: c4 :: c5 :: c6
        :: c7 :: rest, h =>
      simp only [DecodeTraceID]
      rw [sliceOf_within _ 0 8 (by omega) (by omega),
        sliceOf_within _ 8 16 (by omega) (by omega)]
      exact ⟨_, rfl⟩
  obtain ⟨id, hid⟩ := hok
  exact ⟨id, hid, fun spare => (hsame spare).trans hid⟩

theorem Outcome.bind_eq_ok {α β : Type} {x : Outcome α} {f : α → Outcome β} {b : β}
    (h : (x >>= f) = .ok b) : ∃ a, x = .ok a ∧ f a = .ok b := by
  cases x with
  | ok a => exact ⟨a, rfl, h⟩
  | error m => cases h
  | panic m => cases h

theorem Outcome.bind_isError {α β : Type} (x : Outcome α) (f : α → Outcome β)
    (hx : x.isError = false) (hf : ∀ a, (f a).isError = false) : (x >>= f).isError = false := by
  cases x with
  | ok a => exact hf a
  | error m => cases hx
  | panic m => rfl

theorem sliceOf_isError (raw : ByteSlice) (lo hi : Nat) : (sliceOf raw lo hi).isError = false := by
  unfold sliceOf
  split <;> rfl

theorem Uint64_isError (b : List Byte) : (LittleEndian.Uint64 b).isError = false := by
  unfold LittleEndian.Uint64
  split <;> rfl

theorem EncodeTraceID_length (x : TraceID) : (EncodeTraceID x).length = 16 := rfl

/-- C2. For every trace id whose halves are 64-bit values, decoding the bytes that
`EncodeTraceID` wrote gives the same id back, each half in its own field, whatever the
spare capacity of the slice that holds them. -/
theorem DecodeTraceID_EncodeTraceID (x : TraceID) (hHigh : x.High < 2 ^ 64)
    (hLow : x.Low < 2 ^ 64) :
    ∀ spare : List Byte, DecodeTraceID ⟨EncodeTraceID x, spare⟩ = .ok x := by
  intro spare
  have h1 := LittleEndian.Uint64_AppendUint64 x.High hHigh []
  have h2 := LittleEndian.Uint64_AppendUint64 x.Low hLow []
  simp only [LittleEndian.AppendUint64, List.nil_append, List.append_nil] at h1 h2
  simp only [DecodeTraceID]
  rw [sliceOf_within _ 0 8 (by omega) (by simp [EncodeTraceID_length]),
    sliceOf_within _ 8 16 (by omega) (by simp [EncodeTraceID_length])]
  simp only [EncodeTraceID, LittleEndian.AppendUint64, List.nil_append, List.cons_append]
  simp [h1, h2, NewTraceID]

/-- Witness of C2 at an id with both halves at the top of the 64-bit range. -/
theorem DecodeTraceID_EncodeTraceID_witness :
    DecodeTraceID ⟨EncodeTraceID ⟨2 ^ 64 - 1, 2 ^ 63 + 5⟩, []⟩ = .ok ⟨2 ^ 64 - 1, 2 ^ 63 + 5⟩ ∧
    DecodeTraceID ⟨EncodeTraceID ⟨2 ^ 64 - 1, 2 ^ 63 + 5⟩, [7, 7]⟩ =
      .ok ⟨2 ^ 64 - 1, 2 ^ 63 + 5⟩ :=
  ⟨DecodeTraceID_EncodeTraceID ⟨2 ^ 64 - 1, 2 ^ 63 + 5⟩ (by decide) (by decide) [],
    DecodeTraceID_EncodeTraceID ⟨2 ^ 64 - 1, 2 ^ 63 + 5⟩ (by decide) (by decide) [7, 7]⟩

/-- C3, as stated, fails: a 17-byte input is not rejected. `DecodeTraceID` returns the
id read from the first sixteen bytes and drops the seventeenth. -/
theorem DecodeTraceID_seventeen_bytes :
    DecodeTraceID ⟨[1, 2, 3, 4, 5, 6, 7, 8, 9, 10, 11, 12, 13, 14, 15, 16, 17], []⟩ =
      .ok ⟨578437695752307201, 1157159078456920585⟩ := by
  decide

/-- C3, amended. `DecodeTraceID` has no error result. On every input of at least
sixteen bytes, exactly sixteen included, it succeeds, and the id it returns is the one
read from the first sixteen bytes alone; on no input does it return an error value. -/
theorem DecodeTraceID_length (raw : ByteSlice) :
    (16 ≤ raw.elems.length →
      ∃ id, DecodeTraceID raw = .ok id ∧
        ∀ spare, DecodeTraceID ⟨raw.elems.take 16, spare⟩ = .ok id) ∧
    (DecodeTraceID raw).isError = false := by
  refine ⟨DecodeTraceID_of_ge raw, ?_⟩
  unfold DecodeTraceID
  refine Outcome.bind_isError _ _ (sliceOf_isError raw 0 8) fun s1 => ?_
  refine Outcome.bind_isError _ _ (Uint64_isError s1) fun low => ?_
  refine Outcome.bind_isError _ _ (sliceOf_isError raw 8 16) fun s2 => ?_
  exact Outcome.bind_isError _ _ (Uint64_isError s2) fun high => rfl

/-- Witness of C3 (amended) at a 16-byte input. -/
theorem DecodeTraceID_length_witness :
    ∃ id, DecodeTraceID ⟨[16, 15, 14, 13, 12, 11, 10, 9, 8, 7, 6, 5, 4, 3, 2, 1], []⟩ = .ok id ∧
      ∀ spare, DecodeTraceID
        ⟨[16, 15, 14, 13, 12, 11, 10, 9, 8, 7, 6, 5, 4, 3, 2, 1].take 16, spare⟩ = .ok id :=
  (DecodeTraceID_length ⟨[16, 15, 14, 13, 12, 11, 10, 9, 8, 7, 6, 5, 4, 3, 2, 1], []⟩).1
    (by decide)

/-- C4. `EncodeTraceID` writes exactly sixteen bytes: byte `i` (for `i < 8`) is
`(High >> 8i) mod 256` and byte `8 + i` is `(Low >> 8i) mod 256`. -/
theorem EncodeTraceID_layout (x : TraceID) :
    (EncodeTraceID x).length = 16 ∧
    ∀ i, i < 8 →
      ((EncodeTraceID x).get? i).map Fin.val = some ((x.High >>> (8 * i)) % 256) ∧
      ((EncodeTraceID x).get? (8 + i)).map Fin.val = some ((x.Low >>> (8 * i)) % 256) := by
  refine ⟨rfl, ?_⟩
  intro i hi
  have : i = 0 ∨ i = 1 ∨ i = 2 ∨ i = 3 ∨ i = 4 ∨ i = 5 ∨ i = 6 ∨ i = 7 := by omega
  rcases this with h | h | h | h | h | h | h | h <;> subst h <;>
    simp [EncodeTraceID, LittleEndian.AppendUint64, byte]

theorem DecodeSpanID_EncodeSpanID_aux (s : SpanID) (hs : s < 2 ^ 64) (spare : List Byte) :
    DecodeSpanID ⟨EncodeSpanID s, spare⟩ = .ok s := by
  have h := LittleEndian.Uint64_AppendUint64 s hs []
  simp only [List.append_nil] at h
  simp [DecodeSpanID, EncodeSpanID, h, NewSpanID]

theorem DecodeTraceID_EncodeTraceID_aux (x : TraceID) (hHigh : x.High < 2 ^ 64)
    (hLow : x.Low < 2 ^ 64) (spare : List Byte) :
    DecodeTraceID ⟨EncodeTraceID x, spare⟩ = .ok x := by
  have h1 := LittleEndian.Uint64_AppendUint64 x.High hHigh []
  have h2 := LittleEndian.Uint64_AppendUint64 x.Low hLow []
  simp only [LittleEndian.AppendUint64, List.nil_append, List.append_nil] at h1 h2
  simp only [DecodeTraceID]
  rw [sliceOf_within _ 0 8 (by omega) (by simp [EncodeTraceID_length]),
    sliceOf_within _ 8 16 (by omega) (by simp [EncodeTraceID_length])]
  simp only [EncodeTraceID, LittleEndian.AppendUint64, List.nil_append, List.cons_append]
  simp [h1, h2, NewTraceID]

/-- C5. For every 64-bit span id, `EncodeSpanID` writes its eight little-endian
bytes and `DecodeSpanID` reads the id back from them, whatever the spare capacity of the
slice that holds them. -/
theorem DecodeSpanID_EncodeSpanID (s : SpanID) (hs : s < 2 ^ 64) :
    (∀ spare : List Byte, DecodeSpanID ⟨EncodeSpanID s, spare⟩ = .ok s) ∧
    (EncodeSpanID s).map Fin.val =
      (List.range 8).map (fun i => (s >>> (8 * i)) % 256) := by
  constructor
  · intro spare
    have h := LittleEndian.Uint64_AppendUint64 s hs []
    simp only [List.append_nil] at h
    simp [DecodeSpanID, EncodeSpanID, h, NewSpanID]
  · simp [EncodeSpanID, LittleEndian.AppendUint64, byte, List.range_succ]

/-- Witness of C5 at the largest span id. -/
theorem DecodeSpanID_EncodeSpanID_witness :
    DecodeSpanID ⟨EncodeSpanID (2 ^ 64 - 1), []⟩ = .ok (2 ^ 64 - 1) :=
  (DecodeSpanID_EncodeSpanID (2 ^ 64 - 1) (by decide)).1 []


theorem digitVal_digitChar (d : Nat) (h : d < 10) : digitVal (digitChar d) = some d := by
  have table : ∀ m : Fin 10, digitVal (digitChar m.val) = some m.val := by decide
  exact table ⟨d, h⟩

theorem natDigits_append (fuel n : Nat) (acc : List Char) :
    natDigits fuel n acc = natDigits fuel n [] ++ acc := by
  induction fuel generalizing n acc with
  | zero => simp [natDigits]
  | succ fuel ih =>
    unfold natDigits
    split
    · simp
    · rw [ih, ih (n / 10) [digitChar (n % 10)]]
      simp

theorem parseDigits_append (ds : List Char) (c : Char) (a : Nat) :
    parseDigits (ds ++ [c]) a =
      (parseDigits ds a).bind fun v => (digitVal c).map fun d => v * 10 + d := by
  induction ds generalizing a with
  | nil =>
    simp only [List.nil_append, parseDigits]
    cases digitVal c <;> simp [parseDigits]
  | cons x xs ih =>
    simp only [List.cons_append, parseDigits]
    cases digitVal x with
    | none => simp
    | some d => simp [ih]

theorem parseDigits_natDigits (fuel n : Nat) (h : n < fuel) :
    parseDigits (natDigits fuel n []) 0 = some n := by
  induction fuel generalizing n with
  | zero => omega
  | succ fuel ih =>
    unfold natDigits
    split
    · rename_i h10
      simp [parseDigits, digitVal_digitChar n h10]
    · rename_i h10
      rw [natDigits_append, parseDigits_append, ih (n / 10) (by omega),
        digitVal_digitChar (n % 10) (Nat.mod_lt _ (by decide))]
      simp
      omega

theorem natDigits_ne_nil (fuel n : Nat) (h : n < fuel) : natDigits fuel n [] ≠ [] := by
  cases fuel with
  | zero => omega
  | succ fuel =>
    unfold natDigits
    split
    · simp
    · rw [natDigits_append]; simp

theorem parseNat_formatNat (n : Nat) : parseNat (formatNat n) = some n := by
  have h1 := natDigits_ne_nil (n + 1) n (by omega)
  have h2 := parseDigits_natDigits (n + 1) n (by omega)
  unfold parseNat formatNat
  split
  · rename_i heq; exact absurd heq h1
  · exact h2


theorem isDigit_digitChar (d : Nat) (h : d < 10) : isDigit (digitChar d) = true := by
  have table : ∀ m : Fin 10, isDigit (digitChar m.val) = true := by decide
  exact table ⟨d, h⟩

theorem natDigits_isDigit (fuel n : Nat) :
    ∀ c ∈ natDigits fuel n [], isDigit c = true := by
  induction fuel generalizing n with
  | zero => simp [natDigits]
  | succ fuel ih =>
    unfold natDigits
    split
    · rename_i h10
      simpa using isDigit_digitChar n h10
    · rw [natDigits_append]
      intro c hc
      rcases List.mem_append.1 hc with h | h
      · exact ih _ c h
      · rw [List.mem_singleton] at h
        subst h
        exact isDigit_digitChar _ (Nat.mod_lt _ (by decide))

theorem formatNat_isDigit (n : Nat) : ∀ c ∈ formatNat n, isDigit c = true :=
  natDigits_isDigit _ _

theorem formatNat_ne_nil (n : Nat) : formatNat n ≠ [] :=
  natDigits_ne_nil (n + 1) n (by omega)

theorem isDigit_not_sign {c : Char} (h : isDigit c = true) : c ≠ '+' ∧ c ≠ '-' := by
  constructor <;> (intro hc; subst hc; revert h; decide)

theorem parseSigned_FormatInt (i : Int) :
    parseSigned (FormatInt i).data = some (decide (i < 0), i.natAbs) := by
  cases i with
  | ofNat n =>
    have hne := formatNat_ne_nil n
    have hd := formatNat_isDigit n
    have hp := parseNat_formatNat n
    simp only [FormatInt]
    generalize formatNat n = ds at hne hd hp
    match ds, hne with
    | c :: cs, _ =>
      have hc := isDigit_not_sign (hd c (by simp))
      have : ¬ ((n : Int) < 0) := by omega
      simp [parseSigned, hc.1, hc.2, hp, this]
  | negSucc n =>
    have hp := parseNat_formatNat (n + 1)
    simp only [FormatInt]
    simp [parseSigned, hp, Int.negSucc_lt_zero]

theorem ParseInt_FormatInt (i : Int) (hlo : -2 ^ 63 ≤ i) (hhi : i < 2 ^ 63) :
    ParseInt (FormatInt i) = some i := by
  simp only [ParseInt, parseSigned_FormatInt]
  by_cases h : i < 0
  · have h1 : i.natAbs ≤ 2 ^ 63 := by omega
    have h2 : -((i.natAbs : Nat) : Int) = i := by omega
    rw [decide_eq_true h]
    simp only [if_true]
    rw [if_pos h1, h2]
  · have h1 : i.natAbs < 2 ^ 63 := by omega
    have h2 : ((i.natAbs : Nat) : Int) = i := by omega
    rw [decide_eq_false h]
    simp only [Bool.false_eq_true, if_false]
    rw [if_pos h1, h2]

theorem ParseBool_FormatBool (b : Bool) : ParseBool (FormatBool b) = some b := by
  cases b <;> decide

theorem takeDigits_of_digits (ds : List Char) (h : ∀ c ∈ ds, isDigit c = true) :
    takeDigits ds = (ds, []) := by
  induction ds with
  | nil => rfl
  | cons c cs ih =>
    have hc := h c (by simp)
    have := ih fun x hx => h x (by simp [hx])
    simp [takeDigits, hc, this]

theorem digitChar_ne_zero (d : Nat) (h0 : 0 < d) (h : d < 10) : digitChar d ≠ '0' := by
  have table : ∀ m : Fin 10, 0 < m.val → digitChar m.val ≠ '0' := by decide
  exact table ⟨d, h⟩ h0

theorem natDigits_head (fuel n : Nat) (h0 : 0 < n) (h : n < fuel) :
    ∃ c cs, natDigits fuel n [] = c :: cs ∧ c ≠ '0' := by
  induction fuel generalizing n with
  | zero => omega
  | succ fuel ih =>
    unfold natDigits
    split
    · rename_i h10
      exact ⟨_, _, rfl, digitChar_ne_zero n h0 h10⟩
    · rename_i h10
      obtain ⟨c, cs, hc, hne⟩ := ih (n / 10) (by omega) (by omega)
      rw [natDigits_append, hc]
      exact ⟨c, cs ++ [digitChar (n % 10)], rfl, hne⟩

theorem scanUnsigned_formatNat (n : Nat) :
    scanUnsigned (formatNat n) = some (formatNat n, []) := by
  by_cases h0 : n = 0
  · subst h0; decide
  · obtain ⟨c, cs, hc, hne⟩ := natDigits_head (n + 1) n (by omega) (by omega)
    have hd := formatNat_isDigit n
    unfold formatNat at hd ⊢
    rw [hc] at hd ⊢
    have h1 := hd c (by simp)
    have h2 := takeDigits_of_digits cs fun x hx => hd x (by simp [hx])
    simp [scanUnsigned, scanInt, hne, h1, h2, scanFrac, scanExp]

theorem isNumberLit_FormatInt (i : Int) : isNumberLit (FormatInt i) = true := by
  cases i with
  | ofNat n =>
    have hne := formatNat_ne_nil n
    have hd := formatNat_isDigit n
    have hs := scanUnsigned_formatNat n
    have key : scanNumber (formatNat n) = some (formatNat n, []) := by
      generalize formatNat n = ds at hne hd hs
      match ds, hne with
      | c :: cs, _ =>
        have hc := isDigit_not_sign (hd c (by simp))
        simp [scanNumber, hc.2, hs]
    simp [FormatInt, isNumberLit, key]
  | negSucc n =>
    have hs := scanUnsigned_formatNat (n + 1)
    simp [FormatInt, isNumberLit, scanNumber, hs]

theorem ParseFloat_FormatInt (L : GoLib) (i : Int) (hi : i.natAbs ≤ 2 ^ 53) :
    ParseFloat L (FormatInt i) = some (.finite i 1) := by
  simp only [ParseFloat, parseSigned_FormatInt]
  by_cases h : i < 0
  · have h1 : ¬ (i.natAbs = 0 ∧ true = true) := by omega
    have h2 : -((i.natAbs : Nat) : Int) = i := by omega
    rw [decide_eq_true h, if_neg h1, if_pos hi]
    simp only [if_true, h2]
  · have h1 : ¬ (i.natAbs = 0 ∧ false = true) := by simp
    have h2 : ((i.natAbs : Nat) : Int) = i := by omega
    rw [decide_eq_false h, if_neg h1, if_pos hi]
    simp only [Bool.false_eq_true, if_false, h2]

theorem toInt_finite (i : Int) (hlo : -2 ^ 63 ≤ i) (hhi : i < 2 ^ 63) :
    (Float64.finite i 1).toInt = i := by
  have h : Int.tdiv i ((1 : Nat) : Int) = i := by simp
  simp only [Float64.toInt, h]
  rw [if_pos ⟨hlo, hhi⟩]

theorem toInt32_finite (i : Int) (hlo : -2 ^ 31 ≤ i) (hhi : i < 2 ^ 31) :
    (Float64.finite i 1).toInt32 = i := by
  have h : Int.tdiv i ((1 : Nat) : Int) = i := by simp
  simp only [Float64.toInt32, h]
  rw [if_pos ⟨hlo, hhi⟩]

theorem b64Val_b64Char (n : Nat) (h : n < 64) : b64Val (b64Char n) = some n := by
  have key : ∀ m : Fin 64, b64Val (b64Char m.val) = some m.val := by decide
  exact key ⟨n, h⟩

theorem b64Char_isPad (n : Nat) (h : n < 64) :
    b64Char n ≠ '=' ∧ b64Char n ≠ '\n' ∧ b64Char n ≠ '\r' := by
  have key : ∀ m : Fin 64,
      b64Char m.val ≠ '=' ∧ b64Char m.val ≠ '\n' ∧ b64Char m.val ≠ '\r' := by decide
  exact key ⟨n, h⟩

theorem byte_eq (a : Byte) (n : Nat) (h : n % 256 = a.val) : byte n = a :=
  Fin.ext h

theorem b64Decode_b64Encode (pad : Bool) (bs : List Byte) :
    b64Decode pad [] (b64Encode pad bs) = some bs := by
  induction bs using b64Encode.induct pad with
  | case1 a b c rest ih =>
    simp only [b64Encode, b64Decode]
    rw [b64Val_b64Char _ (by omega), b64Val_b64Char _ (by omega),
      b64Val_b64Char _ (by omega), b64Val_b64Char _ (by omega)]
    simp only [List.nil_append, List.cons_append, ih, Option.map_some']
    rw [byte_eq a _ (by omega), byte_eq b _ (by omega), byte_eq c _ (by omega)]
  | case2 a b =>
    simp only [b64Encode, b64Decode]
    rw [b64Val_b64Char _ (by omega), b64Val_b64Char _ (by omega),
      b64Val_b64Char _ (by omega)]
    cases pad
    · simp only [List.nil_append, List.cons_append, b64Decode]
      rw [byte_eq a _ (by omega), byte_eq b _ (by omega)]
      simp
    · simp only [List.nil_append, List.cons_append, b64Decode]
      rw [byte_eq a _ (by omega), byte_eq b _ (by omega)]
      simp [b64Val, skipNewlines]
  | case3 a =>
    simp only [b64Encode, b64Decode]
    rw [b64Val_b64Char _ (by omega), b64Val_b64Char _ (by omega)]
    cases pad
    · simp only [List.nil_append, List.cons_append, b64Decode]
      rw [byte_eq a _ (by omega)]
      simp
    · simp only [List.nil_append, List.cons_append, b64Decode]
      rw [byte_eq a _ (by omega)]
      simp [b64Val, skipNewlines]
  | case4 => simp [b64Encode, b64Decode]

theorem StdEncoding.std_decode_encode (bs : List Byte) :
    ∃ spare, StdEncoding.DecodeString (StdEncoding.EncodeToString bs) = some ⟨bs, spare⟩ := by
  have h := b64Decode_b64Encode true bs
  refine ⟨List.replicate (StdEncoding.DecodedLen
    (StdEncoding.EncodeToString bs).utf8ByteSize - bs.length) 0, ?_⟩
  simp only [StdEncoding.DecodeString, StdEncoding.EncodeToString, h, Option.map_some']

theorem RawStdEncoding.raw_decode_encode (bs : List Byte) :
    RawStdEncoding.DecodeString (RawStdEncoding.EncodeToString bs) = some bs :=
  b64Decode_b64Encode false bs

theorem hexVal_hexDigit (d : Nat) (h : d < 16) : hexVal (hexDigit d) = some d := by
  have key : ∀ m : Fin 16, hexVal (hexDigit m.val) = some m.val := by decide
  exact key ⟨d, h⟩

theorem hex4_low (n : Nat) (h : n < 256) :
    hex4 '0' '0' (hexDigit (n / 16)) (hexDigit (n % 16)) = some n := by
  have h0 : hexVal '0' = some 0 := by decide
  simp only [hex4, h0, hexVal_hexDigit (n / 16) (by omega), hexVal_hexDigit (n % 16) (by omega)]
  congr 1
  omega

theorem parseString_skip5 (a b c d e : Char) (tail : List Char) :
    parseString 5 (a :: b :: c :: d :: e :: tail) = parseString 0 tail := by
  simp [parseString]

theorem parseString_escapeChar (c : Char) (tail : List Char) :
    parseString 0 (escapeChar c ++ tail) =
      (parseString 0 tail).map fun p => (c :: p.1, p.2) := by
  unfold escapeChar
  by_cases h1 : c = '"'
  · subst h1; simp [parseString, unescape]
  by_cases h2 : c = '\\'
  · subst h2; simp [parseString, unescape]
  by_cases h3 : c = '\x08'
  · subst h3; simp [parseString, unescape]
  by_cases h4 : c = '\x0c'
  · subst h4; simp [parseString, unescape]
  by_cases h5 : c = '\n'
  · subst h5; simp [parseString, unescape]
  by_cases h6 : c = '\r'
  · subst h6; simp [parseString, unescape]
  by_cases h7 : c = '\t'
  · subst h7; simp [parseString, unescape]
  simp only [h1, h2, h3, h4, h5, h6, h7, if_false]
  by_cases h8 : c.toNat < 32 ∨ c = '<' ∨ c = '>' ∨ c = '&'
  · have hlt : c.toNat < 256 := by
      rcases h8 with h | h | h | h
      · omega
      · subst h; decide
      · subst h; decide
      · subst h; decide
    simp only [h8, if_true, List.cons_append, List.nil_append]
    rw [parseString]
    simp only [hex4_low c.toNat hlt, parseString_skip5]
    have g1 : ¬ (55296 ≤ c.toNat ∧ c.toNat < 56320) := by omega
    have g2 : ¬ (56320 ≤ c.toNat ∧ c.toNat < 57344) := by omega
    simp [g1, g2]
  · simp only [h8, if_false]
    by_cases h9 : c = Char.ofNat 8232
    · subst h9
      simp only [if_true, List.cons_append, List.nil_append]
      conv_lhs => rw [parseString]
      have hx : hex4 '2' '0' '2' '8' = some 8232 := by decide
      simp only [hx, parseString_skip5]
      simp
    by_cases h10 : c = Char.ofNat 8233
    · subst h10
      simp only [h9, if_false, if_true, List.cons_append, List.nil_append]
      conv_lhs => rw [parseString]
      have hx : hex4 '2' '0' '2' '9' = some 8233 := by decide
      simp only [hx, parseString_skip5]
      simp
    simp only [h9, h10, if_false, List.cons_append, List.nil_append]
    conv_lhs => rw [parseString.eq_def]
    have g : ¬ c.toNat < 32 := fun h => h8 (Or.inl h)
    simp [h1, h2, g]

theorem parseString_escapeString (s rest : List Char) :
    parseString 0 (escapeString s ++ '"' :: rest) = some (s, rest) := by
  induction s with
  | nil => simp [escapeString, parseString]
  | cons c cs ih =>
    simp only [escapeString, List.append_assoc]
    rw [parseString_escapeChar, ih]
    rfl


theorem takeDigits_append (xs rest : List Char) (h : numberEnd rest = true) :
    takeDigits (xs ++ rest) = ((takeDigits xs).1, (takeDigits xs).2 ++ rest) := by
  induction xs with
  | nil =>
    cases rest with
    | nil => rfl
    | cons c r =>
      have : isDigit c = false := by
        simp only [numberEnd, Bool.and_eq_true, Bool.not_eq_true'] at h
        exact h.1.1.1
      simp [takeDigits, this]
  | cons x xs ih =>
    simp only [List.cons_append, takeDigits]
    split <;> simp [ih]

theorem scanInt_append {cs l r : List Char} (rest : List Char) (hend : numberEnd rest = true)
    (h : scanInt cs = some (l, r)) : scanInt (cs ++ rest) = some (l, r ++ rest) := by
  cases cs with
  | nil => simp [scanInt] at h
  | cons c t =>
    simp only [scanInt, List.cons_append, takeDigits_append t rest hend] at h ⊢
    split at h
    · rename_i h0
      simp only [Option.some.injEq, Prod.mk.injEq] at h
      obtain ⟨rfl, rfl⟩ := h
      simp [h0]
    · rename_i h0
      split at h
      · rename_i h1
        simp only [Option.some.injEq, Prod.mk.injEq] at h
        obtain ⟨rfl, rfl⟩ := h
        simp [h0, h1]
      · simp at h

theorem scanFrac_append {cs l r : List Char} (rest : List Char) (hend : numberEnd rest = true)
    (h : scanFrac cs = some (l, r)) : scanFrac (cs ++ rest) = some (l, r ++ rest) := by
  cases cs with
  | nil =>
    simp only [scanFrac, Option.some.injEq, Prod.mk.injEq] at h
    obtain ⟨rfl, rfl⟩ := h
    cases rest with
    | nil => rfl
    | cons c r =>
      have : c ≠ '.' := by
        simp only [numberEnd, Bool.and_eq_true, bne_iff_ne] at hend
        exact hend.1.1.2
      simp [scanFrac, this]
  | cons c t =>
    simp only [scanFrac, List.cons_append, takeDigits_append t rest hend] at h ⊢
    split at h
    · rename_i h0
      split at h
      · simp at h
      · rename_i h1
        simp only [Option.some.injEq, Prod.mk.injEq] at h
        obtain ⟨rfl, rfl⟩ := h
        simp [h0, h1]
    · rename_i h0
      simp only [Option.some.injEq, Prod.mk.injEq] at h
      obtain ⟨rfl, rfl⟩ := h
      simp [h0]

theorem scanExp_append {cs l r : List Char} (rest : List Char) (hend : numberEnd rest = true)
    (h : scanExp cs = some (l, r)) : scanExp (cs ++ rest) = some (l, r ++ rest) := by
  cases cs with
  | nil =>
    simp only [scanExp, Option.some.injEq, Prod.mk.injEq] at h
    obtain ⟨rfl, rfl⟩ := h
    cases rest with
    | nil => rfl
    | cons c r =>
      have : ¬ (c = 'e' ∨ c = 'E') := by
        simp only [numberEnd, Bool.and_eq_true, bne_iff_ne] at hend
        rintro (h | h)
        · exact hend.1.2 h
        · exact hend.2 h
      simp [scanExp, this]
  | cons c t =>
    cases t with
    | nil =>
      simp only [scanExp] at h
      split at h
      · simp at h
      · rename_i h0
        simp only [Option.some.injEq, Prod.mk.injEq] at h
        obtain ⟨rfl, rfl⟩ := h
        simp [scanExp, h0]
    | cons s u =>
      have h1 := takeDigits_append u rest hend
      have h2 := takeDigits_append (s :: u) rest hend
      simp only [List.cons_append] at h2
      simp only [scanExp, List.cons_append, h1, h2] at h ⊢
      split at h
      · rename_i h0
        split at h
        · rename_i h3
          split at h
          · simp at h
          · rename_i h4
            simp only [Option.some.injEq, Prod.mk.injEq] at h
            obtain ⟨rfl, rfl⟩ := h
            simp [h0, h3, h4]
        · rename_i h3
          split at h
          · simp at h
          · rename_i h4
            simp only [Option.some.injEq, Prod.mk.injEq] at h
            obtain ⟨rfl, rfl⟩ := h
            simp [h0, h3, h4]
      · rename_i h0
        simp only [Option.some.injEq, Prod.mk.injEq] at h
        obtain ⟨rfl, rfl⟩ := h
        simp [h0]

theorem scanUnsigned_append {cs l r : List Char} (rest : List Char)
    (hend : numberEnd rest = true) (h : scanUnsigned cs = some (l, r)) :
    scanUnsigned (cs ++ rest) = some (l, r ++ rest) := by
  unfold scanUnsigned at h ⊢
  cases h1 : scanInt cs with
  | none => simp [h1] at h
  | some p1 =>
    obtain ⟨ip, r1⟩ := p1
    rw [scanInt_append rest hend h1]
    simp only [h1] at h
    cases h2 : scanFrac r1 with
    | none => simp [h2] at h
    | some p2 =>
      obtain ⟨fp, r2⟩ := p2
      simp only [scanFrac_append rest hend h2]
      simp only [h2] at h
      cases h3 : scanExp r2 with
      | none => simp [h3] at h
      | some p3 =>
        obtain ⟨ep, r3⟩ := p3
        simp only [scanExp_append rest hend h3]
        simp only [h3, Option.some.injEq, Prod.mk.injEq] at h
        simp [h.1, h.2]

theorem scanNumber_append {cs l r : List Char} (rest : List Char)
    (hend : numberEnd rest = true) (h : scanNumber cs = some (l, r)) :
    scanNumber (cs ++ rest) = some (l, r ++ rest) := by
  cases cs with
  | nil => simp [scanNumber] at h
  | cons c t =>
    simp only [scanNumber, List.cons_append] at h ⊢
    split at h
    · rename_i h0
      cases h1 : scanUnsigned t with
      | none => simp [h1] at h
      | some p =>
        rw [if_pos h0, scanUnsigned_append rest hend h1]
        simp only [h1, Option.map_some', Option.some.injEq, Prod.mk.injEq] at h
        simp [h.1, h.2]
    · rename_i h0
      rw [if_neg h0]
      have := scanUnsigned_append rest hend h
      simpa using this

theorem scanNumber_of_isNumberLit {lit : String} (h : isNumberLit lit = true)
    (rest : List Char) (hend : numberEnd rest = true) :
    scanNumber (lit.data ++ rest) = some (lit.data, rest) := by
  unfold isNumberLit at h
  split at h
  · rename_i l heq
    have hl : l = lit.data := by simpa using h
    subst hl
    simpa using scanNumber_append rest hend heq
  · simp at h

theorem head_of_isNumberLit {lit : String} (h : isNumberLit lit = true) :
    ∃ c cs, lit.data = c :: cs ∧ (c = '-' ∨ isDigit c = true) := by
  unfold isNumberLit at h
  split at h
  · rename_i l heq
    cases hd : lit.data with
    | nil => simp [hd, scanNumber] at heq
    | cons c cs =>
      refine ⟨c, cs, rfl, ?_⟩
      by_cases hc : c = '-'
      · exact Or.inl hc
      · right
        simp only [hd, scanNumber, hc, if_false, scanUnsigned, scanInt] at heq
        by_cases h0 : c = '0'
        · subst h0; decide
        · by_cases h1 : isDigit c = true
          · exact h1
          · simp [h0, h1] at heq
  · simp at h

theorem skipWs_cons {c : Char} (h : isWs c = false) (cs : List Char) :
    skipWs (c :: cs) = c :: cs := by
  simp [skipWs, h]

theorem isDigit_facts {c : Char} (h : c = '-' ∨ isDigit c = true) :
    isWs c = false ∧ c ≠ '"' ∧ c ≠ '[' ∧ c ≠ '\x7b' ∧ c ≠ 'n' ∧ c ≠ 't' ∧ c ≠ 'f' ∧ c ≠ ']'
      ∧ c ≠ '\x7d' := by
  rcases h with h | h
  · subst h; decide
  · have h1 : 48 ≤ c.toNat ∧ c.toNat ≤ 57 := by simpa [isDigit] using h
    refine ⟨?_, ?_, ?_, ?_, ?_, ?_, ?_, ?_, ?_⟩
    · simp only [isWs, Bool.or_eq_false_iff, decide_eq_false_iff_not]
      refine ⟨⟨⟨?_, ?_⟩, ?_⟩, ?_⟩ <;> (intro hc; subst hc; revert h1; decide)
    all_goals (intro hc; subst hc; revert h1; decide)

/-- The first character of a rendered value: never white space nor a closing bracket. -/
theorem render_head (j : JSON) (hj : j.numbersOk = true) :
    ∃ c t, render j = c :: t ∧ isWs c = false ∧ c ≠ ']' ∧ c ≠ '\x7d' := by
  cases j with
  | num lit =>
    obtain ⟨c, cs, h1, h2⟩ := head_of_isNumberLit (by simpa [JSON.numbersOk] using hj)
    have := isDigit_facts h2
    exact ⟨c, cs, by simp [render, h1], this.1, this.2.2.2.2.2.2.2.1, this.2.2.2.2.2.2.2.2⟩
  | bool b => cases b <;> exact ⟨_, _, rfl, by decide⟩
  | _ => exact ⟨_, _, rfl, by decide⟩

theorem renderMoreElems_end (js : List JSON) (rest : List Char) :
    numberEnd (renderMoreElems js ++ ']' :: rest) = true := by
  cases js <;> simp [renderMoreElems, numberEnd] <;> decide

theorem renderMoreMembers_end (ms : List (String × JSON)) (rest : List Char) :
    numberEnd (renderMoreMembers ms ++ '\x7d' :: rest) = true := by
  cases ms with
  | nil => simp [renderMoreMembers, numberEnd]; decide
  | cons m ms =>
    obtain ⟨k, v⟩ := m
    simp [renderMoreMembers, numberEnd]; decide

theorem valueRT_succ (fuel : Nat) (ihE : ElemsRT fuel) (ihM : MembersRT fuel) :
    ValueRT (fuel + 1) := by
  intro j rest hj hend hlen
  cases j with
  | null => simp [render, parseValue, skipWs, isWs]
  | bool b => cases b <;> simp [render, boolText, parseValue, skipWs, isWs]
  | num lit =>
    have hlit : isNumberLit lit = true := by simpa [JSON.numbersOk] using hj
    obtain ⟨c, cs, h1, h2⟩ := head_of_isNumberLit hlit
    have hs := scanNumber_of_isNumberLit hlit rest hend
    have hf := isDigit_facts h2
    simp only [render, h1, List.cons_append] at hs ⊢
    rw [parseValue, skipWs_cons hf.1]
    simp only [hf.2.1, hf.2.2.1, hf.2.2.2.1, hf.2.2.2.2.1, hf.2.2.2.2.2.1, hf.2.2.2.2.2.2.1,
      if_false, h2, if_true, hs, Option.map_some']
    rw [← h1]
  | str s =>
    simp only [render, List.cons_append, List.append_assoc, List.singleton_append]
    rw [parseValue, skipWs_cons (by decide)]
    simp [parseString_escapeString]
  | arr es =>
    cases es with
    | nil => simp [render, renderElems, parseValue, skipWs, isWs]
    | cons e es =>
      have hE := ihE e es rest (by simpa [JSON.numbersOk] using hj)
        (by simp only [render, List.length_cons, List.length_append] at hlen; omega)
      obtain ⟨c, t, hc, hws, hb, _⟩ := render_head e (by
        simp only [JSON.numbersOk, numbersOkElems, Bool.and_eq_true] at hj; exact hj.1)
      simp only [render, List.cons_append, List.append_assoc, List.singleton_append] at hE ⊢
      rw [parseValue, skipWs_cons (by decide)]
      simp only [renderElems, hc, List.cons_append, List.append_assoc] at hE ⊢
      simp only [skipWs_cons hws, hb, if_false]
      simpa using hE
  | obj ms =>
    cases ms with
    | nil => simp [render, renderMembers, parseValue, skipWs, isWs]
    | cons m ms =>
      have hM := ihM m ms rest (by simpa [JSON.numbersOk] using hj)
        (by simp only [render, List.length_cons, List.length_append] at hlen; omega)
      obtain ⟨k, v⟩ := m
      simp only [render, List.cons_append, List.append_assoc, List.singleton_append] at hM ⊢
      rw [parseValue, skipWs_cons (by decide)]
      simp only [renderMembers, List.cons_append, List.append_assoc] at hM ⊢
      simp only [skipWs_cons (show isWs '"' = false by decide)]
      simpa using hM

theorem render_length_pos (j : JSON) (hj : j.numbersOk = true) : 0 < (render j).length := by
  obtain ⟨c, t, h, _⟩ := render_head j hj
  simp [h]

theorem elemsRT_succ (fuel : Nat) (ihV : ValueRT fuel) (ihE : ElemsRT fuel) :
    ElemsRT (fuel + 1) := by
  intro j js rest hj hlen
  simp only [numbersOkElems, Bool.and_eq_true] at hj
  simp only [renderElems, List.length_append] at hlen
  have hV := ihV j (renderMoreElems js ++ ']' :: rest) hj.1 (renderMoreElems_end js rest)
    (by omega)
  simp only [renderElems, List.append_assoc]
  rw [parseElems, hV]
  cases js with
  | nil => simp [renderMoreElems, skipWs, isWs]
  | cons e es =>
    have hpos := render_length_pos j hj.1
    have hE := ihE e es rest hj.2 (by
      simp only [renderMoreElems, renderElems, List.length_cons, List.length_append] at hlen ⊢
      omega)
    simp only [renderMoreElems, List.cons_append, List.append_assoc,
      skipWs_cons (show isWs ',' = false by decide)]
    simp only [renderElems, List.append_assoc] at hE
    simp [hE]

theorem membersRT_succ (fuel : Nat) (ihV : ValueRT fuel) (ihM : MembersRT fuel) :
    MembersRT (fuel + 1) := by
  intro m ms rest hj hlen
  obtain ⟨k, v⟩ := m
  simp only [numbersOkMembers, Bool.and_eq_true] at hj
  simp only [renderMembers, List.length_append, List.length_cons] at hlen
  have hV := ihV v (renderMoreMembers ms ++ '\x7d' :: rest) hj.1 (renderMoreMembers_end ms rest)
    (by omega)
  simp only [renderMembers, List.cons_append, List.append_assoc]
  rw [parseMembers, skipWs_cons (show isWs '"' = false by decide)]
  simp only [if_true, parseString_escapeString, skipWs_cons (show isWs ':' = false by decide),
    hV]
  cases ms with
  | nil => simp [renderMoreMembers, skipWs, isWs]
  | cons e es =>
    obtain ⟨k', v'⟩ := e
    have hM := ihM (k', v') es rest hj.2 (by
      simp only [renderMoreMembers, renderMembers, List.length_cons, List.length_append]
        at hlen ⊢
      omega)
    simp only [renderMoreMembers, List.cons_append, List.append_assoc,
      skipWs_cons (show isWs ',' = false by decide)]
    simp only [renderMembers, List.cons_append, List.append_assoc] at hM
    simp [hM]

theorem roundTrip_all (fuel : Nat) : ValueRT fuel ∧ ElemsRT fuel ∧ MembersRT fuel := by
  induction fuel with
  | zero =>
    refine ⟨?_, ?_, ?_⟩
    · intro j rest hj _ hlen
      have := render_length_pos j hj
      omega
    · intro j js rest _ hlen
      omega
    · intro m ms rest _ hlen
      omega
  | succ fuel ih =>
    exact ⟨valueRT_succ fuel ih.2.1 ih.2.2, elemsRT_succ fuel ih.1 ih.2.1,
      membersRT_succ fuel ih.1 ih.2.2⟩

/-- What `json.Marshal` writes for a tree whose numbers are JSON numbers is read back
as that tree. -/
theorem parseJSON_renderJSON (j : JSON) (hj : j.numbersOk = true) :
    parseJSON (renderJSON j) = some j := by
  have h := (roundTrip_all (2 * (render j).length + 2)).1 j [] hj rfl (by omega)
  simp only [List.append_nil] at h
  simp [parseJSON, renderJSON, String.length, h, skipWs]


/-! ### Tag codec -/

theorem WellFormed.vtype_range {kv : KeyValue} (h : kv.WellFormed) :
    0 ≤ kv.VType ∧ kv.VType ≤ 4 := by
  unfold KeyValue.WellFormed at h
  simp only [ValueType_STRING, ValueType_BOOL, ValueType_INT64, ValueType_FLOAT64,
    ValueType_BINARY] at h
  omega

theorem decodeAny_tag (L : GoLib) (kv : KeyValue) (h : kv.VType.natAbs ≤ 2 ^ 53) :
    decodeAny L (encodeTag L kv).toJSON = some (tagAny L kv) := by
  simp [databaseTag.toJSON, decodeAny, decodeAnyMembers, tagAny, encodeTag,
    ParseFloat_FormatInt L kv.VType h]

theorem decodeAnyList_tags (L : GoLib) (xs : List KeyValue)
    (h : ∀ kv ∈ xs, kv.VType.natAbs ≤ 2 ^ 53) :
    decodeAnyList L ((xs.map (encodeTag L)).map databaseTag.toJSON) = some (xs.map (tagAny L)) := by
  induction xs with
  | nil => rfl
  | cons kv rest ih =>
    have h1 := decodeAny_tag L kv (h kv (by simp))
    have h2 := ih fun x hx => h x (by simp [hx])
    simp only [List.map_cons, decodeAnyList, h1, h2]

theorem numbersOk_tags (L : GoLib) (xs : List KeyValue) :
    numbersOkElems ((xs.map (encodeTag L)).map databaseTag.toJSON) = true := by
  induction xs with
  | nil => rfl
  | cons kv rest ih =>
    simp only [List.map_cons, numbersOkElems, ih, Bool.and_true]
    simp [databaseTag.toJSON, JSON.numbersOk, numbersOkMembers, isNumberLit_FormatInt]

theorem int32OfInt_small (n : Int) (h0 : -2 ^ 31 ≤ n) (h1 : n < 2 ^ 31) : int32OfInt n = n := by
  unfold int32OfInt
  omega

theorem decodeTagFromStruct_tagAny (L : GoLib) (kv : KeyValue) (hwf : kv.WellFormed)
    (hf : FloatTextRoundTrips L kv) : decodeTagFromStruct L (tagAny L kv) = .ok kv := by
  have hr := WellFormed.vtype_range hwf
  have ht : int32OfInt (Float64.finite kv.VType 1).toInt = kv.VType := by
    rw [toInt_finite _ (by omega) (by omega), int32OfInt_small _ (by omega) (by omega)]
  have hk : mapIndex "Key" [("Key", Any.string kv.Key),
      ("Value", Any.string (encodeTag L kv).TagContent.Value),
      ("Type", Any.float64 (.finite kv.VType 1))] = some (Any.string kv.Key) := by
    simp [mapIndex]
  have hv : mapIndex "Value" [("Key", Any.string kv.Key),
      ("Value", Any.string (encodeTag L kv).TagContent.Value),
      ("Type", Any.float64 (.finite kv.VType 1))]
      = some (Any.string (encodeTag L kv).TagContent.Value) := by
    simp [mapIndex]
  have hty : mapIndex "Type" [("Key", Any.string kv.Key),
      ("Value", Any.string (encodeTag L kv).TagContent.Value),
      ("Type", Any.float64 (.finite kv.VType 1))] = some (Any.float64 (.finite kv.VType 1)) := by
    simp [mapIndex]
  simp only [decodeTagFromStruct, tagAny, variableIsMap, Bool.not_true, Bool.false_eq_true,
    if_false, hk, hv, hty, Any.assertString, Any.assertFloat64, Outcome.ok_bind, ht]
  obtain ⟨key, vt, vs, vb, vi, vf, vbin⟩ := kv
  unfold KeyValue.WellFormed at hwf
  unfold FloatTextRoundTrips at hf
  simp only [ValueType_STRING, ValueType_BOOL, ValueType_INT64, ValueType_FLOAT64,
    ValueType_BINARY] at hwf hf ⊢
  rcases hwf with h | h | h | h | h
  · obtain ⟨rfl, rfl, rfl, rfl, rfl⟩ := h
    simp [encodeTag, KeyValue.new, ValueType_STRING]
  · obtain ⟨rfl, rfl, rfl, rfl, rfl⟩ := h
    simp [encodeTag, KeyValue.new, ValueType_STRING, ValueType_BOOL, ParseBool_FormatBool]
  · obtain ⟨rfl, rfl, rfl, rfl, rfl, h1, h2⟩ := h
    simp [encodeTag, KeyValue.new, ValueType_STRING, ValueType_BOOL, ValueType_INT64,
      ParseInt_FormatInt _ h1 h2]
  · obtain ⟨rfl, rfl, rfl, rfl, rfl⟩ := h
    simp [encodeTag, KeyValue.new, ValueType_STRING, ValueType_BOOL, ValueType_INT64,
      ValueType_FLOAT64, hf]
  · obtain ⟨rfl, rfl, rfl, rfl, rfl⟩ := h
    simp [encodeTag, KeyValue.new, ValueType_STRING, ValueType_BOOL, ValueType_INT64,
      ValueType_FLOAT64, ValueType_BINARY, RawStdEncoding.raw_decode_encode]

theorem decodeTagsFromStruct_tagAny (L : GoLib) (xs : List KeyValue)
    (hwf : ∀ kv ∈ xs, kv.WellFormed) (hf : ∀ kv ∈ xs, FloatTextRoundTrips L kv) :
    decodeTagsFromStruct L (xs.map (tagAny L)) = .ok xs := by
  induction xs with
  | nil => rfl
  | cons kv rest ih =>
    have h1 := decodeTagFromStruct_tagAny L kv (hwf kv (by simp)) (hf kv (by simp))
    have h2 := ih (fun x hx => hwf x (by simp [hx])) (fun x hx => hf x (by simp [hx]))
    simp [decodeTagsFromStruct, h1, h2]

/-- C1. For every sequence of well-formed tags, `EncodeTags` succeeds and `DecodeTags`
of its output succeeds with the very same sequence: same length, and element by
element the same key, type and value. The empty sequence is written as the text `[]`
and so read back as the empty sequence. The float values are assumed to survive the
text round trip of `strconv` itself. -/
theorem DecodeTags_EncodeTags (L : GoLib) (xs : List KeyValue)
    (hwf : ∀ kv ∈ xs, kv.WellFormed) (hf : ∀ kv ∈ xs, FloatTextRoundTrips L kv) :
    ∃ bytes, EncodeTags L xs = .ok bytes ∧ DecodeTags L bytes = .ok xs ∧
      (xs = [] → bytes = "[]") := by
  refine ⟨_, rfl, ?_, ?_⟩
  · have hp := parseJSON_renderJSON (.arr ((xs.map (encodeTag L)).map databaseTag.toJSON))
      (by simpa [JSON.numbersOk] using numbersOk_tags L xs)
    have hd := decodeAnyList_tags L xs fun kv hkv => by
      have := WellFormed.vtype_range (hwf kv hkv)
      omega
    simp only [DecodeTags, unmarshalSlice, hp, hd]
    exact decodeTagsFromStruct_tagAny L xs hwf hf
  · rintro rfl
    rfl


/-- Witness of C1: one tag of each type, the float being `1.5`, with the reference
library. -/
theorem DecodeTags_EncodeTags_witness :
    ∃ bytes,
      EncodeTags refLib
        [{ KeyValue.new "http.method" ValueType_STRING with VStr := "GET" },
         { KeyValue.new "error" ValueType_BOOL with VBool := true },
         { KeyValue.new "retries" ValueType_INT64 with VInt64 := -42 },
         { KeyValue.new "ratio" ValueType_FLOAT64 with VFloat64 := .finite 3 2 },
         { KeyValue.new "blob" ValueType_BINARY with VBinary := [1, 2, 255] }] = .ok bytes ∧
      DecodeTags refLib bytes = .ok
        [{ KeyValue.new "http.method" ValueType_STRING with VStr := "GET" },
         { KeyValue.new "error" ValueType_BOOL with VBool := true },
         { KeyValue.new "retries" ValueType_INT64 with VInt64 := -42 },
         { KeyValue.new "ratio" ValueType_FLOAT64 with VFloat64 := .finite 3 2 },
         { KeyValue.new "blob" ValueType_BINARY with VBinary := [1, 2, 255] }] := by
  obtain ⟨bytes, h1, h2, _⟩ := DecodeTags_EncodeTags refLib
    [{ KeyValue.new "http.method" ValueType_STRING with VStr := "GET" },
     { KeyValue.new "error" ValueType_BOOL with VBool := true },
     { KeyValue.new "retries" ValueType_INT64 with VInt64 := -42 },
     { KeyValue.new "ratio" ValueType_FLOAT64 with VFloat64 := .finite 3 2 },
     { KeyValue.new "blob" ValueType_BINARY with VBinary := [1, 2, 255] }]
    (by decide) (by decide)
  exact ⟨bytes, h1, h2⟩

/-- The empty tag list is written as the text `[]` and read back as the empty list. -/
theorem DecodeTags_EncodeTags_nil (L : GoLib) :
    EncodeTags L [] = .ok "[]" ∧ DecodeTags L "[]" = .ok [] := by
  constructor <;> rfl

theorem b64Encode_mem (pad : Bool) (bs : List Byte) :
    ∀ c ∈ b64Encode pad bs, c = '=' ∧ pad = true ∨ ∃ n, n < 64 ∧ c = b64Char n := by
  induction bs using b64Encode.induct pad with
  | case1 a b c rest ih =>
    intro x hx
    simp only [b64Encode, List.mem_cons] at hx
    rcases hx with h | h | h | h | h
    · exact Or.inr ⟨_, by omega, h⟩
    · exact Or.inr ⟨_, by omega, h⟩
    · exact Or.inr ⟨_, by omega, h⟩
    · exact Or.inr ⟨_, by omega, h⟩
    · exact ih x h
  | case2 a b =>
    intro x hx
    simp only [b64Encode, List.mem_cons] at hx
    rcases hx with h | h | h | h
    · exact Or.inr ⟨_, by omega, h⟩
    · exact Or.inr ⟨_, by omega, h⟩
    · exact Or.inr ⟨_, by omega, h⟩
    · cases pad <;> simp_all
  | case3 a =>
    intro x hx
    simp only [b64Encode, List.mem_cons] at hx
    rcases hx with h | h | h
    · exact Or.inr ⟨_, by omega, h⟩
    · exact Or.inr ⟨_, by omega, h⟩
    · cases pad <;> simp_all
  | case4 => simp [b64Encode]

/-- The unpadded encoding never writes the padding character. -/
theorem RawStdEncoding.no_padding (bs : List Byte) :
    '=' ∉ (RawStdEncoding.EncodeToString bs).data := by
  intro h
  rcases b64Encode_mem false bs '=' h with h1 | ⟨n, hn, h1⟩
  · simp at h1
  · exact (b64Char_isPad n hn).1 h1.symm

/-- The text of `FormatInt` is the base-10 numeral: its digits are, least significant
first, those of `Nat.digits 10`. -/
theorem natDigits_digits (fuel n : Nat) (h0 : 0 < n) (h : n < fuel) :
    (natDigits fuel n []).reverse.map (fun c => c.toNat - 48) = Nat.digits 10 n := by
  induction fuel generalizing n with
  | zero => omega
  | succ fuel ih =>
    unfold natDigits
    have hd : ∀ d, d < 10 → (digitChar d).toNat - 48 = d := by
      intro d hd
      have table : ∀ m : Fin 10, (digitChar m.val).toNat - 48 = m.val := by decide
      exact table ⟨d, hd⟩
    split
    · rename_i h10
      rw [Nat.digits_of_lt 10 n (by omega) h10]
      simp [hd n h10]
    · rename_i h10
      rw [natDigits_append, Nat.digits_def' (by decide) h0]
      simp only [List.reverse_append, List.reverse_cons, List.reverse_nil, List.nil_append,
        List.singleton_append, List.map_cons]
      rw [ih (n / 10) (by omega) (by omega), hd _ (Nat.mod_lt _ (by decide))]

/-- C8. The output of `EncodeTags` is the JSON array (it reads back as that array) with
one object per tag, in input order, each with exactly the fields `Key` (text), `Value`
(text) and `Type` (the discriminant as a number). The `Value` text is the string
itself for a string tag, `true` or `false` for a bool tag, the base-10 numeral for an
int64 tag, and unpadded base64 (no `=` in it) for a binary tag. -/
theorem EncodeTags_shape (L : GoLib) (xs : List KeyValue) :
    EncodeTags L xs = .ok (renderJSON (.arr (xs.map fun kv =>
      .obj [("Key", .str kv.Key), ("Value", .str (encodeTag L kv).TagContent.Value),
        ("Type", .num (FormatInt kv.VType))]))) ∧
    parseJSON (renderJSON (.arr (xs.map fun kv =>
      .obj [("Key", .str kv.Key), ("Value", .str (encodeTag L kv).TagContent.Value),
        ("Type", .num (FormatInt kv.VType))]))) = some (.arr (xs.map fun kv =>
      .obj [("Key", .str kv.Key), ("Value", .str (encodeTag L kv).TagContent.Value),
        ("Type", .num (FormatInt kv.VType))])) ∧
    ∀ kv ∈ xs,
      (kv.VType = ValueType_STRING → (encodeTag L kv).TagContent.Value = kv.VStr) ∧
      (kv.VType = ValueType_BOOL →
        (encodeTag L kv).TagContent.Value = if kv.VBool then "true" else "false") ∧
      (kv.VType = ValueType_INT64 →
        (encodeTag L kv).TagContent.Value = FormatInt kv.VInt64 ∧
        (FormatInt kv.VInt64).data =
          (if kv.VInt64 < 0 then ['-'] else []) ++ formatNat kv.VInt64.natAbs ∧
        (0 < kv.VInt64.natAbs → (formatNat kv.VInt64.natAbs).reverse.map
          (fun c => c.toNat - 48) = Nat.digits 10 kv.VInt64.natAbs)) ∧
      (kv.VType = ValueType_BINARY →
        (encodeTag L kv).TagContent.Value = RawStdEncoding.EncodeToString kv.VBinary ∧
        '=' ∉ (encodeTag L kv).TagContent.Value.data) := by
  have hmap : (xs.map (encodeTag L)).map databaseTag.toJSON = xs.map fun kv =>
      JSON.obj [("Key", .str kv.Key), ("Value", .str (encodeTag L kv).TagContent.Value),
        ("Type", .num (FormatInt kv.VType))] := by
    rw [List.map_map]
    apply List.map_congr_left
    intro kv _
    simp [databaseTag.toJSON, encodeTag]
  refine ⟨?_, ?_, ?_⟩
  · simp only [EncodeTags, marshalTags, hmap]
  · rw [← hmap]
    exact parseJSON_renderJSON _ (by simpa [JSON.numbersOk] using numbersOk_tags L xs)
  · intro kv _
    refine ⟨?_, ?_, ?_, ?_⟩
    · intro h
      simp [encodeTag, h]
    · intro h
      simp [encodeTag, h, ValueType_BOOL, ValueType_STRING, FormatBool]
    · intro h
      refine ⟨?_, ?_, ?_⟩
      · simp [encodeTag, h, ValueType_INT64, ValueType_BOOL, ValueType_STRING]
      · cases hv : kv.VInt64 with
        | ofNat n => simp [FormatInt]
        | negSucc n => simp [FormatInt, Int.negSucc_lt_zero]
      · intro hpos
        exact natDigits_digits _ _ hpos (by omega)
    · intro h
      have hv : (encodeTag L kv).TagContent.Value = RawStdEncoding.EncodeToString kv.VBinary := by
        simp [encodeTag, h, ValueType_INT64, ValueType_BOOL, ValueType_STRING,
          ValueType_FLOAT64, ValueType_BINARY]
      exact ⟨hv, hv ▸ RawStdEncoding.no_padding kv.VBinary⟩

/-- C9 fails on the code: a tag object whose `Key` is a number makes `DecodeTags` panic
on the unchecked type assertion `preCastKey.(string)` instead of returning an error. -/
theorem DecodeTags_panics_on_numeric_key :
    DecodeTags refLib "[\x7b\"Key\":1,\"Value\":\"a\",\"Type\":0\x7d]" =
      .panic "interface conversion: interface is not string" := by
  decide


/-! ### Span reference codec -/

theorem encodeValues_refs (L : GoLib) (rs : List SpanRef) :
    encodeValues L (rs.map refValue) = some (rs.map refJSON) := by
  induction rs with
  | nil => rfl
  | cons r rest ih =>
    simp [encodeValues, encodeValue, refValue, refJSON, ih]

theorem numbersOk_refs (rs : List SpanRef) : numbersOkElems (rs.map refJSON) = true := by
  induction rs with
  | nil => rfl
  | cons r rest ih =>
    simp [numbersOkElems, ih, refJSON, JSON.numbersOk, isNumberLit_FormatInt]

theorem decodeOuter_refs (L : GoLib) (rs : List SpanRef)
    (h : ∀ r ∈ rs, r.WellTyped) : decodeOuter L (rs.map refJSON) = some (rs.map refAny) := by
  induction rs with
  | nil => rfl
  | cons r rest ih =>
    have hr := h r (by simp)
    have h2 := ih fun x hx => h x (by simp [hx])
    have hp := ParseFloat_FormatInt L r.RefType (by
      have := hr.2.2.2.1
      have := hr.2.2.2.2
      omega)
    simp [decodeOuter, decodeInner, h2, refJSON, refAny, decodeAnyList, decodeAny, hp]

theorem decodeSpanRef_refAny (r : SpanRef) (h : r.WellTyped) :
    decodeSpanRef (refAny r) = .ok r := by
  obtain ⟨h1, h2, h3, h4, h5⟩ := h
  obtain ⟨behindTrace, hdt⟩ := StdEncoding.std_decode_encode (EncodeTraceID r.TraceID)
  obtain ⟨behindSpan, hds⟩ := StdEncoding.std_decode_encode (EncodeSpanID r.SpanID)
  have ht := DecodeTraceID_EncodeTraceID_aux r.TraceID h1 h2 behindTrace
  have hs := DecodeSpanID_EncodeSpanID_aux r.SpanID h3 behindSpan
  simp [decodeSpanRef, refAny, indexAny, Any.assertString, Any.assertFloat64,
    hdt, hds, ht, hs, toInt32_finite _ h4 h5]

theorem decodeSpanRefs_refAny (rs : List SpanRef) (h : ∀ r ∈ rs, r.WellTyped) :
    decodeSpanRefs (rs.map refAny) = .ok rs := by
  induction rs with
  | nil => rfl
  | cons r rest ih =>
    have h1 := decodeSpanRef_refAny r (h r (by simp))
    have h2 := ih fun x hx => h x (by simp [hx])
    simp [decodeSpanRefs, h1, h2]

/-- C6. For every sequence of span references (identifiers 64-bit, reference type an
int32), the empty one included, `EncodeSpanRefs` succeeds and `DecodeSpanRefs` of its
output succeeds with the very same sequence: same length and order, and in each
element the same trace id, span id and reference type. -/
theorem DecodeSpanRefs_EncodeSpanRefs (L : GoLib) (rs : List SpanRef)
    (h : ∀ r ∈ rs, r.WellTyped) :
    ∃ bytes, EncodeSpanRefs L rs = .ok bytes ∧ DecodeSpanRefs L bytes = .ok rs := by
  cases rs with
  | nil => exact ⟨"[]", rfl, rfl⟩
  | cons r rest =>
    have he : EncodeSpanRefs L (r :: rest) =
        .ok (renderJSON (.arr ((r :: rest).map refJSON))) := by
      have := encodeValues_refs L (r :: rest)
      simp only [EncodeSpanRefs, List.length_cons, Nat.succ_ne_zero, if_false, jsonMarshal,
        encodeValue]
      rw [show (List.map (fun spanref => GoValue.slice
          [.string (StdEncoding.EncodeToString (EncodeTraceID spanref.TraceID)),
            .string (StdEncoding.EncodeToString (EncodeSpanID spanref.SpanID)),
            .int32 spanref.RefType]) (r :: rest)) = (r :: rest).map refValue from rfl, this]
      rfl
    refine ⟨_, he, ?_⟩
    have hp := parseJSON_renderJSON (.arr ((r :: rest).map refJSON))
      (by simpa [JSON.numbersOk] using numbersOk_refs (r :: rest))
    simp only [DecodeSpanRefs, unmarshalSliceOfSlices, hp, decodeOuter_refs L _ h]
    exact decodeSpanRefs_refAny _ h

/-- Witness of C6: two references, identifiers and reference types at the ends of
their ranges. -/
theorem DecodeSpanRefs_EncodeSpanRefs_witness :
    ∃ bytes,
      EncodeSpanRefs refLib [⟨⟨2 ^ 64 - 1, 1⟩, 2 ^ 63, -2 ^ 31⟩, ⟨⟨0, 7⟩, 9, 2 ^ 31 - 1⟩]
        = .ok bytes ∧
      DecodeSpanRefs refLib bytes
        = .ok [⟨⟨2 ^ 64 - 1, 1⟩, 2 ^ 63, -2 ^ 31⟩, ⟨⟨0, 7⟩, 9, 2 ^ 31 - 1⟩] :=
  DecodeSpanRefs_EncodeSpanRefs refLib _ (by decide)

/-- C10 fails on the code: a reference tuple without elements makes `DecodeSpanRefs`
panic on the unchecked index expression `subslice[0]` instead of returning an error. -/
theorem DecodeSpanRefs_panics_on_empty_tuple :
    DecodeSpanRefs refLib "[[]]" = .panic "index out of range" := by
  decide


/-! ### Log codec -/

theorem encodeValue_field (L : GoLib) (kv : KeyValue) (hf : FloatJSONRoundTrips L kv) :
    encodeValue L (.slice [.string kv.Key, .int32 kv.VType, encodeTagValue kv]) =
      some (fieldJSON L kv) := by
  have hv : encodeValue L (encodeTagValue kv) = some (valueJSON L kv) := by
    unfold encodeTagValue valueJSON
    split
    · rfl
    split
    · rfl
    split
    · rfl
    split
    · rename_i h
      have hfin := (hf h).1
      cases hx : kv.VFloat64 with
      | finite n d => simp [encodeValue]
      | negZero => simp [encodeValue]
      | inf b => simp [hx, Float64.isFinite] at hfin
      | nan => simp [hx, Float64.isFinite] at hfin
    split
    · rfl
    · rfl
  simp [encodeValue, encodeValues, hv, fieldJSON]

theorem encodeValues_fields (L : GoLib) (kvs : List KeyValue)
    (h : ∀ kv ∈ kvs, kv.WellFormed ∧ FloatJSONRoundTrips L kv) :
    encodeValues L (encodeTagsToSlice kvs) = some (kvs.map (fieldJSON L)) := by
  induction kvs with
  | nil => rfl
  | cons kv rest ih =>
    have h1 := encodeValue_field L kv (h kv (by simp)).2
    have h2 := ih fun x hx => h x (by simp [hx])
    simp only [encodeTagsToSlice, List.map_cons, encodeValues] at h2 ⊢
    rw [h1, h2]

theorem numbersOk_field (L : GoLib) (kv : KeyValue) (hf : FloatJSONRoundTrips L kv) :
    (fieldJSON L kv).numbersOk = true := by
  have hv : (valueJSON L kv).numbersOk = true := by
    unfold valueJSON
    split
    · rfl
    split
    · rfl
    split
    · rfl
    split
    · rename_i h
      simpa [JSON.numbersOk] using (hf h).2.1
    split
    · rfl
    · rfl
  simp [fieldJSON, JSON.numbersOk, numbersOkElems, isNumberLit_FormatInt, hv]

theorem numbersOk_fields (L : GoLib) (kvs : List KeyValue)
    (h : ∀ kv ∈ kvs, kv.WellFormed ∧ FloatJSONRoundTrips L kv) :
    numbersOkElems (kvs.map (fieldJSON L)) = true := by
  induction kvs with
  | nil => rfl
  | cons kv rest ih =>
    have h1 := numbersOk_field L kv (h kv (by simp)).2
    have h2 := ih fun x hx => h x (by simp [hx])
    simp only [List.map_cons, numbersOkElems, h1, h2, Bool.and_self]

theorem decodeAny_field (L : GoLib) (kv : KeyValue) (hwf : kv.WellFormed)
    (hf : FloatJSONRoundTrips L kv) : decodeAny L (fieldJSON L kv) = some (fieldAny kv) := by
  have hr := WellFormed.vtype_range hwf
  have ht := ParseFloat_FormatInt L kv.VType (by omega)
  have hv : decodeAny L (valueJSON L kv) = some (valueAny kv) := by
    unfold valueJSON valueAny
    split
    · rfl
    split
    · rfl
    split
    · rfl
    split
    · rename_i h
      simp [decodeAny, (hf h).2.2]
    split
    · rfl
    · rfl
  simp [fieldJSON, fieldAny, decodeAny, decodeAnyList, ht, hv]

theorem decodeAnyList_fields (L : GoLib) (kvs : List KeyValue)
    (h : ∀ kv ∈ kvs, kv.WellFormed ∧ FloatJSONRoundTrips L kv) :
    decodeAnyList L (kvs.map (fieldJSON L)) = some (kvs.map fieldAny) := by
  induction kvs with
  | nil => rfl
  | cons kv rest ih =>
    have h1 := decodeAny_field L kv (h kv (by simp)).1 (h kv (by simp)).2
    have h2 := ih fun x hx => h x (by simp [hx])
    simp only [List.map_cons, decodeAnyList, h1, h2]

theorem decodeTagFromSlice_fieldAny (kv : KeyValue) (hwf : kv.WellFormed) :
    decodeTagFromSlice (fieldAny kv) = .ok kv := by
  have hr := WellFormed.vtype_range hwf
  have ht : int32OfInt (Float64.finite kv.VType 1).toInt = kv.VType := by
    rw [toInt_finite _ (by omega) (by omega), int32OfInt_small _ (by omega) (by omega)]
  simp only [decodeTagFromSlice, fieldAny, Any.assertSlice, indexAny, List.get?,
    Any.assertString, Any.assertFloat64, Outcome.ok_bind, ht]
  obtain ⟨key, vt, vs, vb, vi, vf, vbin⟩ := kv
  unfold KeyValue.WellFormed at hwf
  simp only [ValueType_STRING, ValueType_BOOL, ValueType_INT64, ValueType_FLOAT64,
    ValueType_BINARY] at hwf ⊢
  rcases hwf with h | h | h | h | h
  · obtain ⟨rfl, rfl, rfl, rfl, rfl⟩ := h
    simp [valueAny, KeyValue.new, ValueType_STRING, Any.assertString]
  · obtain ⟨rfl, rfl, rfl, rfl, rfl⟩ := h
    simp [valueAny, KeyValue.new, ValueType_STRING, ValueType_BOOL, Any.assertBool]
  · obtain ⟨rfl, rfl, rfl, rfl, rfl, h1, h2⟩ := h
    simp [valueAny, KeyValue.new, ValueType_STRING, ValueType_BOOL, ValueType_INT64,
      Any.assertString, ParseInt_FormatInt _ h1 h2]
  · obtain ⟨rfl, rfl, rfl, rfl, rfl⟩ := h
    simp [valueAny, KeyValue.new, ValueType_STRING, ValueType_BOOL, ValueType_INT64,
      ValueType_FLOAT64, Any.assertFloat64]
  · obtain ⟨rfl, rfl, rfl, rfl, rfl⟩ := h
    simp [valueAny, KeyValue.new, ValueType_STRING, ValueType_BOOL, ValueType_INT64,
      ValueType_FLOAT64, ValueType_BINARY, Any.assertString,
      RawStdEncoding.raw_decode_encode]

theorem decodeTagsFromSlice_fieldAny (kvs : List KeyValue) (h : ∀ kv ∈ kvs, kv.WellFormed) :
    decodeTagsFromSlice (kvs.map fieldAny) = .ok kvs := by
  induction kvs with
  | nil => rfl
  | cons kv rest ih =>
    have h1 := decodeTagFromSlice_fieldAny kv (h kv (by simp))
    have h2 := ih fun x hx => h x (by simp [hx])
    simp [decodeTagsFromSlice, h1, h2]

theorem encodeValues_logs (L : GoLib) (ls : List Log) (h : ∀ l ∈ ls, l.FieldsEncodable L) :
    encodeValues L (ls.map fun log =>
      GoValue.slice [.timestamp log.Timestamp, .slice (encodeTagsToSlice log.Fields)]) =
      some (ls.map (logJSON L)) := by
  induction ls with
  | nil => rfl
  | cons l rest ih =>
    have h1 := encodeValues_fields L l.Fields (h l (by simp))
    have h2 := ih fun x hx => h x (by simp [hx])
    simp only [List.map_cons, encodeValues, encodeValue, h1, h2, Option.map_some', logJSON]

theorem numbersOk_logs (L : GoLib) (ls : List Log) (h : ∀ l ∈ ls, l.FieldsEncodable L) :
    numbersOkElems (ls.map (logJSON L)) = true := by
  induction ls with
  | nil => rfl
  | cons l rest ih =>
    have h1 := numbersOk_fields L l.Fields (h l (by simp))
    have h2 := ih fun x hx => h x (by simp [hx])
    simp [numbersOkElems, logJSON, JSON.numbersOk, h1, h2]

theorem decodeOuter_logs (L : GoLib) (ls : List Log) (h : ∀ l ∈ ls, l.FieldsEncodable L) :
    decodeOuter L (ls.map (logJSON L)) = some (ls.map (logAny L)) := by
  induction ls with
  | nil => rfl
  | cons l rest ih =>
    have h1 := decodeAnyList_fields L l.Fields (h l (by simp))
    have h2 := ih fun x hx => h x (by simp [hx])
    simp [decodeOuter, decodeInner, logJSON, logAny, decodeAnyList, decodeAny, h1, h2]

theorem decodeLog_logAny (L : GoLib) (l : Log) (h : l.FieldsEncodable L) :
    decodeLog L (logAny L l) =
      match L.parseTime (L.timestampText l.Timestamp) with
      | none => .error "parsing time"
      | some t => .ok { Timestamp := t, Fields := l.Fields } := by
  have hd := decodeTagsFromSlice_fieldAny l.Fields fun kv hkv => (h kv hkv).1
  simp only [decodeLog, logAny, indexAny, List.get?, Any.assertSlice, Any.assertString,
    Outcome.ok_bind, hd]
  cases L.parseTime (L.timestampText l.Timestamp) <;> rfl

theorem decodeLogs_logAny (L : GoLib) (ls : List Log) (h : ∀ l ∈ ls, l.FieldsEncodable L) :
    decodeLogs L (ls.map (logAny L)) = readBack L ls := by
  induction ls with
  | nil => rfl
  | cons l rest ih =>
    have h1 := decodeLog_logAny L l (h l (by simp))
    have h2 := ih fun x hx => h x (by simp [hx])
    simp only [List.map_cons, decodeLogs, readBack, h1, h2]
    cases L.parseTime (L.timestampText l.Timestamp) <;> rfl

theorem readBack_ok (L : GoLib) (ls ls' : List Log) (h : readBack L ls = .ok ls') :
    List.Forall₂ (fun l l' => l'.Fields = l.Fields ∧
      L.parseTime (L.timestampText l.Timestamp) = some l'.Timestamp) ls ls' := by
  induction ls generalizing ls' with
  | nil =>
    cases h
    exact List.Forall₂.nil
  | cons l rest ih =>
    simp only [readBack] at h
    cases hp : L.parseTime (L.timestampText l.Timestamp) with
    | none => rw [hp] at h; cases h
    | some t =>
      rw [hp] at h
      obtain ⟨logs, h1, h2⟩ := Outcome.bind_eq_ok h
      cases h2
      exact List.Forall₂.cons ⟨rfl, hp⟩ (ih logs h1)

theorem readBack_same (L : GoLib) (ls ls' : List Log) (h : readBack L ls = .ok ls') :
    List.Forall₂ Log.sameAs ls ls' ↔ ∀ l ∈ ls, TimeTextRoundTrips L l.Timestamp := by
  induction ls generalizing ls' with
  | nil =>
    cases h
    simp
  | cons l rest ih =>
    simp only [readBack] at h
    cases hp : L.parseTime (L.timestampText l.Timestamp) with
    | none => rw [hp] at h; cases h
    | some t =>
      rw [hp] at h
      obtain ⟨logs, h1, h2⟩ := Outcome.bind_eq_ok h
      cases h2
      rw [List.forall₂_cons, List.forall_mem_cons, ih logs h1]
      simp only [Log.sameAs, TimeTextRoundTrips, hp, and_true]

theorem parsed_of_roundTrips (L : GoLib) (t : Time) (h : TimeTextRoundTrips L t) :
    ∃ t', L.parseTime (L.timestampText t) = some t' := by
  unfold TimeTextRoundTrips at h
  cases hp : L.parseTime (L.timestampText t) with
  | none => simp [hp] at h
  | some t' => exact ⟨t', rfl⟩

theorem readBack_of_parsed (L : GoLib) (ls : List Log)
    (h : ∀ l ∈ ls, ∃ t, L.parseTime (L.timestampText l.Timestamp) = some t) :
    ∃ ls', readBack L ls = .ok ls' := by
  induction ls with
  | nil => exact ⟨[], rfl⟩
  | cons l rest ih =>
    obtain ⟨t, ht⟩ := h l (by simp)
    obtain ⟨logs, hl⟩ := ih fun x hx => h x (by simp [hx])
    exact ⟨⟨t, l.Fields⟩ :: logs, by simp [readBack, ht, hl]⟩

theorem readBack_refused (L : GoLib) (ls : List Log)
    (h : ∃ l ∈ ls, L.parseTime (L.timestampText l.Timestamp) = none) :
    readBack L ls = .error "parsing time" := by
  induction ls with
  | nil => simp at h
  | cons l rest ih =>
    simp only [readBack]
    cases hp : L.parseTime (L.timestampText l.Timestamp) with
    | none => rfl
    | some t =>
      obtain ⟨x, hx, hn⟩ := h
      rcases List.mem_cons.1 hx with rfl | hx
      · rw [hp] at hn
        cases hn
      · simp [ih ⟨x, hx, hn⟩]

/-- C11 fails on the code: a log entry without elements makes `DecodeLogs` panic on the
unchecked index expression `subslice[1]` instead of returning an error. -/
theorem DecodeLogs_panics_on_empty_entry :
    DecodeLogs refLib "[[]]" = .panic "index out of range" := by
  decide

theorem DecodeTags_EncodeTags_aux (L : GoLib) (xs : List KeyValue)
    (hwf : ∀ kv ∈ xs, kv.WellFormed) (hf : ∀ kv ∈ xs, FloatTextRoundTrips L kv) :
    ∃ bytes, EncodeTags L xs = .ok bytes ∧ DecodeTags L bytes = .ok xs := by
  refine ⟨_, rfl, ?_⟩
  have hp := parseJSON_renderJSON (.arr ((xs.map (encodeTag L)).map databaseTag.toJSON))
    (by simpa [JSON.numbersOk] using numbersOk_tags L xs)
  have hd := decodeAnyList_tags L xs fun kv hkv => by
    have := WellFormed.vtype_range (hwf kv hkv)
    omega
  simp only [DecodeTags, unmarshalSlice, hp, hd]
  exact decodeTagsFromStruct_tagAny L xs hwf hf

/-- C12, as stated, fails: for the well-formed tag list holding one float64 tag with
NaN there is no legacy payload, `json.Marshal` refuses the tuples. -/
theorem legacy_payload_fails_on_NaN :
    ({ KeyValue.new "load" ValueType_FLOAT64 with VFloat64 := .nan } : KeyValue).WellFormed ∧
    jsonMarshal refLib (.slice (encodeTagsToSlice
      [{ KeyValue.new "load" ValueType_FLOAT64 with VFloat64 := .nan }])) = none := by
  decide

/-- C12, amended. For every sequence of well-formed tags without NaN and infinity among
the float64 values, the legacy payload (the tuples of `encodeTagsToSlice` written by
`json.Marshal`, read by `json.Unmarshal` and `decodeTagsFromSlice`) and the current
payload (`EncodeTags`, read by `DecodeTags`) both exist, both decode, and decode to the
same sequence, the original one. The float values are assumed to survive the text
round trips of the libraries. -/
theorem legacy_and_struct_agree (L : GoLib) (xs : List KeyValue)
    (hwf : ∀ kv ∈ xs, kv.WellFormed) (hf : ∀ kv ∈ xs, FloatTextRoundTrips L kv)
    (hj : ∀ kv ∈ xs, FloatJSONRoundTrips L kv) :
    ∃ legacy current slice,
      jsonMarshal L (.slice (encodeTagsToSlice xs)) = some legacy ∧
      EncodeTags L xs = .ok current ∧
      unmarshalSlice L legacy = some slice ∧
      decodeTagsFromSlice slice = DecodeTags L current ∧
      DecodeTags L current = .ok xs := by
  obtain ⟨current, h1, h2⟩ := DecodeTags_EncodeTags_aux L xs hwf hf
  have hboth : ∀ kv ∈ xs, kv.WellFormed ∧ FloatJSONRoundTrips L kv :=
    fun kv hkv => ⟨hwf kv hkv, hj kv hkv⟩
  have he := encodeValues_fields L xs hboth
  have hp := parseJSON_renderJSON (.arr (xs.map (fieldJSON L)))
    (by simpa [JSON.numbersOk] using numbersOk_fields L xs hboth)
  refine ⟨renderJSON (.arr (xs.map (fieldJSON L))), current, xs.map fieldAny, ?_, h1, ?_, ?_, h2⟩
  · simp [jsonMarshal, encodeValue, he]
  · simp only [unmarshalSlice, hp, decodeAnyList_fields L xs hboth]
  · rw [h2]
    exact decodeTagsFromSlice_fieldAny xs hwf

/-- Witness of C12 (amended): one tag of each type, the float being `0.25`, with the
reference library. -/
theorem legacy_and_struct_agree_witness :
    ∃ legacy current slice,
      jsonMarshal refLib (.slice (encodeTagsToSlice
        [{ KeyValue.new "peer" ValueType_STRING with VStr := "db" },
         { KeyValue.new "cached" ValueType_BOOL with VBool := false },
         { KeyValue.new "rows" ValueType_INT64 with VInt64 := 17 },
         { KeyValue.new "share" ValueType_FLOAT64 with VFloat64 := .finite 1 4 },
         { KeyValue.new "sig" ValueType_BINARY with VBinary := [9, 8] }])) = some legacy ∧
      EncodeTags refLib
        [{ KeyValue.new "peer" ValueType_STRING with VStr := "db" },
         { KeyValue.new "cached" ValueType_BOOL with VBool := false },
         { KeyValue.new "rows" ValueType_INT64 with VInt64 := 17 },
         { KeyValue.new "share" ValueType_FLOAT64 with VFloat64 := .finite 1 4 },
         { KeyValue.new "sig" ValueType_BINARY with VBinary := [9, 8] }] = .ok current ∧
      unmarshalSlice refLib legacy = some slice ∧
      decodeTagsFromSlice slice = DecodeTags refLib current ∧
      DecodeTags refLib current = .ok
        [{ KeyValue.new "peer" ValueType_STRING with VStr := "db" },
         { KeyValue.new "cached" ValueType_BOOL with VBool := false },
         { KeyValue.new "rows" ValueType_INT64 with VInt64 := 17 },
         { KeyValue.new "share" ValueType_FLOAT64 with VFloat64 := .finite 1 4 },
         { KeyValue.new "sig" ValueType_BINARY with VBinary := [9, 8] }] :=
  legacy_and_struct_agree refLib _ (by decide) (by decide) (by decide)

/-! ### Totality of the encoders -/

theorem encodeValue_tuple_isSome (L : GoLib) (kv : KeyValue)
    (h : kv.VType = ValueType_FLOAT64 → kv.VFloat64.isFinite = true) :
    ∃ j, encodeValue L (.slice [.string kv.Key, .int32 kv.VType, encodeTagValue kv]) =
      some j := by
  have hv : ∃ v, encodeValue L (encodeTagValue kv) = some v := by
    unfold encodeTagValue
    split
    · exact ⟨_, rfl⟩
    split
    · exact ⟨_, rfl⟩
    split
    · exact ⟨_, rfl⟩
    split
    · rename_i h3
      have hfin := h h3
      cases hx : kv.VFloat64 with
      | finite n d => exact ⟨_, rfl⟩
      | negZero => exact ⟨_, rfl⟩
      | inf b => simp [hx, Float64.isFinite] at hfin
      | nan => simp [hx, Float64.isFinite] at hfin
    split
    · exact ⟨_, rfl⟩
    · exact ⟨_, rfl⟩
  obtain ⟨v, hv⟩ := hv
  exact ⟨JSON.arr [JSON.str kv.Key, JSON.num (FormatInt kv.VType), v],
    by simp [encodeValue, encodeValues, hv]⟩

theorem encodeValues_tuples_isSome (L : GoLib) (kvs : List KeyValue)
    (h : ∀ kv ∈ kvs, kv.VType = ValueType_FLOAT64 → kv.VFloat64.isFinite = true) :
    ∃ js, encodeValues L (encodeTagsToSlice kvs) = some js := by
  induction kvs with
  | nil => exact ⟨[], rfl⟩
  | cons kv rest ih =>
    obtain ⟨j, h1⟩ := encodeValue_tuple_isSome L kv (h kv (by simp))
    obtain ⟨js, h2⟩ := ih fun x hx => h x (by simp [hx])
    refine ⟨j :: js, ?_⟩
    simp only [encodeTagsToSlice, List.map_cons, encodeValues] at h2 ⊢
    rw [h1, h2]

theorem encodeValues_entries_isSome (L : GoLib) (ls : List Log)
    (h : ∀ l ∈ ls, l.FiniteFloats) :
    ∃ js, encodeValues L (ls.map fun log =>
      GoValue.slice [.timestamp log.Timestamp, .slice (encodeTagsToSlice log.Fields)]) =
      some js := by
  induction ls with
  | nil => exact ⟨[], rfl⟩
  | cons l rest ih =>
    obtain ⟨fs, h1⟩ := encodeValues_tuples_isSome L l.Fields (h l (by simp))
    obtain ⟨js, h2⟩ := ih fun x hx => h x (by simp [hx])
    refine ⟨JSON.arr [JSON.str (L.timestampText l.Timestamp), JSON.arr fs] :: js, ?_⟩
    simp only [List.map_cons, encodeValues, encodeValue, h1, h2, Option.map_some']

theorem encodeValues_none_of_mem (L : GoLib) (vs : List GoValue)
    (h : ∃ v ∈ vs, encodeValue L v = none) : encodeValues L vs = none := by
  induction vs with
  | nil => simp at h
  | cons v rest ih =>
    obtain ⟨x, hx, hn⟩ := h
    rcases List.mem_cons.1 hx with rfl | hx
    · simp only [encodeValues, hn]
    · have hr := ih ⟨x, hx, hn⟩
      simp only [encodeValues, hr]
      cases encodeValue L v <;> rfl

theorem isFinite_false (f : Float64) :
    f.isFinite = false ↔ f = .nan ∨ f = .inf false ∨ f = .inf true := by
  cases f with
  | finite n d => simp [Float64.isFinite]
  | negZero => simp [Float64.isFinite]
  | inf b => cases b <;> simp [Float64.isFinite]
  | nan => simp [Float64.isFinite]

theorem encodeValue_tuple_none (L : GoLib) (kv : KeyValue)
    (ht : kv.VType = ValueType_FLOAT64) (hf : kv.VFloat64.isFinite = false) :
    encodeValue L (.slice [.string kv.Key, .int32 kv.VType, encodeTagValue kv]) = none := by
  have hv : encodeValue L (encodeTagValue kv) = none := by
    have he : encodeTagValue kv = .float64 kv.VFloat64 := by
      simp [encodeTagValue, ht, ValueType_FLOAT64, ValueType_STRING, ValueType_BOOL,
        ValueType_INT64]
    rw [he]
    cases hx : kv.VFloat64 with
    | finite n d => simp [hx, Float64.isFinite] at hf
    | negZero => simp [hx, Float64.isFinite] at hf
    | inf b => rfl
    | nan => rfl
  have hs := encodeValues_none_of_mem L [.string kv.Key, .int32 kv.VType, encodeTagValue kv]
    ⟨_, by simp, hv⟩
  simp only [encodeValue, hs, Option.map_none']

theorem encodeValues_entries_none (L : GoLib) (ls : List Log)
    (h : ∃ l ∈ ls, ∃ kv ∈ l.Fields,
      kv.VType = ValueType_FLOAT64 ∧ kv.VFloat64.isFinite = false) :
    encodeValues L (ls.map fun log =>
      GoValue.slice [.timestamp log.Timestamp, .slice (encodeTagsToSlice log.Fields)]) =
      none := by
  obtain ⟨l, hl, kv, hkv, ht, hf⟩ := h
  apply encodeValues_none_of_mem
  refine ⟨_, List.mem_map_of_mem _ hl, ?_⟩
  have hfields : encodeValues L (encodeTagsToSlice l.Fields) = none :=
    encodeValues_none_of_mem L _
      ⟨_, List.mem_map_of_mem _ hkv, encodeValue_tuple_none L kv ht hf⟩
  have hinner : encodeValue L (.slice (encodeTagsToSlice l.Fields)) = none := by
    simp only [encodeValue, hfields, Option.map_none']
  have hs := encodeValues_none_of_mem L
    [.timestamp l.Timestamp, .slice (encodeTagsToSlice l.Fields)] ⟨_, by simp, hinner⟩
  simp only [encodeValue, hs, Option.map_none']

theorem EncodeLogs_error (L : GoLib) (ls : List Log)
    (h : ∃ l ∈ ls, ∃ kv ∈ l.Fields,
      kv.VType = ValueType_FLOAT64 ∧ kv.VFloat64.isFinite = false) :
    EncodeLogs L ls = .error "json: unsupported value" := by
  simp only [EncodeLogs, jsonMarshal, encodeValue, encodeValues_entries_none L ls h,
    Option.map_none']

/-- C17, as stated, fails: a well-formed float64 field holding an infinity puts
`EncodeLogs` on its error branch. -/
theorem EncodeLogs_fails_on_infinity :
    ({ KeyValue.new "rate" ValueType_FLOAT64 with VFloat64 := .inf false } : KeyValue).WellFormed ∧
    (EncodeLogs refLib [⟨⟨0, 0⟩,
      [{ KeyValue.new "rate" ValueType_FLOAT64 with VFloat64 := .inf false }]⟩]).isError
      = true := by
  decide

/-- C17, amended. `EncodeTags` and `EncodeSpanRefs` return a byte sequence and no error
on every input, their marshal error branch cannot be reached. `EncodeLogs` returns a
byte sequence and no error exactly on the sequences of entries whose float64 fields hold
neither NaN nor an infinity; on a float64 field holding NaN, the positive or the negative
infinity it takes its marshal error branch. -/
theorem encoders_total (L : GoLib) (xs : List KeyValue) (rs : List SpanRef) (ls : List Log) :
    (∃ bytes, EncodeTags L xs = .ok bytes) ∧ (∃ bytes, EncodeSpanRefs L rs = .ok bytes) ∧
    ((∃ bytes, EncodeLogs L ls = .ok bytes) ↔ ∀ l ∈ ls, l.FiniteFloats) ∧
    ((∃ l ∈ ls, ∃ kv ∈ l.Fields, kv.VType = ValueType_FLOAT64 ∧
        (kv.VFloat64 = .nan ∨ kv.VFloat64 = .inf false ∨ kv.VFloat64 = .inf true)) →
      EncodeLogs L ls = .error "json: unsupported value") := by
  refine ⟨⟨_, rfl⟩, ?_, ⟨?_, ?_⟩, ?_⟩
  · cases rs with
    | nil => exact ⟨"[]", rfl⟩
    | cons r rest =>
      have := encodeValues_refs L (r :: rest)
      refine ⟨renderJSON (.arr ((r :: rest).map refJSON)), ?_⟩
      simp only [EncodeSpanRefs, List.length_cons, Nat.succ_ne_zero, if_false, jsonMarshal,
        encodeValue]
      rw [show (List.map (fun spanref => GoValue.slice
          [.string (StdEncoding.EncodeToString (EncodeTraceID spanref.TraceID)),
            .string (StdEncoding.EncodeToString (EncodeSpanID spanref.SpanID)),
            .int32 spanref.RefType]) (r :: rest)) = (r :: rest).map refValue from rfl, this]
      rfl
  · rintro ⟨bytes, hok⟩ l hl kv hkv ht
    by_contra hf
    rw [EncodeLogs_error L ls ⟨l, hl, kv, hkv, ht, by simpa using hf⟩] at hok
    cases hok
  · intro h
    obtain ⟨js, hjs⟩ := encodeValues_entries_isSome L ls h
    exact ⟨renderJSON (.arr js), by simp [EncodeLogs, jsonMarshal, encodeValue, hjs]⟩
  · rintro ⟨l, hl, kv, hkv, ht, hf⟩
    exact EncodeLogs_error L ls ⟨l, hl, kv, hkv, ht, (isFinite_false _).2 hf⟩

/-- Witness of C17 (amended): a tag of an unknown type, one span reference, a log entry
with a finite float field, and a log entry with the negative infinity in a float field. -/
theorem encoders_total_witness :
    (∃ bytes, EncodeTags refLib [KeyValue.new "odd" 9] = .ok bytes) ∧
    (∃ bytes, EncodeSpanRefs refLib [⟨⟨7, 0⟩, 1, 5⟩] = .ok bytes) ∧
    (∃ bytes, EncodeLogs refLib [⟨⟨1704067200000000000, 0⟩,
      [{ KeyValue.new "rate" ValueType_FLOAT64 with VFloat64 := .finite 5 2 }]⟩] = .ok bytes) ∧
    EncodeLogs refLib [⟨⟨1704067200000000000, 0⟩,
      [{ KeyValue.new "rate" ValueType_FLOAT64 with VFloat64 := .inf true }]⟩] =
        .error "json: unsupported value" :=
  ⟨(encoders_total refLib [KeyValue.new "odd" 9] [] []).1,
    (encoders_total refLib [] [⟨⟨7, 0⟩, 1, 5⟩] []).2.1,
    (encoders_total refLib [] [] [⟨⟨1704067200000000000, 0⟩,
      [{ KeyValue.new "rate" ValueType_FLOAT64 with VFloat64 := .finite 5 2 }]⟩]).2.2.1.2
      (by decide),
    (encoders_total refLib [] [] [⟨⟨1704067200000000000, 0⟩,
      [{ KeyValue.new "rate" ValueType_FLOAT64 with VFloat64 := .inf true }]⟩]).2.2.2
      (by decide)⟩

/-- C18. For the empty span-reference list `EncodeSpanRefs` returns exactly the
two-character text `[]`, not `null`, and no error; `DecodeSpanRefs` of `[]` returns the
empty list. -/
theorem EncodeSpanRefs_empty (L : GoLib) :
    EncodeSpanRefs L [] = .ok "[]" ∧ "[]".length = 2 ∧ EncodeSpanRefs L [] ≠ .ok "null" ∧
      DecodeSpanRefs L "[]" = .ok [] := by
  refine ⟨rfl, rfl, ?_, rfl⟩
  simp [EncodeSpanRefs]


/-! ### The discriminant of decoded tags -/

theorem FieldsAgree.new (key : String) (vt : Int) : (KeyValue.new key vt).FieldsAgree := by
  simp [KeyValue.FieldsAgree, KeyValue.new]

theorem decodeTagFromStruct_agree (L : GoLib) (tag : Any) (kv : KeyValue)
    (h : decodeTagFromStruct L tag = .ok kv) : kv.FieldsAgree := by
  unfold decodeTagFromStruct at h
  by_cases hm : (!variableIsMap tag) = true
  · rw [if_pos hm] at h
    cases h
  rw [if_neg hm] at h
  cases tag with
  | map cast =>
    simp only at h
    cases hk : mapIndex "Key" cast with
    | none => rw [hk] at h; cases h
    | some k =>
    cases hv : mapIndex "Value" cast with
    | none => rw [hk, hv] at h; cases h
    | some v =>
    cases ht : mapIndex "Type" cast with
    | none => rw [hk, hv, ht] at h; cases h
    | some t =>
    rw [hk, hv, ht] at h
    simp only at h
    obtain ⟨key, -, h⟩ := Outcome.bind_eq_ok h
    obtain ⟨value, -, h⟩ := Outcome.bind_eq_ok h
    obtain ⟨f, -, h⟩ := Outcome.bind_eq_ok h
    by_cases h0 : int32OfInt f.toInt = ValueType_STRING
    · rw [if_pos h0] at h
      cases h
      simp [KeyValue.FieldsAgree, KeyValue.new, h0]
    rw [if_neg h0] at h
    by_cases h1 : int32OfInt f.toInt = ValueType_BOOL
    · rw [if_pos h1] at h
      cases hp : ParseBool value with
      | none => rw [hp] at h; cases h
      | some p =>
        rw [hp] at h
        cases h
        simp [KeyValue.FieldsAgree, KeyValue.new, h1]
    rw [if_neg h1] at h
    by_cases h2 : int32OfInt f.toInt = ValueType_INT64
    · rw [if_pos h2] at h
      cases hp : ParseInt value with
      | none => rw [hp] at h; cases h
      | some p =>
        rw [hp] at h
        cases h
        simp [KeyValue.FieldsAgree, KeyValue.new, h2]
    rw [if_neg h2] at h
    by_cases h3 : int32OfInt f.toInt = ValueType_FLOAT64
    · rw [if_pos h3] at h
      cases hp : ParseFloat L value with
      | none => rw [hp] at h; cases h
      | some p =>
        rw [hp] at h
        cases h
        simp [KeyValue.FieldsAgree, KeyValue.new, h3]
    rw [if_neg h3] at h
    by_cases h4 : int32OfInt f.toInt = ValueType_BINARY
    · rw [if_pos h4] at h
      cases hp : RawStdEncoding.DecodeString value with
      | none => rw [hp] at h; cases h
      | some p =>
        rw [hp] at h
        cases h
        simp [KeyValue.FieldsAgree, KeyValue.new, h4]
    rw [if_neg h4] at h
    cases h
    exact FieldsAgree.new _ _
  | _ => cases h

theorem decodeTagsFromStruct_agree (L : GoLib) (objects : List Any) (tags : List KeyValue)
    (h : decodeTagsFromStruct L objects = .ok tags) : ∀ kv ∈ tags, kv.FieldsAgree := by
  induction objects generalizing tags with
  | nil =>
    cases h
    simp
  | cons tag rest ih =>
    simp only [decodeTagsFromStruct] at h
    obtain ⟨kv, h1, h⟩ := Outcome.bind_eq_ok h
    obtain ⟨kvs, h2, h⟩ := Outcome.bind_eq_ok h
    cases h
    intro x hx
    rcases List.mem_cons.1 hx with rfl | hx
    · exact decodeTagFromStruct_agree L tag _ h1
    · exact ih kvs h2 x hx

theorem decodeTagFromSlice_agree (subslice : Any) (kv : KeyValue)
    (h : decodeTagFromSlice subslice = .ok kv) : kv.FieldsAgree := by
  unfold decodeTagFromSlice at h
  obtain ⟨cast, -, h⟩ := Outcome.bind_eq_ok h
  obtain ⟨k0, -, h⟩ := Outcome.bind_eq_ok h
  obtain ⟨key, -, h⟩ := Outcome.bind_eq_ok h
  obtain ⟨t0, -, h⟩ := Outcome.bind_eq_ok h
  obtain ⟨f, -, h⟩ := Outcome.bind_eq_ok h
  obtain ⟨value, -, h⟩ := Outcome.bind_eq_ok h
  by_cases h0 : int32OfInt f.toInt = ValueType_STRING
  · rw [if_pos h0] at h
    obtain ⟨s, -, h⟩ := Outcome.bind_eq_ok h
    cases h
    simp [KeyValue.FieldsAgree, KeyValue.new, h0]
  rw [if_neg h0] at h
  by_cases h1 : int32OfInt f.toInt = ValueType_BOOL
  · rw [if_pos h1] at h
    obtain ⟨s, -, h⟩ := Outcome.bind_eq_ok h
    cases h
    simp [KeyValue.FieldsAgree, KeyValue.new, h1]
  rw [if_neg h1] at h
  by_cases h2 : int32OfInt f.toInt = ValueType_INT64
  · rw [if_pos h2] at h
    obtain ⟨s, -, h⟩ := Outcome.bind_eq_ok h
    cases hp : ParseInt s with
    | none => rw [hp] at h; cases h
    | some p =>
      rw [hp] at h
      cases h
      simp [KeyValue.FieldsAgree, KeyValue.new, h2]
  rw [if_neg h2] at h
  by_cases h3 : int32OfInt f.toInt = ValueType_FLOAT64
  · rw [if_pos h3] at h
    obtain ⟨s, -, h⟩ := Outcome.bind_eq_ok h
    cases h
    simp [KeyValue.FieldsAgree, KeyValue.new, h3]
  rw [if_neg h3] at h
  by_cases h4 : int32OfInt f.toInt = ValueType_BINARY
  · rw [if_pos h4] at h
    obtain ⟨s, -, h⟩ := Outcome.bind_eq_ok h
    cases hp : RawStdEncoding.DecodeString s with
    | none => rw [hp] at h; cases h
    | some p =>
      rw [hp] at h
      cases h
      simp [KeyValue.FieldsAgree, KeyValue.new, h4]
  rw [if_neg h4] at h
  cases h
  exact FieldsAgree.new _ _

theorem decodeTagsFromSlice_agree (slice : List Any) (tags : List KeyValue)
    (h : decodeTagsFromSlice slice = .ok tags) : ∀ kv ∈ tags, kv.FieldsAgree := by
  induction slice generalizing tags with
  | nil =>
    cases h
    simp
  | cons tag rest ih =>
    simp only [decodeTagsFromSlice] at h
    obtain ⟨kv, h1, h⟩ := Outcome.bind_eq_ok h
    obtain ⟨kvs, h2, h⟩ := Outcome.bind_eq_ok h
    cases h
    intro x hx
    rcases List.mem_cons.1 hx with rfl | hx
    · exact decodeTagFromSlice_agree tag _ h1
    · exact ih kvs h2 x hx

/-- C19, as stated, fails: a stored tag with type code 7 is decoded without error, in
either shape, and the returned tag has the type 7, none of the five. -/
theorem decoded_type_outside_the_five :
    DecodeTags refLib "[\x7b\"Key\":\"k\",\"Value\":\"v\",\"Type\":7\x7d]" =
      .ok [KeyValue.new "k" 7] ∧
    decodeTagsFromSlice [.slice [.string "k", .float64 (.finite 7 1), .string "v"]] =
      .ok [KeyValue.new "k" 7] ∧
    ¬ (KeyValue.new "k" 7).KnownType := by
  decide

/-- C19, amended. In every tag returned by a successful `DecodeTags` or
`decodeTagsFromSlice`, only the value field selected by the type can be non-zero and
all other value fields hold their zero value; the type itself is whatever code was
stored, so for a code outside the five every value field is zero. -/
theorem decoded_fields_agree (L : GoLib) (input : String) (slice : List Any)
    (tags tags' : List KeyValue) (h : DecodeTags L input = .ok tags)
    (h' : decodeTagsFromSlice slice = .ok tags') :
    (∀ kv ∈ tags, kv.FieldsAgree) ∧ (∀ kv ∈ tags', kv.FieldsAgree) := by
  refine ⟨?_, decodeTagsFromSlice_agree slice tags' h'⟩
  unfold DecodeTags at h
  split at h
  · cases h
  · exact decodeTagsFromStruct_agree L _ tags h

/-- Witness of C19 (amended): a stored bool tag in the struct shape and a stored int64
tag in the tuple shape. -/
theorem decoded_fields_agree_witness :
    ({ KeyValue.new "hit" ValueType_BOOL with VBool := true } : KeyValue).FieldsAgree ∧
    ({ KeyValue.new "n" ValueType_INT64 with VInt64 := 41 } : KeyValue).FieldsAgree :=
  ⟨(decoded_fields_agree refLib "[\x7b\"Key\":\"hit\",\"Value\":\"true\",\"Type\":1\x7d]"
      [.slice [.string "n", .float64 (.finite 2 1), .string "41"]]
      [{ KeyValue.new "hit" ValueType_BOOL with VBool := true }]
      [{ KeyValue.new "n" ValueType_INT64 with VInt64 := 41 }] (by decide) (by decide)).1 _
      (List.mem_singleton_self _),
    (decoded_fields_agree refLib "[\x7b\"Key\":\"hit\",\"Value\":\"true\",\"Type\":1\x7d]"
      [.slice [.string "n", .float64 (.finite 2 1), .string "41"]]
      [{ KeyValue.new "hit" ValueType_BOOL with VBool := true }]
      [{ KeyValue.new "n" ValueType_INT64 with VInt64 := 41 }] (by decide) (by decide)).2 _
      (List.mem_singleton_self _)⟩


/-! ### Span kinds -/

theorem EncodeSpanKind_cases (k : SpanKind) :
    (k ∈ recognisedKinds ∧ EncodeSpanKind k ∈ storageKinds ∧
        EncodeSpanKind k ≠ SpankindEphemeral ∧ spanKindOfStorage (EncodeSpanKind k) = k) ∨
      (k ∉ recognisedKinds ∧ EncodeSpanKind k = SpankindUnspecified) := by
  by_cases h : k ∈ recognisedKinds
  · left
    refine ⟨h, ?_⟩
    simp only [recognisedKinds, List.mem_cons, List.mem_singleton, List.not_mem_nil,
      or_false] at h
    rcases h with h | h | h | h | h | h <;> subst h <;> decide
  · right
    refine ⟨h, ?_⟩
    simp only [recognisedKinds, List.mem_cons, List.mem_singleton, List.not_mem_nil,
      or_false, not_or] at h
    obtain ⟨h1, h2, h3, h4, h5, h6⟩ := h
    simp [EncodeSpanKind, h1, h2, h3, h4, h5, h6]

/-- C13. The function `EncodeSpanKind` is total with no error result: for every value of
the domain kind type (any Go int) the result is one of the seven storage kinds, and for
every value outside the six recognised kinds the result is `unspecified`. -/
theorem EncodeSpanKind_total (k : SpanKind) :
    EncodeSpanKind k ∈ storageKinds ∧
      (k ∉ recognisedKinds → EncodeSpanKind k = SpankindUnspecified) := by
  rcases EncodeSpanKind_cases k with ⟨_, h, _⟩ | ⟨h, h'⟩
  · exact ⟨h, fun hn => absurd ‹k ∈ recognisedKinds› hn⟩
  · exact ⟨by rw [h']; decide, fun _ => h'⟩

/-- Witness of C13: the kind 6, which is none of the six, is stored as `unspecified`, and
so is the negative kind -1. -/
theorem EncodeSpanKind_total_witness :
    EncodeSpanKind 6 ∈ storageKinds ∧ EncodeSpanKind 6 = "unspecified" ∧
      EncodeSpanKind (-1) = "unspecified" :=
  ⟨(EncodeSpanKind_total 6).1, (EncodeSpanKind_total 6).2 (by decide),
    (EncodeSpanKind_total (-1)).2 (by decide)⟩

/-- C14, as stated, fails: `ephemeral` is one of the seven storage kinds and is the image
of no domain kind. -/
theorem ephemeral_has_no_preimage :
    SpankindEphemeral ∈ storageKinds ∧ ¬ ∃ k : SpanKind, EncodeSpanKind k = SpankindEphemeral := by
  refine ⟨by decide, ?_⟩
  rintro ⟨k, hk⟩
  rcases EncodeSpanKind_cases k with ⟨_, _, h, _⟩ | ⟨_, h⟩
  · exact h hk
  · rw [h] at hk
    exact absurd hk (by decide)

/-- C14, amended. On the six recognised domain kinds the mapping is invertible: it sends
distinct recognised kinds to distinct storage kinds, so a backward mapping undoes it on
each of them; and its image over all domain values is exactly the six storage kinds other
than `ephemeral`. -/
theorem EncodeSpanKind_invertible :
    (∀ k ∈ recognisedKinds, ∀ k' ∈ recognisedKinds,
        EncodeSpanKind k = EncodeSpanKind k' → k = k') ∧
    (∃ backward : Spankind → SpanKind,
      ∀ k ∈ recognisedKinds, backward (EncodeSpanKind k) = k) ∧
    (∀ s : Spankind, (∃ k, EncodeSpanKind k = s) ↔ s ∈ storageKinds ∧ s ≠ SpankindEphemeral) := by
  have back : ∀ k ∈ recognisedKinds, spanKindOfStorage (EncodeSpanKind k) = k := by
    intro k hk
    rcases EncodeSpanKind_cases k with ⟨_, _, _, h⟩ | ⟨h, _⟩
    · exact h
    · exact absurd hk h
  refine ⟨?_, ⟨spanKindOfStorage, back⟩, ?_⟩
  · intro k hk k' hk' h
    rw [← back k hk, ← back k' hk', h]
  · intro s
    constructor
    · rintro ⟨k, rfl⟩
      rcases EncodeSpanKind_cases k with ⟨_, h1, h2, _⟩ | ⟨_, h⟩
      · exact ⟨h1, h2⟩
      · rw [h]
        decide
    · rintro ⟨hs, hne⟩
      simp only [storageKinds, List.mem_cons, List.mem_singleton, List.not_mem_nil,
        or_false] at hs
      rcases hs with h | h | h | h | h | h | h
      · exact ⟨SpanKindServer, by rw [h]; decide⟩
      · exact ⟨SpanKindClient, by rw [h]; decide⟩
      · exact ⟨SpanKindUnspecified, by rw [h]; decide⟩
      · exact ⟨SpanKindProducer, by rw [h]; decide⟩
      · exact ⟨SpanKindConsumer, by rw [h]; decide⟩
      · exact absurd h hne
      · exact ⟨SpanKindInternal, by rw [h]; decide⟩

/-- Witness of C14 (amended): the kinds client and server are stored under different
names, a backward mapping exists, and the stored name consumer is the image of a kind. -/
theorem EncodeSpanKind_invertible_witness :
    EncodeSpanKind SpanKindClient ≠ EncodeSpanKind SpanKindServer ∧
      (∃ backward : Spankind → SpanKind,
        ∀ k ∈ recognisedKinds, backward (EncodeSpanKind k) = k) ∧
      ((∃ k, EncodeSpanKind k = "consumer") ↔
        "consumer" ∈ storageKinds ∧ "consumer" ≠ SpankindEphemeral) :=
  ⟨fun h => absurd (EncodeSpanKind_invertible.1 _ (by decide) _ (by decide) h) (by decide),
    EncodeSpanKind_invertible.2.1, EncodeSpanKind_invertible.2.2 "consumer"⟩


/-! ### The search statement -/

theorem toK3_ofK3 (x : K3) : (SqlValue.ofK3 x).toK3 = some x := by
  cases x <;> rfl

theorem sqlAnd_ofK3 (x y : K3) :
    applyOp sqlAnd (some (.ofK3 x)) (some (.ofK3 y)) = some (.ofK3 (K3.and x y)) := by
  simp [applyOp, sqlAnd, toK3_ofK3]

theorem sqlOr_ofK3 (x y : K3) :
    applyOp sqlOr (some (.ofK3 x)) (some (.ofK3 y)) = some (.ofK3 (K3.or x y)) := by
  simp [applyOp, sqlOr, toK3_ofK3]

theorem K3.true_and (x : K3) : K3.and (some true) x = x := by
  rcases x with _ | _ | _ <;> rfl

theorem K3.or_true (x : K3) : K3.or x (some true) = some true := by
  rcases x with _ | _ | _ <;> rfl

theorem K3.true_or (x : K3) : K3.or (some true) x = some true := by
  rcases x with _ | _ | _ <;> rfl

theorem flag_is_off (f : Bool) :
    applyOp sqlEq (some (.bool f)) (some (.bool false)) = some (.ofK3 (some (!f))) := by
  cases f <;> rfl

theorem eq_text (c : Option String) (v : String) :
    applyOp sqlEq (some (columnValue .text c)) (some (.text v)) =
      some (.ofK3 (compareWith (fun c v => decide (c = v)) c (some v))) := by
  cases c <;> rfl

theorem cast_text (s : String) : castValue .VARCHAR (.text s) = some (.text s) := rfl

theorem cast_bool (b : Bool) : castValue .BOOLEAN (.bool b) = some (.bool b) := rfl

theorem cast_jsonb (doc : JSON) : castValue .JSONB (.jsonb doc) = some (.jsonb doc) := rfl

theorem cast_timestamp (t : pgtype.Timestamp) :
    castValue .TIMESTAMP t.toSql = some (columnValue .timestamp t.value) := by
  rcases t with ⟨time, m, valid⟩
  cases valid <;> cases m <;> rfl

theorem cast_interval (v : pgtype.Interval) :
    castValue .INTERVAL v.toSql = some (columnValue .interval v.value) := by
  rcases v with ⟨a, b, c, valid⟩
  cases valid <;> rfl

theorem ge_timestamp (c v : Option PgTime) :
    applyOp sqlGe (some (columnValue .timestamp c)) (some (columnValue .timestamp v)) =
      some (.ofK3 (compareWith (fun c v => v.le c) c v)) := by
  cases c <;> cases v <;> rfl

theorem le_timestamp (c v : Option PgTime) :
    applyOp sqlLe (some (columnValue .timestamp c)) (some (columnValue .timestamp v)) =
      some (.ofK3 (compareWith (fun c v => c.le v) c v)) := by
  cases c <;> cases v <;> rfl

theorem ge_interval (c v : Option PgInterval) :
    applyOp sqlGe (some (columnValue .interval c)) (some (columnValue .interval v)) =
      some (.ofK3 (compareWith (fun c v => decide (v.span ≤ c.span)) c v)) := by
  cases c <;> cases v <;> rfl

theorem le_interval (c v : Option PgInterval) :
    applyOp sqlLe (some (columnValue .interval c)) (some (columnValue .interval v)) =
      some (.ofK3 (compareWith (fun c v => decide (c.span ≤ v.span)) c v)) := by
  cases c <;> cases v <;> rfl

theorem contains_jsonb (c : Option JSON) (doc : JSON) :
    applyOp sqlContains (some (columnValue .jsonb c)) (some (.jsonb doc)) =
      some (.ofK3 (compareWith jsonbContains c (some doc))) := by
  cases c <;> rfl

/-- The statement evaluated on the arguments of the call is the search predicate by
field names: no evaluation fails, and each placeholder reads the field meant for it. -/
theorem condition_eq_searchPredicate (arg : FindTraceIDsParams) (row : SearchRow) :
    FindTraceIDs.condition arg row = some (.ofK3 (searchPredicate arg row)) := by
  simp only [FindTraceIDs.condition, findTraceIDs, Expr.typed, evalExpr, findTraceIDsArgs, SearchRow.column]
  simp only [List.getElem?_cons_succ, List.getElem?_cons_zero, Option.bind,
    cast_text, cast_bool, cast_jsonb, cast_timestamp, cast_interval, flag_is_off, eq_text, ge_timestamp, le_timestamp,
    ge_interval, le_interval, contains_jsonb, sqlAnd_ofK3, sqlOr_ofK3, searchPredicate,
    softDisable, K3.all, List.foldl, K3.true_and, reduceCtorEq, if_false, if_true, Nat.reduceSub, OfNat.ofNat_ne_zero,
    String.reduceEq, Nat.reduceEqDiff]

theorem selects_of_true (arg : FindTraceIDsParams) (row : SearchRow)
    (h : searchPredicate arg row = some true) :
    FindTraceIDs.condition arg row = some (.bool true) ∧ FindTraceIDs.selects arg row = true := by
  have hc : FindTraceIDs.condition arg row = some (.bool true) := by
    rw [condition_eq_searchPredicate, h]
    rfl
  exact ⟨hc, by rw [FindTraceIDs.selects, hc]; rfl⟩

/-- C15. For each of the seven filters, when its active flag is false the value of the
condition of the statement on a row (true, false or unknown) is the same whatever value
is supplied for the filter; and when all seven flags are false the condition is true on
every row, whatever its columns hold, `NULL` included. -/
theorem inactive_filter_is_ignored (arg : FindTraceIDsParams) (row : SearchRow) :
    (arg.ServiceNameEnableFilter = false → ∀ v : String,
      FindTraceIDs.condition { arg with ServiceName := v } row =
        FindTraceIDs.condition arg row) ∧
    (arg.OperationNameEnableFilter = false → ∀ v : String,
      FindTraceIDs.condition { arg with OperationName := v } row =
        FindTraceIDs.condition arg row) ∧
    (arg.StartTimeMinimumEnableFilter = false → ∀ v : pgtype.Timestamp,
      FindTraceIDs.condition { arg with StartTimeMinimum := v } row =
        FindTraceIDs.condition arg row) ∧
    (arg.StartTimeMaximumEnableFilter = false → ∀ v : pgtype.Timestamp,
      FindTraceIDs.condition { arg with StartTimeMaximum := v } row =
        FindTraceIDs.condition arg row) ∧
    (arg.DurationMinimumEnableFilter = false → ∀ v : pgtype.Interval,
      FindTraceIDs.condition { arg with DurationMinimum := v } row =
        FindTraceIDs.condition arg row) ∧
    (arg.DurationMaximumEnableFilter = false → ∀ v : pgtype.Interval,
      FindTraceIDs.condition { arg with DurationMaximum := v } row =
        FindTraceIDs.condition arg row) ∧
    (arg.TagsEnableFilter = false → ∀ v : List (String × String),
      FindTraceIDs.condition { arg with Tags := v } row = FindTraceIDs.condition arg row) ∧
    (arg.ServiceNameEnableFilter = false ∧ arg.OperationNameEnableFilter = false ∧
      arg.StartTimeMinimumEnableFilter = false ∧ arg.StartTimeMaximumEnableFilter = false ∧
      arg.DurationMinimumEnableFilter = false ∧ arg.DurationMaximumEnableFilter = false ∧
      arg.TagsEnableFilter = false →
      FindTraceIDs.condition arg row = some (.bool true) ∧
        FindTraceIDs.selects arg row = true) := by
  refine ⟨?_, ?_, ?_, ?_, ?_, ?_, ?_, ?_⟩
  · intro h v
    simp only [condition_eq_searchPredicate, searchPredicate, softDisable, h, Bool.not_false,
      K3.or_true]
  · intro h v
    simp only [condition_eq_searchPredicate, searchPredicate, softDisable, h, Bool.not_false,
      K3.or_true]
  · intro h v
    simp only [condition_eq_searchPredicate, searchPredicate, softDisable, h, Bool.not_false,
      K3.or_true]
  · intro h v
    simp only [condition_eq_searchPredicate, searchPredicate, softDisable, h, Bool.not_false,
      K3.or_true]
  · intro h v
    simp only [condition_eq_searchPredicate, searchPredicate, softDisable, h, Bool.not_false,
      K3.or_true]
  · intro h v
    simp only [condition_eq_searchPredicate, searchPredicate, softDisable, h, Bool.not_false,
      K3.or_true]
  · intro h v
    simp only [condition_eq_searchPredicate, searchPredicate, h, Bool.not_false, K3.true_or]
  · rintro ⟨h1, h2, h3, h4, h5, h6, h7⟩
    apply selects_of_true
    simp only [searchPredicate, softDisable, h1, h2, h3, h4, h5, h6, h7, Bool.not_false,
      K3.or_true, K3.true_or, K3.all, List.foldl, K3.true_and]


/-- Witness of C15: on a row of another service and outside every bound, replacing the
value of each inactive filter leaves the condition as it is, and the condition is true. -/
theorem inactive_filter_is_ignored_witness :
    FindTraceIDs.condition { allOff with ServiceName := "billing" } prodRow =
        FindTraceIDs.condition allOff prodRow ∧
      FindTraceIDs.condition { allOff with OperationName := "" } prodRow =
        FindTraceIDs.condition allOff prodRow ∧
      FindTraceIDs.condition { allOff with StartTimeMinimum := ⟨⟨0, 0⟩, .Infinity, true⟩ }
        prodRow = FindTraceIDs.condition allOff prodRow ∧
      FindTraceIDs.condition { allOff with StartTimeMaximum := ⟨⟨0, 0⟩, .Finite, false⟩ }
        prodRow = FindTraceIDs.condition allOff prodRow ∧
      FindTraceIDs.condition { allOff with DurationMinimum := EncodeInterval 1 } prodRow =
        FindTraceIDs.condition allOff prodRow ∧
      FindTraceIDs.condition { allOff with DurationMaximum := EncodeInterval (-1) } prodRow =
        FindTraceIDs.condition allOff prodRow ∧
      FindTraceIDs.condition { allOff with Tags := [("env", "dev")] } prodRow =
        FindTraceIDs.condition allOff prodRow ∧
      FindTraceIDs.condition allOff prodRow = some (.bool true) ∧
      FindTraceIDs.selects allOff prodRow = true :=
  ⟨(inactive_filter_is_ignored allOff prodRow).1 rfl _,
    (inactive_filter_is_ignored allOff prodRow).2.1 rfl _,
    (inactive_filter_is_ignored allOff prodRow).2.2.1 rfl _,
    (inactive_filter_is_ignored allOff prodRow).2.2.2.1 rfl _,
    (inactive_filter_is_ignored allOff prodRow).2.2.2.2.1 rfl _,
    (inactive_filter_is_ignored allOff prodRow).2.2.2.2.2.1 rfl _,
    (inactive_filter_is_ignored allOff prodRow).2.2.2.2.2.2.1 rfl _,
    (inactive_filter_is_ignored allOff prodRow).2.2.2.2.2.2.2 ⟨rfl, rfl, rfl, rfl, rfl, rfl, rfl⟩⟩

/-! ### The tag filter -/

theorem EncodeTags_stored (L : GoLib) (xs : List KeyValue) (bytes : String)
    (h : EncodeTags L xs = .ok bytes) :
    jsonbIn bytes = some (.arr ((xs.map (encodeTag L)).map databaseTag.toJSON)) := by
  simp only [EncodeTags, marshalTags, Outcome.ok.injEq] at h
  subst h
  exact parseJSON_renderJSON _ (by simpa [JSON.numbersOk] using numbersOk_tags L xs)

theorem stored_tag_contains (L : GoLib) (kv : KeyValue) (h : kv.VType = ValueType_STRING) :
    containsValue (databaseTag.toJSON (encodeTag L kv))
      (TagContent.toJSON { Key := kv.Key, Value := kv.VStr }) = true := by
  simp [databaseTag.toJSON, TagContent.toJSON, encodeTag, h, containsValue, containsMembers,
    hasKey, memberLast, scalarEq]

theorem stored_tags_contain (L : GoLib) (xs : List KeyValue) (m : List (String × String))
    (hm : ∀ entry ∈ m, ∃ kv ∈ xs,
      kv.VType = ValueType_STRING ∧ kv.Key = entry.1 ∧ kv.VStr = entry.2) :
    jsonbContains (.arr ((xs.map (encodeTag L)).map databaseTag.toJSON))
      (tagsDocument (formatTags m)) = true := by
  simp only [jsonbContains, tagsDocument, JSON.isScalar, containsValue, Bool.false_eq_true,
    if_false]
  induction m with
  | nil => rfl
  | cons entry rest ih =>
    simp only [formatTags, List.map_cons, containsElems, Bool.and_eq_true]
    refine ⟨?_, ih fun e he => hm e (List.mem_cons_of_mem _ he)⟩
    obtain ⟨kv, hkv, ht, hk, hv⟩ := hm entry (List.mem_cons_self _ _)
    rw [List.any_eq_true]
    refine ⟨databaseTag.toJSON (encodeTag L kv), ?_, ?_⟩
    · exact List.mem_map_of_mem _ (List.mem_map_of_mem _ hkv)
    · rw [← hk, ← hv]
      exact stored_tag_contains L kv ht

/-- C16. With the six scalar filters inactive and the tag filter active with the map m, a
row whose stored tags, or whose stored process tags, are the document of `EncodeTags` of a
list holding a string tag with key k and value v for every (k, v) of m satisfies the
condition of the statement, whatever its other columns: the document of `formatTags` m is
contained in the stored one. -/
theorem tag_filter_selects (L : GoLib) (arg : FindTraceIDsParams) (row : SearchRow)
    (xs : List KeyValue) (bytes : String)
    (hoff : arg.ServiceNameEnableFilter = false ∧ arg.OperationNameEnableFilter = false ∧
      arg.StartTimeMinimumEnableFilter = false ∧ arg.StartTimeMaximumEnableFilter = false ∧
      arg.DurationMinimumEnableFilter = false ∧ arg.DurationMaximumEnableFilter = false)
    (hon : arg.TagsEnableFilter = true)
    (henc : EncodeTags L xs = .ok bytes)
    (hrow : row.tags = jsonbIn bytes ∨ row.process_tags = jsonbIn bytes)
    (hm : ∀ entry ∈ arg.Tags, ∃ kv ∈ xs,
      kv.VType = ValueType_STRING ∧ kv.Key = entry.1 ∧ kv.VStr = entry.2) :
    (∃ stored, jsonbIn bytes = some stored ∧
      jsonbContains stored (tagsDocument (formatTags arg.Tags)) = true) ∧
    FindTraceIDs.condition arg row = some (.bool true) ∧
    FindTraceIDs.selects arg row = true := by
  obtain ⟨h1, h2, h3, h4, h5, h6⟩ := hoff
  have hs := EncodeTags_stored L xs bytes henc
  have hc := stored_tags_contain L xs arg.Tags hm
  refine ⟨⟨_, hs, hc⟩, ?_⟩
  apply selects_of_true
  simp only [searchPredicate, softDisable, h1, h2, h3, h4, h5, h6, hon, Bool.not_false,
    K3.or_true, K3.all, List.foldl, K3.true_and]
  rcases hrow with hr | hr
  · rw [hr, hs]
    simp only [compareWith, hc, K3.or_true, K3.true_or]
  · rw [hr, hs]
    simp only [compareWith, hc, K3.or_true]

/-- Witness of C16: the filter env = prod, alone active, selects a row of another service
whose tags were stored from the string tag env = prod and the int64 tag retries = 3. -/
theorem tag_filter_selects_witness :
    (∃ stored, jsonbIn
        "[\x7b\"Key\":\"env\",\"Value\":\"prod\",\"Type\":0\x7d,\x7b\"Key\":\"retries\",\"Value\":\"3\",\"Type\":2\x7d]" =
          some stored ∧
      jsonbContains stored (tagsDocument (formatTags [("env", "prod")])) = true) ∧
    FindTraceIDs.condition { allOff with TagsEnableFilter := true } prodRow =
      some (.bool true) ∧
    FindTraceIDs.selects { allOff with TagsEnableFilter := true } prodRow = true :=
  tag_filter_selects refLib { allOff with TagsEnableFilter := true } prodRow
    [{ KeyValue.new "env" ValueType_STRING with VStr := "prod" },
      { KeyValue.new "retries" ValueType_INT64 with VInt64 := 3 }] _
    ⟨rfl, rfl, rfl, rfl, rfl, rfl⟩ rfl (by decide) (Or.inl (by rfl)) (by decide)

/-! ### The parameters of the call -/

/-- C20. The call passes exactly 15 arguments; the statement uses the placeholders 1 to 15
and no other; the n-th argument is the field the claim names for it; with these arguments
the condition of the statement is the search predicate by field names (so each placeholder
stands where its field is meant), and the `LIMIT` is `NumTraces`. -/
theorem FindTraceIDs_passes_fifteen (arg : FindTraceIDsParams) (row : SearchRow) :
    (findTraceIDsArgs arg).length = 15 ∧
    (∀ n, n ∈ findTraceIDs.condition.params ++ findTraceIDs.limit.params ↔ 1 ≤ n ∧ n ≤ 15) ∧
    (List.range 16).map (fun i => evalExpr row (findTraceIDsArgs arg) (.param (i + 1))) =
      [some (.text arg.ServiceName), some (.bool arg.ServiceNameEnableFilter),
        some (.text arg.OperationName), some (.bool arg.OperationNameEnableFilter),
        some arg.StartTimeMinimum.toSql, some (.bool arg.StartTimeMinimumEnableFilter),
        some arg.StartTimeMaximum.toSql, some (.bool arg.StartTimeMaximumEnableFilter),
        some arg.DurationMinimum.toSql, some (.bool arg.DurationMinimumEnableFilter),
        some arg.DurationMaximum.toSql, some (.bool arg.DurationMaximumEnableFilter),
        some (.jsonb (tagsDocument (formatTags arg.Tags))), some (.bool arg.TagsEnableFilter),
        some (.int arg.NumTraces), none] ∧
    evalExpr row (findTraceIDsArgs arg) findTraceIDs.condition =
      some (.ofK3 (searchPredicate arg row)) ∧
    evalExpr row (findTraceIDsArgs arg) findTraceIDs.limit = some (.int arg.NumTraces) := by
  refine ⟨rfl, ?_, rfl, condition_eq_searchPredicate arg row, rfl⟩
  intro n
  simp only [findTraceIDs, Expr.typed, Expr.params, List.append_nil, List.nil_append,
    List.cons_append, List.mem_cons, List.mem_singleton, List.not_mem_nil, or_false]
  omega


/-! ### The tag filter and the type of a tag -/

theorem stored_tag_contains_iff (tag : databaseTag) (f : TagContent) :
    containsValue tag.toJSON f.toJSON =
      (tag.TagContent.Key == f.Key && tag.TagContent.Value == f.Value) := by
  simp only [databaseTag.toJSON, TagContent.toJSON, containsValue, containsMembers, hasKey,
    memberLast, scalarEq]
  simp

theorem stored_tags_any (L : GoLib) (xs : List KeyValue) (f : TagContent) :
    (((xs.map (encodeTag L)).map databaseTag.toJSON).any fun a =>
      containsValue a f.toJSON) =
      xs.any fun kv => kv.Key == f.Key && (encodeTag L kv).TagContent.Value == f.Value := by
  induction xs with
  | nil => rfl
  | cons kv rest ih =>
    simp only [List.map_cons, List.any_cons, ih, stored_tag_contains_iff]
    rfl

theorem stored_tags_contain_iff (L : GoLib) (xs : List KeyValue) (m : List (String × String)) :
    jsonbContains (.arr ((xs.map (encodeTag L)).map databaseTag.toJSON))
      (tagsDocument (formatTags m)) =
      m.all fun entry => xs.any fun kv =>
        kv.Key == entry.1 && (encodeTag L kv).TagContent.Value == entry.2 := by
  simp only [jsonbContains, tagsDocument, JSON.isScalar, containsValue, Bool.false_eq_true,
    if_false, formatTags]
  induction m with
  | nil => rfl
  | cons entry rest ih =>
    simp only [List.map_cons, containsElems, List.all_cons, ih]
    congr 1
    exact stored_tags_any L xs _

/-- C21. The filter document holds only keys and text values, and whether the stored
document of `EncodeTags` contains it depends on the keys and the stored texts of the tags
alone, not on their types. So with the tag filter alone active, a row whose stored tags
(or process tags) come from a list holding, for every (k, v) of the filter, a tag with key
k whose stored text is v, whatever its type, satisfies the condition of the statement. -/
theorem tag_filter_ignores_type (L : GoLib) (arg : FindTraceIDsParams) (row : SearchRow)
    (xs : List KeyValue) (bytes : String)
    (hoff : arg.ServiceNameEnableFilter = false ∧ arg.OperationNameEnableFilter = false ∧
      arg.StartTimeMinimumEnableFilter = false ∧ arg.StartTimeMaximumEnableFilter = false ∧
      arg.DurationMinimumEnableFilter = false ∧ arg.DurationMaximumEnableFilter = false)
    (hon : arg.TagsEnableFilter = true)
    (henc : EncodeTags L xs = .ok bytes)
    (hrow : row.tags = jsonbIn bytes ∨ row.process_tags = jsonbIn bytes)
    (hm : ∀ entry ∈ arg.Tags, ∃ kv ∈ xs,
      kv.Key = entry.1 ∧ (encodeTag L kv).TagContent.Value = entry.2) :
    (∃ stored, jsonbIn bytes = some stored ∧
      (∀ m : List (String × String), jsonbContains stored (tagsDocument (formatTags m)) =
        m.all fun entry => xs.any fun kv =>
          kv.Key == entry.1 && (encodeTag L kv).TagContent.Value == entry.2) ∧
      jsonbContains stored (tagsDocument (formatTags arg.Tags)) = true) ∧
    FindTraceIDs.condition arg row = some (.bool true) ∧
    FindTraceIDs.selects arg row = true := by
  obtain ⟨h1, h2, h3, h4, h5, h6⟩ := hoff
  have hs := EncodeTags_stored L xs bytes henc
  have hc : jsonbContains (.arr ((xs.map (encodeTag L)).map databaseTag.toJSON))
      (tagsDocument (formatTags arg.Tags)) = true := by
    rw [stored_tags_contain_iff, List.all_eq_true]
    intro entry he
    obtain ⟨kv, hkv, hk, hv⟩ := hm entry he
    exact List.any_eq_true.2 ⟨kv, hkv, by simp [hk, hv]⟩
  refine ⟨⟨_, hs, stored_tags_contain_iff L xs, hc⟩, ?_⟩
  apply selects_of_true
  simp only [searchPredicate, softDisable, h1, h2, h3, h4, h5, h6, hon, Bool.not_false,
    K3.or_true, K3.all, List.foldl, K3.true_and]
  rcases hrow with hr | hr
  · rw [hr, hs]
    simp only [compareWith, hc, K3.or_true, K3.true_or]
  · rw [hr, hs]
    simp only [compareWith, hc, K3.or_true]

/-- Witness of C21: the filter n = "1", b = "true" selects the row stored from the int64
tag n = 1 and the bool tag b = true, exactly as it selects the row stored from the string
tags n = "1" and b = "true". -/
theorem tag_filter_ignores_type_witness :
    (FindTraceIDs.condition textFilter typedRow = some (.bool true) ∧
      FindTraceIDs.selects textFilter typedRow = true) ∧
    (FindTraceIDs.condition textFilter stringRow = some (.bool true) ∧
      FindTraceIDs.selects textFilter stringRow = true) :=
  ⟨(tag_filter_ignores_type refLib textFilter typedRow
      [{ KeyValue.new "n" ValueType_INT64 with VInt64 := 1 },
        { KeyValue.new "b" ValueType_BOOL with VBool := true }]
      "[\x7b\"Key\":\"n\",\"Value\":\"1\",\"Type\":2\x7d,\x7b\"Key\":\"b\",\"Value\":\"true\",\"Type\":1\x7d]"
      ⟨rfl, rfl, rfl, rfl, rfl, rfl⟩ rfl (by decide) (Or.inl (by rfl)) (by decide)).2,
    (tag_filter_ignores_type refLib textFilter stringRow
      [{ KeyValue.new "n" ValueType_STRING with VStr := "1" },
        { KeyValue.new "b" ValueType_STRING with VStr := "true" }]
      "[\x7b\"Key\":\"n\",\"Value\":\"1\",\"Type\":0\x7d,\x7b\"Key\":\"b\",\"Value\":\"true\",\"Type\":0\x7d]"
      ⟨rfl, rfl, rfl, rfl, rfl, rfl⟩ rfl (by decide) (Or.inr (by rfl)) (by decide)).2⟩


/-! ### Intervals -/

theorem tdiv_thousand (d : Int) :
    (0 ≤ d → Int.tdiv d 1000 = d / 1000) ∧ (d ≤ 0 → Int.tdiv d 1000 = -(-d / 1000)) := by
  constructor
  · intro h
    exact Int.tdiv_eq_ediv h (by decide)
  · intro h
    have h1 := Int.neg_tdiv (-d) 1000
    rw [neg_neg, Int.tdiv_eq_ediv (show 0 ≤ -d by omega) (by decide)] at h1
    exact h1

theorem Microseconds_bounds (d : Int) :
    (0 ≤ d → 1000 * Duration.Microseconds d ≤ d ∧ d < 1000 * Duration.Microseconds d + 1000) ∧
    (d ≤ 0 → 1000 * Duration.Microseconds d - 1000 < d ∧ d ≤ 1000 * Duration.Microseconds d) := by
  unfold Duration.Microseconds
  constructor
  · intro h
    rw [(tdiv_thousand d).1 h]
    omega
  · intro h
    rw [(tdiv_thousand d).2 h]
    omega

theorem Microseconds_exact (q : Int) : Duration.Microseconds (1000 * q) = q := by
  unfold Duration.Microseconds
  rcases le_total 0 q with h | h
  · rw [(tdiv_thousand _).1 (by omega)]
    omega
  · rw [(tdiv_thousand _).2 (by omega)]
    omega

theorem Microseconds_sign (d : Int) :
    Duration.Microseconds d = Int.sign d * ((d.natAbs / 1000 : Nat) : Int) := by
  unfold Duration.Microseconds
  rcases le_total 0 d with h0 | h0
  · rw [(tdiv_thousand d).1 h0]
    rcases Int.eq_ofNat_of_zero_le h0 with ⟨n, rfl⟩
    rcases Nat.eq_zero_or_pos n with rfl | hn
    · simp
    · rw [Int.sign_eq_one_of_pos (by omega), one_mul]
      simp only [Int.natAbs_ofNat]
      omega
  · rw [(tdiv_thousand d).2 h0]
    rcases Int.eq_ofNat_of_zero_le (show 0 ≤ -d by omega) with ⟨n, hn⟩
    have hd : d = -(n : Int) := by omega
    subst hd
    rcases Nat.eq_zero_or_pos n with rfl | hn
    · simp
    · rw [Int.sign_eq_neg_one_of_neg (by omega)]
      simp only [Int.natAbs_neg, Int.natAbs_ofNat, neg_neg]
      omega

theorem Microseconds_int64 (d : Int) (h : -2 ^ 63 ≤ d ∧ d < 2 ^ 63) :
    -2 ^ 63 ≤ Duration.Microseconds d ∧ Duration.Microseconds d < 2 ^ 63 := by
  have hb := Microseconds_bounds d
  rcases le_total 0 d with h0 | h0
  · have := hb.1 h0
    omega
  · have := hb.2 h0
    omega

/-- C22. For every duration d in the int64 range, `EncodeInterval` d is valid, has zero
months and zero days, and its microseconds are d / 1000 truncated toward zero: the sign of
d times the whole number of thousands in its magnitude, so at most d in magnitude and less
than 1000 away from it, and again an int64. Two durations encode alike exactly when their
truncated quotients agree, and d encodes as its whole microseconds do: what is below a
microsecond is not stored. -/
theorem EncodeInterval_truncates (d : Duration) (h : -2 ^ 63 ≤ d ∧ d < 2 ^ 63) :
    (EncodeInterval d).Valid = true ∧ (EncodeInterval d).Months = 0 ∧
    (EncodeInterval d).Days = 0 ∧
    (EncodeInterval d).Microseconds = Int.sign d * ((d.natAbs / 1000 : Nat) : Int) ∧
    (0 ≤ d → 1000 * (EncodeInterval d).Microseconds ≤ d ∧
      d < 1000 * (EncodeInterval d).Microseconds + 1000) ∧
    (d ≤ 0 → 1000 * (EncodeInterval d).Microseconds - 1000 < d ∧
      d ≤ 1000 * (EncodeInterval d).Microseconds) ∧
    (-2 ^ 63 ≤ (EncodeInterval d).Microseconds ∧ (EncodeInterval d).Microseconds < 2 ^ 63) ∧
    (∀ d' : Duration, EncodeInterval d' = EncodeInterval d ↔
      Duration.Microseconds d' = Duration.Microseconds d) ∧
    EncodeInterval (1000 * (EncodeInterval d).Microseconds) = EncodeInterval d := by
  have hb := Microseconds_bounds d
  refine ⟨rfl, rfl, rfl, Microseconds_sign d, hb.1, hb.2, Microseconds_int64 d h, ?_, ?_⟩
  · intro d'
    constructor
    · intro he
      exact congrArg pgtype.Interval.Microseconds he
    · intro he
      simp only [EncodeInterval, he]
  · simp only [EncodeInterval, Microseconds_exact]

/-- Witness of C22: 1999 nanoseconds before zero are stored as one microsecond before
zero, as 1000 nanoseconds before zero are; and 999 nanoseconds are stored as zero. -/
theorem EncodeInterval_truncates_witness :
    (EncodeInterval (-1999)).Microseconds = -1 ∧
    EncodeInterval (-1000) = EncodeInterval (-1999) ∧
    EncodeInterval (1000 * (EncodeInterval 999).Microseconds) = EncodeInterval 999 ∧
    EncodeInterval 999 = EncodeInterval 0 :=
  ⟨(EncodeInterval_truncates (-1999) (by decide)).2.2.2.1.trans (by decide),
    ((EncodeInterval_truncates (-1999) (by decide)).2.2.2.2.2.2.2.1 (-1000)).2 (by decide),
    (EncodeInterval_truncates 999 (by decide)).2.2.2.2.2.2.2.2,
    (((EncodeInterval_truncates 0 (by decide)).2.2.2.2.2.2.2.1 999).2 (by decide))⟩

end Store
